import Mathlib

/-!
# truss: message allocator, interpreter mailbox and run loop

A shallow embedding of `src/truss.cpp` and `src/truss/core.cpp`.

* Messages live in a heap addressed by pointers. An operation that dereferences a pointer
  to a message that is not live (never allocated, or already deallocated) is undefined
  behaviour in C++; here it yields `none`.
* Every deallocation is appended to the heap's `freed` log, so "freed exactly once" is a
  statement about that log.
* The mutexes are not modelled: the embedding is the sequential semantics of each method.
* Counts and reference counts are mathematical integers (they stay far below the machine
  limits: a reference count of `2^31` needs `2^31` acquire calls).
-/

namespace Truss

/-- A pointer to a message: an address of the heap. -/
abbrev Ptr := Nat

/-- Modelled from the spec: the message struct, whose declaration (`trussapi.h`) is not among
the sources: a type tag, a byte buffer with its length, and an integer reference count.
The fields keep the names the code uses (`message_type`, `data_length`, `data`, `refcount`). -/
structure truss_message where
  message_type : Nat
  data_length : Nat
  data : List Nat
  refcount : Int
deriving DecidableEq, Repr

/-- The buffer of a message holds exactly `data_length` bytes (as the allocator makes it). -/
def truss_message.wellFormed (m : truss_message) : Prop :=
  m.data.length = m.data_length

instance (m : truss_message) : Decidable m.wellFormed := by
  unfold truss_message.wellFormed; infer_instance

/-- The message heap: cell `p` holds the message `p` points to, or `none` once it has been
deallocated; `freed` logs every `deallocateMessage`, oldest first. -/
structure Heap where
  cells : List (Option truss_message)
  freed : List Ptr
deriving DecidableEq, Repr

/-- The live message a pointer refers to, if any. -/
def Heap.lookup (h : Heap) (p : Ptr) : Option truss_message :=
  (h.cells[p]?).join

/-- Store through a pointer. -/
def Heap.write (h : Heap) (p : Ptr) (m : truss_message) : Heap :=
  { h with cells := h.cells.set p (some m) }

namespace Core

/-- The function `Core::allocateMessage`: `new truss_message`, `new unsigned char[dataLength]`,
then `data_length = dataLength; refcount = 1`. Neither the type tag nor the bytes are
initialised by the code: their indeterminate values are the parameters `junkType`, `junk`. -/
def allocateMessage (h : Heap) (dataLength : Nat) (junkType : Nat) (junk : Nat → Nat) :
    Heap × Ptr :=
  let ret : truss_message :=
    { message_type := junkType
      data := (List.range dataLength).map (fun i => junk i % 256)
      data_length := dataLength
      refcount := 1 }
  ({ h with cells := h.cells ++ [some ret] }, h.cells.length)

/-- The function `Core::deallocateMessage`: `delete[] msg->data; delete msg`. -/
def deallocateMessage (h : Heap) (msg : Ptr) : Option Heap :=
  match h.lookup msg with
  | none => none
  | some _ => some { cells := h.cells.set msg none, freed := h.freed ++ [msg] }

/-- The function `Core::acquireMessage`: `++(msg->refcount)`. -/
def acquireMessage (h : Heap) (msg : Ptr) : Option Heap :=
  match h.lookup msg with
  | none => none
  | some m => some (h.write msg { m with refcount := m.refcount + 1 })

/-- The function `Core::releaseMessage`: `--(msg->refcount)`, then `deallocateMessage(msg)`
if `msg->refcount <= 0`. -/
def releaseMessage (h : Heap) (msg : Ptr) : Option Heap :=
  match h.lookup msg with
  | none => none
  | some m =>
    let m1 : truss_message := { m with refcount := m.refcount - 1 }
    let h1 := h.write msg m1
    if m1.refcount ≤ 0 then deallocateMessage h1 msg else some h1

/-- The C `memcpy(dest, src, n)` on byte buffers: undefined when either buffer is shorter
than `n`. -/
def memcpy (dest src : List Nat) (n : Nat) : Option (List Nat) :=
  if n ≤ src.length ∧ n ≤ dest.length then some (src.take n ++ dest.drop n) else none

/-- The function `Core::copyMessage`: allocate `src->data_length` bytes, copy the type tag,
`memcpy(newmsg->data, src->data, newmsg->data_length)`. -/
def copyMessage (h : Heap) (src : Ptr) (junkType : Nat) (junk : Nat → Nat) :
    Option (Heap × Ptr) :=
  match h.lookup src with
  | none => none
  | some s =>
    let a := allocateMessage h s.data_length junkType junk
    match a.1.lookup a.2 with
    | none => none
    | some n0 =>
      let n1 : truss_message := { n0 with message_type := s.message_type }
      match memcpy n1.data s.data n1.data_length with
      | none => none
      | some bytes => some (a.1.write a.2 { n1 with data := bytes }, a.2)

end Core

/-- The C API function `trss_acquire_message` of `truss.cpp`: `++(msg->_refcount)`. -/
def trss_acquire_message (h : Heap) (msg : Ptr) : Option Heap :=
  match h.lookup msg with
  | none => none
  | some m => some (h.write msg { m with refcount := m.refcount + 1 })

/-- The C API function `trss_release_message` of `truss.cpp`: `--(msg->_refcount)`, then
`Core::getCore()->deallocateMessage(msg)` if `msg->_refcount <= 0`. -/
def trss_release_message (h : Heap) (msg : Ptr) : Option Heap :=
  match h.lookup msg with
  | none => none
  | some m =>
    let m1 : truss_message := { m with refcount := m.refcount - 1 }
    let h1 := h.write msg m1
    if m1.refcount ≤ 0 then Core.deallocateMessage h1 msg else some h1

/-- The C API function `trss_copy_message` of `truss.cpp`. -/
def trss_copy_message (h : Heap) (src : Ptr) (junkType : Nat) (junk : Nat → Nat) :
    Option (Heap × Ptr) :=
  match h.lookup src with
  | none => none
  | some s =>
    let a := Core.allocateMessage h s.data_length junkType junk
    match a.1.lookup a.2 with
    | none => none
    | some n0 =>
      let n1 : truss_message := { n0 with message_type := s.message_type }
      match Core.memcpy n1.data s.data n1.data_length with
      | none => none
      | some bytes => some (a.1.write a.2 { n1 with data := bytes }, a.2)

/-- The call `op(msg)` made `n` times in a row. -/
def callTimes (op : Heap → Ptr → Option Heap) (msg : Ptr) : Nat → Heap → Option Heap
  | 0, h => some h
  | n + 1, h => (op h msg).bind (callTimes op msg n)

/-! ## Interpreter -/

/-- An extension module attached to an interpreter (an `Addon*`); its behaviour is external. -/
structure Addon where
  id : Nat
deriving DecidableEq, Repr

/-- A non-NULL `SDL_Thread*` handle. -/
abbrev Thread := Nat

/-- What the interpreter does to the outside world: console output, calls of module hooks,
calls into the VM, thread creation. -/
inductive Event where
  /-- Console output `std::cout << text`. -/
  | log (text : String)
  /-- Console output of the VM's error text, `lua_tostring(_terraState, -1)`. -/
  | luaError
  /-- The statement `delete addon`. -/
  | deleteAddon (a : Addon)
  /-- The call `SDL_CreateThread(run_interpreter_thread, name, this)`. -/
  | createThread (name : String)
  /-- Creation of the VM: `luaL_newstate` up to `terra_initwithoptions`. -/
  | newState
  /-- The call `trss_load_file(filename, TRSS_CORE_PATH)`. -/
  | loadFile (filename : String)
  /-- The bootstrap chunk: `terra_loadbuffer(.., data, length, chunkname)` and its `lua_pcall`. -/
  | loadBuffer (data : List Nat) (length : Nat) (chunkname : String)
  /-- The hook call `addon->init(this)`. -/
  | addonInit (a : Addon)
  /-- The hook call `addon->update(dt)`, with `dt` the quotient `num / den`. -/
  | addonUpdate (a : Addon) (num den : Nat)
  /-- The protected call of the global `funcname`, made by `_safeLuaCall`. -/
  | luaCall (funcname : String) (argstr : Option String)
deriving DecidableEq, Repr

/-- The class `Interpreter` of `truss.cpp`: the fields its methods read or write. The two
mailbox vectors are held by value; the mutexes and the VM handle are outside the model. -/
structure Interpreter where
  _ID : Int
  _name : String
  _thread : Option Thread
  _running : Bool
  _arg : String
  _addons : List Addon
  _curMessages : List Ptr
  _fetchedMessages : List Ptr
deriving DecidableEq, Repr

/-- A call made on the interpreter from outside its run loop's own statements: by a module
hook, by script code, or by another thread. -/
inductive ApiCall where
  | stop
  | attachAddon (a : Addon)
deriving DecidableEq, Repr

/-- The external collaborators of one run of the run loop. External calls (the bootstrap
chunk, module hooks, VM entry points) are numbered from 0 in the order they are made. -/
structure World where
  /-- Result of `trss_load_file("bootstrap.t", TRSS_CORE_PATH)`; `none` is `NULL`. -/
  bootstrap : Option truss_message
  /-- Result of the `lua_pcall` of external call `k`. -/
  pcall : Nat → Int
  /-- The calls made on this interpreter while external call `k` is in progress. -/
  during : Nat → List ApiCall

/-- Progress of a run loop: the interpreter, the events so far, the number of external calls
made so far. -/
structure Run where
  self : Interpreter
  trace : List Event
  calls : Nat
deriving DecidableEq, Repr

/-- The text printed when a start is refused. -/
def alreadyRunningText : String := "Can't start interpreter twice: already running\n"

/-- The double `1.0 / 60.0` of the run loop, as numerator and denominator. -/
def dtNum : Nat := 1

/-- Denominator of the frame delta. -/
def dtDen : Nat := 60

namespace Interpreter

/-- The constructor `Interpreter::Interpreter(id, name)`. -/
def ctor (id : Int) (name : String) : Truss.Interpreter :=
  { _ID := id, _name := name, _thread := none, _running := false, _arg := "",
    _addons := [], _curMessages := [], _fetchedMessages := [] }

/-- The method `Interpreter::attachAddon`. -/
def attachAddon (self : Truss.Interpreter) (addon : Addon) : Truss.Interpreter × List Event :=
  if !self._running && self._thread == none then
    ({ self with _addons := self._addons ++ [addon] }, [])
  else
    (self, [Event.log "Cannot attach addon to running interpreter.\n", Event.deleteAddon addon])

/-- The method `Interpreter::stop`. -/
def stop (self : Truss.Interpreter) : Truss.Interpreter :=
  { self with _running := false }

/-- The method `Interpreter::getID`. -/
def getID (self : Truss.Interpreter) : Int :=
  self._ID

/-- The method `Interpreter::start`; `created` is what `SDL_CreateThread` returns. The new
thread runs `_threadEntry` on this interpreter. -/
def start (self : Truss.Interpreter) (arg : String) (created : Option Thread) :
    Truss.Interpreter × List Event :=
  if self._thread != none || self._running then
    (self, [Event.log alreadyRunningText])
  else
    ({ self with _arg := arg, _running := true, _thread := created },
      [Event.createThread self._name])

/-- One call made on the interpreter from outside the loop. -/
def applyCall (self : Truss.Interpreter) : ApiCall → Truss.Interpreter × List Event
  | ApiCall.stop => (stop self, [])
  | ApiCall.attachAddon a => attachAddon self a

/-- Several such calls, in order. -/
def applyCalls (self : Truss.Interpreter) : List ApiCall → Truss.Interpreter × List Event
  | [] => (self, [])
  | c :: cs =>
    let r := applyCall self c
    let rs := applyCalls r.1 cs
    (rs.1, r.2 ++ rs.2)

/-- An external call `e` made by the run loop: it is recorded, and the calls the outside
makes on the interpreter while it is in progress take effect. -/
def external (w : World) (r : Run) (e : Event) : Run :=
  let a := applyCalls r.self (w.during r.calls)
  { self := a.1, trace := r.trace ++ [e] ++ a.2, calls := r.calls + 1 }

/-- The method `Interpreter::_safeLuaCall`: a protected call of the global `funcname`; a
non-zero result is printed. -/
def _safeLuaCall (w : World) (r : Run) (funcname : String) (argstr : Option String) : Run :=
  let res := w.pcall r.calls
  let r1 := external w r (Event.luaCall funcname argstr)
  if res ≠ 0 then { r1 with trace := r1.trace ++ [Event.luaError] } else r1

/-- The loop `for (i = 0; i < _addons.size(); ++i) _addons[i]->init(this)`, from index `i`. -/
def initAddons (w : World) : Nat → Nat → Run → Option Run
  | 0, _, _ => none
  | fuel + 1, i, r =>
    match r.self._addons[i]? with
    | none => some r
    | some a => initAddons w fuel (i + 1) (external w r (Event.addonInit a))

/-- The loop `for (i = 0; i < _addons.size(); ++i) _addons[i]->update(dt)`, from index `i`. -/
def updateAddons (w : World) : Nat → Nat → Run → Option Run
  | 0, _, _ => none
  | fuel + 1, i, r =>
    match r.self._addons[i]? with
    | none => some r
    | some a => updateAddons w fuel (i + 1) (external w r (Event.addonUpdate a dtNum dtDen))

/-- The loop `while (_running) { update addons; _safeLuaCall("_coreUpdate"); }` followed by
the shutdown message. -/
def mainLoop (w : World) : Nat → Run → Option Run
  | 0, _ => none
  | fuel + 1, r =>
    if r.self._running then
      (updateAddons w fuel 0 r).bind fun r1 =>
        mainLoop w fuel (_safeLuaCall w r1 "_coreUpdate" none)
    else
      some { r with trace := r.trace ++ [Event.log "Shutting down.\n"] }

/-- The method `Interpreter::_threadEntry`: the run loop. `none` when `fuel` external steps
do not suffice for it to return. -/
def _threadEntry (self : Truss.Interpreter) (w : World) (fuel : Nat) : Option Run :=
  let r0 : Run := { self := self, trace := [Event.newState, Event.loadFile "bootstrap.t"],
                    calls := 0 }
  match w.bootstrap with
  | none =>
    some { r0 with self := { r0.self with _running := false }
                   trace := r0.trace ++ [Event.log "Error loading bootstrap script.\n"] }
  | some bootstrap =>
    let res := w.pcall r0.calls
    let r1 := external w r0 (Event.loadBuffer bootstrap.data bootstrap.data_length "bootstrap.t")
    if res ≠ 0 then
      some { r1 with self := { r1.self with _running := false }
                     trace := r1.trace ++
                       [Event.log "Error bootstrapping interpreter: ", Event.luaError] }
    else
      (initAddons w fuel 0 r1).bind fun r2 =>
        mainLoop w fuel (_safeLuaCall w r2 "_coreInit" (some r2.self._arg))

/-- The method `Interpreter::startUnthreaded`: the run loop runs on the calling thread. -/
def startUnthreaded (self : Truss.Interpreter) (arg : String) (w : World) (fuel : Nat) :
    Option Run :=
  if self._thread != none || self._running then
    some { self := self, trace := [Event.log alreadyRunningText], calls := 0 }
  else
    _threadEntry { self with _arg := arg, _running := true } w fuel

/-- The method `Interpreter::sendMessage`. -/
def sendMessage (h : Heap) (self : Truss.Interpreter) (message : Ptr) :
    Option (Heap × Truss.Interpreter) :=
  (trss_acquire_message h message).map fun h1 =>
    (h1, { self with _curMessages := self._curMessages ++ [message] })

/-- The loop of `fetchMessages` that calls `trss_release_message` on every element. -/
def releaseAll : Heap → List Ptr → Option Heap
  | h, [] => some h
  | h, p :: ps => (trss_release_message h p).bind fun h1 => releaseAll h1 ps

/-- The method `Interpreter::fetchMessages`: the new state and the returned count. -/
def fetchMessages (h : Heap) (self : Truss.Interpreter) :
    Option (Heap × Truss.Interpreter × Int) :=
  let temp := self._curMessages
  let s1 : Truss.Interpreter := { self with _curMessages := self._fetchedMessages }
  let s2 : Truss.Interpreter := { s1 with _fetchedMessages := temp }
  (releaseAll h s2._curMessages).map fun h1 =>
    let s3 : Truss.Interpreter := { s2 with _curMessages := [] }
    (h1, s3, (s3._fetchedMessages.length : Int))

/-- The method `Interpreter::getMessage`: `(*_fetchedMessages)[index]`, without a bounds
check; an index outside the vector is undefined behaviour. -/
def getMessage (self : Truss.Interpreter) (index : Int) : Option Ptr :=
  if 0 ≤ index then self._fetchedMessages[index.toNat]? else none

/-- The messages sent one after the other, in list order. -/
def sendAll : Heap → Truss.Interpreter → List Ptr → Option (Heap × Truss.Interpreter)
  | h, self, [] => some (h, self)
  | h, self, m :: ms => (sendMessage h self m).bind fun r => sendAll r.1 r.2 ms

end Interpreter

/-- Message `p` is live in `h` with a reference count of at least `k`. -/
def Heap.refsAtLeast (h : Heap) (p : Ptr) (k : Nat) : Bool :=
  match h.lookup p with
  | some m => decide ((k : Int) ≤ m.refcount)
  | none => false

/-- The mailbox holds a reference for each of its entries: every message in the two buffers
is live, with a reference count at least its number of occurrences in them. -/
def Interpreter.mailboxOwned (h : Heap) (self : Interpreter) : Prop :=
  ∀ p ∈ self._curMessages ++ self._fetchedMessages,
    h.refsAtLeast p ((self._curMessages ++ self._fetchedMessages).count p) = true

instance (h : Heap) (self : Interpreter) : Decidable (self.mailboxOwned h) := by
  unfold Interpreter.mailboxOwned; infer_instance

/-! ## Core: the registry -/

/-- Modelled from the spec: the log-level macros of `trussapi.h`, which is not among the
sources; only the names the code uses, not their numeric values. -/
inductive LogLevel where
  | TRUSS_LOG_ERROR
  | TRUSS_LOG_WARNING
  | TRUSS_LOG_DEBUG
deriving DecidableEq, Repr

/-- An entry of the virtual filesystem kept by PhysFS (an external library): a file with its
bytes, or a directory. -/
inductive FsNode where
  | file (bytes : List Nat)
  | directory
deriving DecidableEq, Repr

/-- The class `Core`: the message heap, the interpreters registered by index, the key/value
store `store_` (a `std::map` from key to message pointer, kept as an association list with
one entry per key), the flag `physFSInitted_`, the lines written to `logfile_` (level and
text, oldest first), the paths PhysFS knows, the per-interpreter directory listings
`stringResults_`, and whether the calling thread holds the mutex `coreLock_`. -/
structure Core where
  heap : Heap
  interpreters : List Interpreter
  store_ : List (String × Ptr) := []
  physFSInitted_ : Bool := false
  logfile_ : List (LogLevel × String) := []
  physfs : List (String × FsNode) := []
  stringResults_ : List (List String) := []
  coreLock_ : Bool := false
deriving DecidableEq, Repr

/-- The lookup `store_[key]` of a key that is present; `none` when `store_.count(key)` is 0. -/
def Store.find : List (String × Ptr) → String → Option Ptr
  | [], _ => none
  | (k, v) :: rest, key => if k = key then some v else Store.find rest key

/-- The assignment `store_[key] = val`: the entry of `key` is replaced, or added. -/
def Store.assign : List (String × Ptr) → String → Ptr → List (String × Ptr)
  | [], key, val => [(key, val)]
  | (k, v) :: rest, key, val =>
    if k = key then (k, val) :: rest else (k, v) :: Store.assign rest key val

/-- The PhysFS lookup of a path. -/
def FsNode.find : List (String × FsNode) → String → Option FsNode
  | [], _ => none
  | (k, v) :: rest, path => if k = path then some v else FsNode.find rest path

/-- The PhysFS call `PHYSFS_exists`: non-zero when the path exists. -/
def PHYSFS_exists (fs : List (String × FsNode)) (filename : String) : Int :=
  match FsNode.find fs filename with
  | some _ => 1
  | none => 0

/-- The PhysFS call `PHYSFS_isDirectory`: non-zero when the path is a directory. -/
def PHYSFS_isDirectory (fs : List (String × FsNode)) (filename : String) : Int :=
  match FsNode.find fs filename with
  | some FsNode.directory => 1
  | _ => 0

namespace Core

/-- The method `Core::getInterpreter`; `none` is `NULL`. -/
def getInterpreter (c : Core) (idx : Int) : Option Interpreter :=
  if idx < 0 then none
  else if idx ≥ (c.interpreters.length : Int) then none
  else c.interpreters[idx.toNat]?

/-- The method `Core::spawnInterpreter`. -/
def spawnInterpreter (c : Core) (name : String) : Core × Interpreter :=
  let interpreter := Interpreter.ctor (c.interpreters.length : Int) name
  ({ c with interpreters := c.interpreters ++ [interpreter] }, interpreter)

/-- The method `Core::numInterpreters`. -/
def numInterpreters (c : Core) : Int :=
  (c.interpreters.length : Int)

/-- The method `Core::dispatchMessage`. -/
def dispatchMessage (c : Core) (targetIdx : Int) (msg : Ptr) : Option Core :=
  match getInterpreter c targetIdx with
  | none => some c
  | some interpreter =>
    (Interpreter.sendMessage c.heap interpreter msg).map fun r =>
      { c with heap := r.1, interpreters := c.interpreters.set targetIdx.toNat r.2 }

/-- The constructor `Core::Core()`: no interpreter, an empty store, the filesystem not
initialised, an empty log file. -/
def ctor : Core :=
  { heap := { cells := [], freed := [] }, interpreters := [] }

/-- The method `Core::stopAllInterpreters`: `stop()` on every registered interpreter. -/
def stopAllInterpreters (c : Core) : Core :=
  { c with interpreters := c.interpreters.map Interpreter.stop }

/-- The method `Core::logMessage`: one line, level and text, appended to `logfile_`. -/
def logMessage (c : Core) (log_level : LogLevel) (msg : String) : Core :=
  { c with logfile_ := c.logfile_ ++ [(log_level, msg)] }

/-- The method `Core::logPrint`: the text (already formatted here) goes through a buffer of
4096 characters, so at most 4095 of them reach `logMessage`. -/
def logPrint (c : Core) (log_level : LogLevel) (text : String) : Core :=
  logMessage c log_level (text.take 4095)

/-- The method `Core::loadFile` of `core.cpp`: the new state and the returned message, `none`
being `NULL`. -/
def loadFile (c : Core) (filename : String) (junkType : Nat) (junk : Nat → Nat) :
    Core × Option Ptr :=
  if !c.physFSInitted_ then
    (logPrint c LogLevel.TRUSS_LOG_ERROR
      ("Cannot load file '" ++ filename ++ "': PhysFS not initialized."), none)
  else if PHYSFS_exists c.physfs filename == 0 then
    (logPrint c LogLevel.TRUSS_LOG_ERROR
      ("Error opening file '" ++ filename ++ "': does not exist."), none)
  else if PHYSFS_isDirectory c.physfs filename != 0 then
    (logPrint c LogLevel.TRUSS_LOG_ERROR
      ("Attempted to read directory '" ++ filename ++ "' as a file."), none)
  else
    match FsNode.find c.physfs filename with
    | some (FsNode.file bytes) =>
      let a := allocateMessage c.heap bytes.length junkType junk
      match a.1.lookup a.2 with
      | some ret => ({ c with heap := a.1.write a.2 { ret with data := bytes } }, some a.2)
      | none => (c, none)
    | _ => (c, none)

/-- The method `Core::getStoreValue`; `none` is `NULL`. -/
def getStoreValue (c : Core) (key : String) : Option Ptr :=
  if (Store.find c.store_ key).isSome then Store.find c.store_ key else none

/-- The method `Core::setStoreValue(key, truss_message*)`, statement by statement: the
states after each statement that was executed (acquire, assignment, release), and the final
state with the returned value, `none` when a statement is undefined behaviour. -/
def setStoreValueSteps (c : Core) (key : String) (val : Ptr) :
    List Core × Option (Core × Int) :=
  match acquireMessage c.heap val with
  | none => ([], none)
  | some h1 =>
    let c1 : Core := { c with heap := h1 }
    match Store.find c1.store_ key with
    | some oldmsg =>
      let c2 : Core := { c1 with store_ := Store.assign c1.store_ key val }
      match releaseMessage c2.heap oldmsg with
      | none => ([c1, c2], none)
      | some h3 => ([c1, c2, { c2 with heap := h3 }], some ({ c2 with heap := h3 }, 1))
    | none =>
      let c2 : Core := { c1 with store_ := Store.assign c1.store_ key val }
      ([c1, c2], some (c2, 0))

/-- The method `Core::setStoreValue(key, truss_message*)`. -/
def setStoreValue (c : Core) (key : String) (val : Ptr) : Option (Core × Int) :=
  (setStoreValueSteps c key val).2

/-- The end of the string form of `setStoreValue`, once the new message `newmsg` is filled
(state `c1`, reached through `c0`): given the states and the result of
`setStoreValue(key, newmsg)`, the statement `releaseMessage(newmsg)` follows when that call
returned. -/
def setStoreValueStringEnd (c0 c1 : Core) (newmsg : Ptr) :
    List Core × Option (Core × Int) → List Core × Option (Core × Int)
  | (states, none) => (c0 :: c1 :: states, none)
  | (states, some (c2, result)) =>
    match releaseMessage c2.heap newmsg with
    | none => (c0 :: c1 :: states, none)
    | some h3 =>
      (c0 :: c1 :: states ++ [{ c2 with heap := h3 }], some ({ c2 with heap := h3 }, result))

/-- The method `Core::setStoreValue(key, const std::string&)`, statement by statement; `val`
is the string's bytes. The states after each statement that was executed (allocation,
`memcpy`, the statements of the message form, the final release), and the final state with
the returned value. -/
def setStoreValueStringSteps (c : Core) (key : String) (val : List Nat) (junkType : Nat)
    (junk : Nat → Nat) : List Core × Option (Core × Int) :=
  let a := allocateMessage c.heap val.length junkType junk
  let c0 : Core := { c with heap := a.1 }
  match a.1.lookup a.2 with
  | none => ([c0], none)
  | some newmsg =>
    match memcpy newmsg.data val newmsg.data_length with
    | none => ([c0], none)
    | some bytes =>
      let c1 : Core := { c0 with heap := c0.heap.write a.2 { newmsg with data := bytes } }
      setStoreValueStringEnd c0 c1 a.2 (setStoreValueSteps c1 key a.2)

/-- The method `Core::setStoreValue(key, const std::string&)`. -/
def setStoreValueString (c : Core) (key : String) (val : List Nat) (junkType : Nat)
    (junk : Nat → Nat) : Option (Core × Int) :=
  (setStoreValueStringSteps c key val junkType junk).2

end Core

/-- A call of `setStoreValue`: the message form or the string form. -/
inductive StoreCall where
  | message (key : String) (val : Ptr)
  | string (key : String) (val : List Nat) (junkType : Nat) (junk : Nat → Nat)

/-- The key a call sets. -/
def StoreCall.key : StoreCall → String
  | StoreCall.message key _ => key
  | StoreCall.string key _ _ _ => key

/-- The statement-by-statement states and the result of one call. -/
def StoreCall.steps (c : Core) : StoreCall → List Core × Option (Core × Int)
  | StoreCall.message key val => Core.setStoreValueSteps c key val
  | StoreCall.string key val junkType junk =>
    Core.setStoreValueStringSteps c key val junkType junk

/-- Every state reached, statement by statement, by a sequence of `setStoreValue` calls
made one after the other; the sequence ends early at a call that is undefined behaviour. -/
def storeStates (c : Core) : List StoreCall → List Core
  | [] => []
  | call :: calls =>
    match StoreCall.steps c call with
    | (states, none) => states
    | (states, some r) => states ++ storeStates r.1 calls

/-- Every key for which `getStoreValue` returns a message in state `s` still has one in
state `t`. -/
def Core.keysKept (s t : Core) : Prop :=
  ∀ key, (Core.getStoreValue s key).isSome = true → (Core.getStoreValue t key).isSome = true

/-- The registry invariant kept by `spawnInterpreter`: the interpreter at position `i` has
id `i`. -/
def Core.idsMatch (c : Core) : Prop :=
  ∀ i : Fin c.interpreters.length, (c.interpreters.get i)._ID = (i.val : Int)

instance (c : Core) : Decidable c.idsMatch := by
  unfold Core.idsMatch; infer_instance

/-- The C API function `trss_fetch_messages`: `-1` when the interpreter does not exist. -/
def trss_fetch_messages (c : Core) (idx : Int) : Option (Core × Int) :=
  match Core.getInterpreter c idx with
  | none => some (c, -1)
  | some interpreter =>
    (Interpreter.fetchMessages c.heap interpreter).map fun r =>
      ({ c with heap := r.1, interpreters := c.interpreters.set idx.toNat r.2.1 }, r.2.2)

/-- The C API function `trss_get_message`: the inner `none` is `NULL`, returned when the
interpreter does not exist; the outer `none` is undefined behaviour. -/
def trss_get_message (c : Core) (idx : Int) (message_index : Int) : Option (Option Ptr) :=
  match Core.getInterpreter c idx with
  | none => some none
  | some interpreter => (Interpreter.getMessage interpreter message_index).map some

/-! ## Vocabulary for the run loop's trace, and sample worlds -/

/-- The event is a module hook call (`init`, `update`) or a protected call of a VM entry
point. -/
def Event.isHookOrEntryPoint : Event → Bool
  | Event.addonInit _ => true
  | Event.addonUpdate _ _ _ => true
  | Event.luaCall _ _ => true
  | _ => false

/-- A world in which `bootstrap.t` cannot be loaded. -/
def worldMissingBootstrap : World :=
  { bootstrap := none, pcall := fun _ => 0, during := fun _ => [] }

/-- A world in which the bootstrap chunk loads but its execution fails with result 2. -/
def worldFailingBootstrap : World :=
  { bootstrap := some ⟨0, 3, [1, 2, 3], 1⟩, pcall := fun k => if k = 0 then 2 else 0,
    during := fun _ => [] }

/-- A world in which every call succeeds and something calls `stop()` while external call
`k` is in progress. -/
def worldStopDuring (k : Nat) : World :=
  { bootstrap := some ⟨0, 3, [1, 2, 3], 1⟩, pcall := fun _ => 0,
    during := fun j => if j = k then [ApiCall.stop] else [] }

/-- A world in which every call succeeds and, while external call `k` is in progress,
something calls `stop()` and then `attachAddon(a)`. -/
def worldStopAttachDuring (k : Nat) (a : Addon) : World :=
  { bootstrap := some ⟨0, 3, [1, 2, 3], 1⟩, pcall := fun _ => 0,
    during := fun j => if j = k then [ApiCall.stop, ApiCall.attachAddon a] else [] }

/-- A world in which the bootstrap chunk succeeds, every later protected call fails with
result 1, and something calls `stop()` while external call `k` is in progress. -/
def worldFailingCallsStopDuring (k : Nat) : World :=
  { bootstrap := some ⟨0, 3, [1, 2, 3], 1⟩, pcall := fun j => if j = 0 then 0 else 1,
    during := fun j => if j = k then [ApiCall.stop] else [] }

/-! ## The core lock, directory listings -/

namespace Core

/-- Locking `coreLock_`, a `std::mutex` (not recursive): a thread that already holds it and
locks it again never gets it; `none` is that call which does not return. -/
def lockCore (c : Core) : Option Core :=
  if c.coreLock_ then none else some { c with coreLock_ := true }

/-- The end of a `std::lock_guard` scope. -/
def unlockCore (c : Core) : Core :=
  { c with coreLock_ := false }

/-- The method `Core::logMessage` with its `std::lock_guard<std::mutex> Lock(coreLock_)`:
lock, write the line, unlock. -/
def lockedLogMessage (c : Core) (log_level : LogLevel) (msg : String) : Option Core :=
  match lockCore c with
  | none => none
  | some c1 => some (unlockCore (logMessage c1 log_level msg))

/-- The method `Core::logPrint`, which formats into its buffer and calls `logMessage`. -/
def lockedLogPrint (c : Core) (log_level : LogLevel) (text : String) : Option Core :=
  lockedLogMessage c log_level (text.take 4095)

/-- The loop `while (stringResults_.size() <= interpreter) stringResults_.push_back(temp)`
for a non-negative `interpreter`. -/
def growStringResults (results : List (List String)) (interpreter : Nat) :
    List (List String) :=
  results ++ List.replicate (interpreter + 1 - results.length) []

/-- The loop over the list PhysFS returned: each name is pushed at the back and counted. -/
def pushResults : List String → List String → Int → List String × Int
  | [], acc, nresults => (acc, nresults)
  | name :: rest, acc, nresults => pushResults rest (acc ++ [name]) (nresults + 1)

/-- The method `Core::listDirectory`; `stringlist` is what `PHYSFS_enumerateFiles(dirpath)`
returns. `none` when the call does not return: a second lock of `coreLock_`, or the growing
loop for a negative `interpreter` (the comparison with `size()` is unsigned). -/
def listDirectory (c : Core) (interpreter : Int) (dirpath : String) (stringlist : List String) :
    Option (Core × Int) :=
  match lockCore c with
  | none => none
  | some c1 =>
    if !c1.physFSInitted_ then
      match lockedLogPrint c1 LogLevel.TRUSS_LOG_ERROR
          ("Cannot list directory '" ++ dirpath ++ "': PhysFS not initialized.") with
      | none => none
      | some c2 => some (unlockCore c2, -1)
    else if interpreter < 0 then none
    else
      let grown := growStringResults c1.stringResults_ interpreter.toNat
      let cleared := grown.set interpreter.toNat []
      let pushed := pushResults stringlist (cleared.getD interpreter.toNat []) 0
      some (unlockCore { c1 with stringResults_ := cleared.set interpreter.toNat pushed.1 },
        pushed.2)

/-- The method `Core::getStringResult`: the inner `none` is `NULL`; the outer `none` is a
call that does not return. -/
def getStringResult (c : Core) (interpreter idx : Int) : Option (Core × Option String) :=
  match lockCore c with
  | none => none
  | some c1 =>
    if interpreter < 0 ∨ interpreter ≥ (c1.stringResults_.length : Int) then
      match lockedLogPrint c1 LogLevel.TRUSS_LOG_ERROR
          ("Interpreter idx '" ++ toString interpreter ++ "' out of range.") with
      | none => none
      | some c2 => some (unlockCore c2, none)
    else if idx < 0 ∨
        idx ≥ (((c1.stringResults_.getD interpreter.toNat []).length : Nat) : Int) then
      match lockedLogPrint c1 LogLevel.TRUSS_LOG_ERROR
          ("String result idx '" ++ toString idx ++ "' out of range.") with
      | none => none
      | some c2 => some (unlockCore c2, none)
    else
      some (unlockCore c1, (c1.stringResults_.getD interpreter.toNat [])[idx.toNat]?)

/-- The method `Core::clearStringResults`. -/
def clearStringResults (c : Core) (interpreter : Int) : Option Core :=
  match lockCore c with
  | none => none
  | some c1 =>
    if interpreter < 0 ∨ interpreter ≥ (c1.stringResults_.length : Int) then
      some (unlockCore c1)
    else
      some (unlockCore
        { c1 with stringResults_ := c1.stringResults_.set interpreter.toNat [] })

end Core

/-! ## Sequences of mailbox calls -/

/-- A call that touches an interpreter's mailbox or the reference count of a message:
`sendMessage`, `fetchMessages`, or an acquire or a release made by another holder of the
message. -/
inductive MailboxOp where
  | send (msg : Ptr)
  | fetch
  | otherAcquire (msg : Ptr)
  | otherRelease (msg : Ptr)
deriving DecidableEq, Repr

/-- The effect of one such call. -/
def MailboxOp.apply (h : Heap) (self : Interpreter) : MailboxOp → Option (Heap × Interpreter)
  | MailboxOp.send msg => Interpreter.sendMessage h self msg
  | MailboxOp.fetch => (Interpreter.fetchMessages h self).map fun r => (r.1, r.2.1)
  | MailboxOp.otherAcquire msg => (trss_acquire_message h msg).map fun h1 => (h1, self)
  | MailboxOp.otherRelease msg => (trss_release_message h msg).map fun h1 => (h1, self)

/-- The references of a message held by others than the mailbox (its creator, senders,
script code that acquired it), after one call: an acquire by another holder adds one, a
release by another holder gives one back. -/
def MailboxOp.held (g : Ptr → Nat) : MailboxOp → Ptr → Nat
  | MailboxOp.otherAcquire msg => fun p => if p = msg then g p + 1 else g p
  | MailboxOp.otherRelease msg => fun p => if p = msg then g p - 1 else g p
  | _ => g

/-- The references held by others after a sequence of calls. -/
def heldAfter : (Ptr → Nat) → List MailboxOp → Ptr → Nat
  | g, [] => g
  | g, op :: ops => heldAfter (MailboxOp.held g op) ops

/-- What the callers are assumed to respect, `g` counting the references the other holders
have: a message is live, with a reference count of at least 1, when it is sent or acquired;
another holder releases only a reference it has. -/
def MailboxOp.allowed (g : Ptr → Nat) (h : Heap) : MailboxOp → Bool
  | MailboxOp.send msg => h.refsAtLeast msg 1
  | MailboxOp.fetch => true
  | MailboxOp.otherAcquire msg => h.refsAtLeast msg 1
  | MailboxOp.otherRelease msg => decide (1 ≤ g msg)

/-- The calls made one after the other. -/
def runMailbox : Heap → Interpreter → List MailboxOp → Option (Heap × Interpreter)
  | h, self, [] => some (h, self)
  | h, self, op :: ops =>
    match MailboxOp.apply h self op with
    | none => none
    | some r => runMailbox r.1 r.2 ops

/-- Every call of the sequence is allowed in the state in which it is made. -/
def callersBehave : (Ptr → Nat) → Heap → Interpreter → List MailboxOp → Bool
  | _, _, _, [] => true
  | g, h, self, op :: ops =>
    MailboxOp.allowed g h op &&
      match MailboxOp.apply h self op with
      | none => true
      | some r => callersBehave (MailboxOp.held g op) r.1 r.2 ops

/-- Every reference is backed by the count: a message of which the other holders have `g`
references and the two buffers hold `k` entries, with `g + k > 0`, is live with a reference
count of at least `g + k`. -/
def Interpreter.mailboxBacked (g : Ptr → Nat) (h : Heap) (self : Interpreter) : Prop :=
  ∀ p, 0 < g p + (self._curMessages ++ self._fetchedMessages).count p →
    h.refsAtLeast p (g p + (self._curMessages ++ self._fetchedMessages).count p) = true

/-! ## Vocabulary for the frame loop -/

/-- The hook and entry-point calls of one frame-loop iteration over the modules `addons`:
`update` on each, in order, with the frame delta, then `_coreUpdate`. -/
def frameCalls (addons : List Addon) : List Event :=
  addons.map (fun a => Event.addonUpdate a dtNum dtDen) ++ [Event.luaCall "_coreUpdate" none]

/-- The calls of `frames` iterations in a row. -/
def framesCalls (addons : List Addon) : Nat → List Event
  | 0 => []
  | frames + 1 => frameCalls addons ++ framesCalls addons frames

/-- The hook and entry-point calls of a whole run: `init` on each module in order,
`_coreInit` with the start argument, then `frames` iterations. -/
def runCalls (addons : List Addon) (arg : String) (frames : Nat) : List Event :=
  addons.map Event.addonInit ++ [Event.luaCall "_coreInit" (some arg)] ++
    framesCalls addons frames

/-- The hook and entry-point calls in the trace of a run, in order. -/
def Run.hooks (r : Run) : List Event :=
  r.trace.filter Event.isHookOrEntryPoint

/-- The first `stop()` made on the interpreter from outside its run loop is made while
external call `s` is in progress. -/
def World.firstStopDuring (w : World) (s : Nat) : Prop :=
  (∀ j, j < s → ApiCall.stop ∉ w.during j) ∧ ApiCall.stop ∈ w.during s

/-- The calls of `attachAddon` made while the run loop runs are refused: the interpreter has
a thread handle (it was started with `start`), or no such call is made. -/
def World.attachRefused (w : World) (self : Interpreter) : Prop :=
  self._thread ≠ none ∨ ∀ j c, c ∈ w.during j → c = ApiCall.stop

/-- The state of a run of the interpreter `self0` when the first stop is made during external
call `s`: nothing but the running flag has changed, and the flag is set as long as call `s`
has not been made. -/
def Run.tracks (self0 : Interpreter) (s : Nat) (r : Run) : Prop :=
  r.self = { self0 with _running := decide (r.calls ≤ s) }

/-! ## The SDL module's string copy -/

/-- The `size_t` subtraction `a - b` (64 bits). -/
def sizeSub (a b : Nat) : Nat :=
  (a + 2 ^ 64 - b) % 2 ^ 64

/-- The state of `hackCStrCpy`: the destination buffer, the flag `reachedSrcEnd`, and the
indices at which `src` has been read and `dest` written so far. -/
structure CopyState where
  dest : List Nat
  reachedSrcEnd : Bool
  reads : List Nat
  writes : List Nat
deriving DecidableEq, Repr

/-- The `for` loop of `hackCStrCpy` with `remaining` iterations left, at index `i`. An access
outside a buffer is undefined behaviour, `none`. -/
def hackCStrCpyLoop (src : List Nat) : Nat → Nat → CopyState → Option CopyState
  | 0, _, st => some st
  | remaining + 1, i, st =>
    if st.reachedSrcEnd then
      if i < st.dest.length then
        hackCStrCpyLoop src remaining (i + 1)
          { st with dest := st.dest.set i 0, writes := st.writes ++ [i] }
      else none
    else
      match src[i]? with
      | none => none
      | some ch =>
        if i < st.dest.length then
          hackCStrCpyLoop src remaining (i + 1)
            { dest := st.dest.set i ch, reachedSrcEnd := (ch == 0),
              reads := st.reads ++ [i], writes := st.writes ++ [i] }
        else none

/-- The last statement of `hackCStrCpy`, `dest[destsize - 1] = 0`, at the index `last`, after
the loop returned `r`. A write outside the buffer is undefined behaviour, `none`. -/
def hackCStrCpyEnd (last : Nat) : Option CopyState → Option CopyState
  | none => none
  | some st =>
    if last < st.dest.length then
      some { st with dest := st.dest.set last 0, writes := st.writes ++ [last] }
    else none

/-- The function `hackCStrCpy(dest, src, destsize)` of the SDL module: the loop runs for
`i < destsize - 1`, then `dest[destsize - 1] = 0`. -/
def hackCStrCpy (dest src : List Nat) (destsize : Nat) : Option CopyState :=
  hackCStrCpyEnd (sizeSub destsize 1)
    (hackCStrCpyLoop src (sizeSub destsize 1) 0
      { dest := dest, reachedSrcEnd := false, reads := [], writes := [] })

/-- The loop invariant of `hackCStrCpy` before the iteration at index `i`, for a source whose
terminator is at index `L` and a destination that was `dest0`: below `i` the destination
holds the source up to the terminator and zeros after it, from `i` on it is untouched; the
flag tells whether the terminator has been copied; the reads stop at the terminator. -/
def copyInvariant (dest0 src : List Nat) (L i : Nat) (st : CopyState) : Prop :=
  st.dest.length = dest0.length ∧
  (∀ j, j < i → j < L → st.dest[j]? = src[j]?) ∧
  (∀ j, j < i → L ≤ j → st.dest[j]? = some 0) ∧
  (∀ j, i ≤ j → st.dest[j]? = dest0[j]?) ∧
  st.reachedSrcEnd = decide (L < i) ∧
  (∀ j ∈ st.reads, j ≤ L ∧ j < i) ∧
  (∀ j ∈ st.writes, j < i)

/-! ## Heap lemmas -/

theorem Heap.lookup_lt {h : Heap} {p : Ptr} {m : truss_message} (hm : h.lookup p = some m) :
    p < h.cells.length := by
  unfold Heap.lookup at hm
  by_contra hlt
  rw [List.getElem?_eq_none (Nat.le_of_not_lt hlt)] at hm
  simp at hm

theorem Heap.lookup_write_same {h : Heap} {p : Ptr} (m : truss_message)
    (hp : p < h.cells.length) : (h.write p m).lookup p = some m := by
  simp [Heap.lookup, Heap.write, hp]

theorem Heap.lookup_write_ne {h : Heap} {p q : Ptr} (m : truss_message) (hne : q ≠ p) :
    (h.write p m).lookup q = h.lookup q := by
  simp [Heap.lookup, Heap.write, List.getElem?_set_ne (Ne.symm hne)]

theorem Heap.freed_write (h : Heap) (p : Ptr) (m : truss_message) :
    (h.write p m).freed = h.freed := rfl

theorem Heap.length_write (h : Heap) (p : Ptr) (m : truss_message) :
    (h.write p m).cells.length = h.cells.length := by
  simp [Heap.write]

theorem Heap.lookup_set_none_same (h : Heap) (p : Ptr) (fr : List Ptr) :
    (Heap.mk (h.cells.set p none) fr).lookup p = none := by
  unfold Heap.lookup
  by_cases hp : p < h.cells.length
  · simp [hp]
  · rw [List.getElem?_eq_none (by simpa using Nat.le_of_not_lt hp)]; rfl

theorem Heap.lookup_set_none_ne (h : Heap) {p q : Ptr} (fr : List Ptr) (hne : q ≠ p) :
    (Heap.mk (h.cells.set p none) fr).lookup q = h.lookup q := by
  simp [Heap.lookup, List.getElem?_set_ne (Ne.symm hne)]

/-! ## Acquire and release -/

theorem core_acquire_eq : Core.acquireMessage = trss_acquire_message := rfl

theorem core_release_eq : Core.releaseMessage = trss_release_message := rfl

theorem core_copy_eq : Core.copyMessage = trss_copy_message := rfl

theorem acquire_spec {h : Heap} {p : Ptr} {m : truss_message} (hm : h.lookup p = some m) :
    ∃ h1, trss_acquire_message h p = some h1 ∧
      h1.lookup p = some { m with refcount := m.refcount + 1 } ∧
      h1.freed = h.freed ∧ h1.cells.length = h.cells.length ∧
      ∀ q, q ≠ p → h1.lookup q = h.lookup q := by
  refine ⟨h.write p { m with refcount := m.refcount + 1 }, ?_, ?_, rfl, ?_, ?_⟩
  · simp [trss_acquire_message, hm]
  · exact Heap.lookup_write_same _ (Heap.lookup_lt hm)
  · exact Heap.length_write _ _ _
  · intro q hq; exact Heap.lookup_write_ne _ hq

theorem release_keep {h : Heap} {p : Ptr} {m : truss_message} (hm : h.lookup p = some m)
    (hrc : 1 < m.refcount) :
    ∃ h1, trss_release_message h p = some h1 ∧
      h1.lookup p = some { m with refcount := m.refcount - 1 } ∧
      h1.freed = h.freed ∧ h1.cells.length = h.cells.length ∧
      ∀ q, q ≠ p → h1.lookup q = h.lookup q := by
  refine ⟨h.write p { m with refcount := m.refcount - 1 }, ?_, ?_, rfl, ?_, ?_⟩
  · have : ¬ (m.refcount - 1 ≤ 0) := by omega
    simp [trss_release_message, hm, this]
  · exact Heap.lookup_write_same _ (Heap.lookup_lt hm)
  · exact Heap.length_write _ _ _
  · intro q hq; exact Heap.lookup_write_ne _ hq

theorem release_free {h : Heap} {p : Ptr} {m : truss_message} (hm : h.lookup p = some m)
    (hrc : m.refcount ≤ 1) :
    ∃ h1, trss_release_message h p = some h1 ∧ h1.lookup p = none ∧
      h1.freed = h.freed ++ [p] ∧ h1.cells.length = h.cells.length ∧
      ∀ q, q ≠ p → h1.lookup q = h.lookup q := by
  have hle : m.refcount - 1 ≤ 0 := by omega
  have hw := Heap.lookup_write_same (h := h) { m with refcount := m.refcount - 1 }
    (Heap.lookup_lt hm)
  refine ⟨Heap.mk ((h.write p { m with refcount := m.refcount - 1 }).cells.set p none)
      (h.freed ++ [p]), ?_, ?_, rfl, ?_, ?_⟩
  · simp [trss_release_message, hm, hle, Core.deallocateMessage, hw, Heap.freed_write]
  · exact Heap.lookup_set_none_same _ _ _
  · simp [Heap.write]
  · intro q hq
    rw [Heap.lookup_set_none_ne _ _ hq]
    exact Heap.lookup_write_ne _ hq

theorem callTimes_succ_right (op : Heap → Ptr → Option Heap) (p : Ptr) (n : Nat) (h : Heap) :
    callTimes op p (n + 1) h = (callTimes op p n h).bind fun h1 => op h1 p := by
  induction n generalizing h with
  | zero => simp [callTimes]
  | succ k ih =>
    show (op h p).bind (callTimes op p (k + 1)) = _
    cases hop : op h p with
    | none => simp [callTimes, hop]
    | some h1 =>
      have e : callTimes op p (k + 1) h = callTimes op p k h1 := by simp [callTimes, hop]
      rw [Option.some_bind, ih h1, e]

theorem acquire_times {h : Heap} {p : Ptr} {m : truss_message} (hm : h.lookup p = some m)
    (n : Nat) :
    ∃ h1, callTimes trss_acquire_message p n h = some h1 ∧
      h1.lookup p = some { m with refcount := m.refcount + n } ∧
      h1.freed = h.freed ∧ ∀ q, q ≠ p → h1.lookup q = h.lookup q := by
  induction n generalizing h m with
  | zero => exact ⟨h, rfl, by simpa using hm, rfl, fun _ _ => rfl⟩
  | succ k ih =>
    obtain ⟨h1, e1, l1, f1, _, o1⟩ := acquire_spec hm
    obtain ⟨h2, e2, l2, f2, o2⟩ := ih l1
    refine ⟨h2, by simp [callTimes, e1, e2], ?_, by rw [f2, f1], ?_⟩
    · rw [l2]; simp; omega
    · intro q hq; rw [o2 q hq, o1 q hq]

theorem release_times {h : Heap} {p : Ptr} {m : truss_message} (hm : h.lookup p = some m)
    (j : Nat) (hj : (j : Int) < m.refcount) :
    ∃ h1, callTimes trss_release_message p j h = some h1 ∧
      h1.lookup p = some { m with refcount := m.refcount - j } ∧
      h1.freed = h.freed ∧ ∀ q, q ≠ p → h1.lookup q = h.lookup q := by
  induction j generalizing h m with
  | zero => exact ⟨h, rfl, by simpa using hm, rfl, fun _ _ => rfl⟩
  | succ k ih =>
    obtain ⟨h1, e1, l1, f1, _, o1⟩ := release_keep hm (by omega)
    obtain ⟨h2, e2, l2, f2, o2⟩ := ih l1 (by simp; omega)
    refine ⟨h2, by simp [callTimes, e1, e2], ?_, by rw [f2, f1], ?_⟩
    · rw [l2]; simp; omega
    · intro q hq; rw [o2 q hq, o1 q hq]

/-- Releasing a message as many times as its reference count: nothing is deallocated before
the last release, which deallocates it. -/
theorem release_all_refs {h : Heap} {p : Ptr} {m : truss_message} (hm : h.lookup p = some m)
    (k : Nat) (hk : m.refcount = k + 1) :
    ∃ h1, callTimes trss_release_message p (k + 1) h = some h1 ∧ h1.lookup p = none ∧
      h1.freed = h.freed ++ [p] ∧ ∀ q, q ≠ p → h1.lookup q = h.lookup q := by
  obtain ⟨h1, e1, l1, f1, o1⟩ := release_times hm k (by omega)
  obtain ⟨h2, e2, l2, f2, _, o2⟩ := release_free l1 (by simp; omega)
  refine ⟨h2, ?_, l2, by rw [f2, f1], ?_⟩
  · rw [callTimes_succ_right, e1]; simpa using e2
  · intro q hq; rw [o2 q hq, o1 q hq]

theorem allocate_lookup (h : Heap) (len junkType : Nat) (junk : Nat → Nat) :
    (Core.allocateMessage h len junkType junk).1.lookup
        (Core.allocateMessage h len junkType junk).2 =
      some { message_type := junkType, data_length := len,
             data := (List.range len).map (fun i => junk i % 256), refcount := 1 } := by
  simp [Core.allocateMessage, Heap.lookup]

theorem allocate_lookup_old (h : Heap) (len junkType : Nat) (junk : Nat → Nat) {q : Ptr}
    {m : truss_message} (hq : h.lookup q = some m) :
    (Core.allocateMessage h len junkType junk).1.lookup q = some m := by
  have hlt := Heap.lookup_lt hq
  unfold Heap.lookup at hq ⊢
  simp only [Core.allocateMessage]
  rw [List.getElem?_append_left hlt]
  exact hq

/-! ## C1: acquire `n` times, release `n + 1` times -/

/-- C1: on a freshly allocated message, `n` acquire calls followed by `n + 1` release calls
deallocate the message exactly once, at the last release. After `i ≤ n` acquires the message
is live with reference count `1 + i`; after `j ≤ n` of the releases it is still live, with
reference count `n + 1 - j ≥ 1`, and nothing has been added to the deallocation log; the
`(n + 1)`-th release removes it and adds exactly its pointer to the log. This holds for the
methods of `Core` and for the C API functions `trss_acquire_message`, `trss_release_message`. -/
theorem C1_release_deallocates_exactly_once (h : Heap) (len junkType : Nat) (junk : Nat → Nat)
    (n : Nat) :
    (∃ h2, callTimes Core.acquireMessage (Core.allocateMessage h len junkType junk).2 n
          (Core.allocateMessage h len junkType junk).1 = some h2 ∧
      (∀ i, i ≤ n → ∃ hi m,
        callTimes Core.acquireMessage (Core.allocateMessage h len junkType junk).2 i
          (Core.allocateMessage h len junkType junk).1 = some hi ∧
        hi.lookup (Core.allocateMessage h len junkType junk).2 = some m ∧
        m.refcount = 1 + i ∧ hi.freed = h.freed) ∧
      (∀ j, j ≤ n → ∃ hj m,
        callTimes Core.releaseMessage (Core.allocateMessage h len junkType junk).2 j h2
          = some hj ∧
        hj.lookup (Core.allocateMessage h len junkType junk).2 = some m ∧
        m.refcount = n + 1 - j ∧ 1 ≤ m.refcount ∧ hj.freed = h.freed) ∧
      (∃ hf,
        callTimes Core.releaseMessage (Core.allocateMessage h len junkType junk).2 (n + 1) h2
          = some hf ∧
        hf.lookup (Core.allocateMessage h len junkType junk).2 = none ∧
        hf.freed = h.freed ++ [(Core.allocateMessage h len junkType junk).2])) ∧
    (∃ h2, callTimes trss_acquire_message (Core.allocateMessage h len junkType junk).2 n
          (Core.allocateMessage h len junkType junk).1 = some h2 ∧
      (∀ i, i ≤ n → ∃ hi m,
        callTimes trss_acquire_message (Core.allocateMessage h len junkType junk).2 i
          (Core.allocateMessage h len junkType junk).1 = some hi ∧
        hi.lookup (Core.allocateMessage h len junkType junk).2 = some m ∧
        m.refcount = 1 + i ∧ hi.freed = h.freed) ∧
      (∀ j, j ≤ n → ∃ hj m,
        callTimes trss_release_message (Core.allocateMessage h len junkType junk).2 j h2
          = some hj ∧
        hj.lookup (Core.allocateMessage h len junkType junk).2 = some m ∧
        m.refcount = n + 1 - j ∧ 1 ≤ m.refcount ∧ hj.freed = h.freed) ∧
      (∃ hf,
        callTimes trss_release_message (Core.allocateMessage h len junkType junk).2 (n + 1) h2
          = some hf ∧
        hf.lookup (Core.allocateMessage h len junkType junk).2 = none ∧
        hf.freed = h.freed ++ [(Core.allocateMessage h len junkType junk).2])) := by
  have key : ∃ h2, callTimes trss_acquire_message (Core.allocateMessage h len junkType junk).2 n
          (Core.allocateMessage h len junkType junk).1 = some h2 ∧
      (∀ i, i ≤ n → ∃ hi m,
        callTimes trss_acquire_message (Core.allocateMessage h len junkType junk).2 i
          (Core.allocateMessage h len junkType junk).1 = some hi ∧
        hi.lookup (Core.allocateMessage h len junkType junk).2 = some m ∧
        m.refcount = 1 + i ∧ hi.freed = h.freed) ∧
      (∀ j, j ≤ n → ∃ hj m,
        callTimes trss_release_message (Core.allocateMessage h len junkType junk).2 j h2
          = some hj ∧
        hj.lookup (Core.allocateMessage h len junkType junk).2 = some m ∧
        m.refcount = n + 1 - j ∧ 1 ≤ m.refcount ∧ hj.freed = h.freed) ∧
      (∃ hf,
        callTimes trss_release_message (Core.allocateMessage h len junkType junk).2 (n + 1) h2
          = some hf ∧
        hf.lookup (Core.allocateMessage h len junkType junk).2 = none ∧
        hf.freed = h.freed ++ [(Core.allocateMessage h len junkType junk).2]) := by
    have hfresh := allocate_lookup h len junkType junk
    have hfr : (Core.allocateMessage h len junkType junk).1.freed = h.freed := rfl
    obtain ⟨h2, e2, l2, f2, _⟩ := acquire_times hfresh n
    refine ⟨h2, e2, ?_, ?_, ?_⟩
    · intro i _
      obtain ⟨hi, ei, li, fi, _⟩ := acquire_times hfresh i
      exact ⟨hi, _, ei, li, by simp, by rw [fi, hfr]⟩
    · intro j hj
      obtain ⟨h3, e3, l3, f3, _⟩ := release_times l2 j (by simp; omega)
      refine ⟨h3, _, e3, l3, by simp; omega, by simp; omega, by rw [f3, f2, hfr]⟩
    · obtain ⟨hf, ef, lf, ff, _⟩ := release_all_refs l2 n (by simp; omega)
      exact ⟨hf, ef, lf, by rw [ff, f2, hfr]⟩
  exact ⟨by simpa only [core_acquire_eq, core_release_eq] using key, key⟩

/-! ## The mailbox -/

theorem Heap.refsAtLeast_iff (h : Heap) (p : Ptr) (k : Nat) :
    h.refsAtLeast p k = true ↔ ∃ m, h.lookup p = some m ∧ (k : Int) ≤ m.refcount := by
  unfold Heap.refsAtLeast
  cases hl : h.lookup p with
  | none => simp
  | some m => simp

/-- Releasing every entry of a list whose entries are covered by references: the loop runs
to its end, messages outside the list are untouched, and a message that keeps a reference
stays live with its count lowered by its number of occurrences. -/
theorem releaseAll_spec (l : List Ptr) : ∀ (h : Heap),
    (∀ p ∈ l, h.refsAtLeast p (l.count p) = true) →
    ∃ h1, Interpreter.releaseAll h l = some h1 ∧
      (∀ q, q ∉ l → h1.lookup q = h.lookup q) ∧
      (∀ q m, h.lookup q = some m → (l.count q : Int) < m.refcount →
        h1.lookup q = some { m with refcount := m.refcount - l.count q }) := by
  induction l with
  | nil =>
    intro h _
    exact ⟨h, rfl, fun _ _ => rfl, fun q m hq _ => by simpa using hq⟩
  | cons p ps ih =>
    intro h hown
    obtain ⟨m, hm, hrc⟩ := (Heap.refsAtLeast_iff _ _ _).1 (hown p (List.mem_cons_self _ _))
    rw [List.count_cons_self] at hrc
    push_cast at hrc
    by_cases hbig : 1 < m.refcount
    · obtain ⟨h1, e1, l1, _, _, o1⟩ := release_keep hm hbig
      have hown1 : ∀ q ∈ ps, h1.refsAtLeast q (ps.count q) = true := by
        intro q hq
        rw [Heap.refsAtLeast_iff]
        by_cases hqp : q = p
        · subst hqp
          exact ⟨_, l1, by simp; omega⟩
        · obtain ⟨mq, hmq, hrq⟩ :=
            (Heap.refsAtLeast_iff _ _ _).1 (hown q (List.mem_cons_of_mem _ hq))
          rw [List.count_cons_of_ne hqp] at hrq
          exact ⟨mq, by rw [o1 q hqp]; exact hmq, hrq⟩
      obtain ⟨h2, e2, a2, b2⟩ := ih h1 hown1
      refine ⟨h2, by simp [Interpreter.releaseAll, e1, e2], ?_, ?_⟩
      · intro q hq
        rw [List.mem_cons, not_or] at hq
        rw [a2 q hq.2, o1 q hq.1]
      · intro q mq hmq hlt
        by_cases hqp : q = p
        · subst hqp
          rw [hm] at hmq
          cases hmq
          rw [List.count_cons_self] at hlt ⊢
          push_cast at hlt ⊢
          rw [b2 q _ l1 (by simp; omega)]
          simp
          omega
        · rw [List.count_cons_of_ne hqp] at hlt ⊢
          exact b2 q mq (by rw [o1 q hqp]; exact hmq) hlt
    · have hnot : p ∉ ps := by
        rw [← List.count_eq_zero]
        omega
      obtain ⟨h1, e1, l1, _, _, o1⟩ := release_free hm (by omega)
      have hown1 : ∀ q ∈ ps, h1.refsAtLeast q (ps.count q) = true := by
        intro q hq
        have hqp : q ≠ p := fun e => hnot (e ▸ hq)
        rw [Heap.refsAtLeast_iff]
        obtain ⟨mq, hmq, hrq⟩ :=
          (Heap.refsAtLeast_iff _ _ _).1 (hown q (List.mem_cons_of_mem _ hq))
        rw [List.count_cons_of_ne hqp] at hrq
        exact ⟨mq, by rw [o1 q hqp]; exact hmq, hrq⟩
      obtain ⟨h2, e2, a2, b2⟩ := ih h1 hown1
      refine ⟨h2, by simp [Interpreter.releaseAll, e1, e2], ?_, ?_⟩
      · intro q hq
        rw [List.mem_cons, not_or] at hq
        rw [a2 q hq.2, o1 q hq.1]
      · intro q mq hmq hlt
        by_cases hqp : q = p
        · subst hqp
          rw [hm] at hmq
          cases hmq
          rw [List.count_cons_self] at hlt
          push_cast at hlt
          omega
        · rw [List.count_cons_of_ne hqp] at hlt ⊢
          exact b2 q mq (by rw [o1 q hqp]; exact hmq) hlt

/-- Sending a list of live messages: every send succeeds, the messages are appended to the
incoming buffer in order, the fetched buffer is untouched, each message gains one reference
per occurrence, and nothing is deallocated. -/
theorem sendAll_spec (ms : List Ptr) : ∀ (h : Heap) (self : Interpreter),
    (∀ p ∈ ms, ∃ m, h.lookup p = some m) →
    ∃ h1, Interpreter.sendAll h self ms
        = some (h1, { self with _curMessages := self._curMessages ++ ms }) ∧
      h1.freed = h.freed ∧
      (∀ q m, h.lookup q = some m →
        h1.lookup q = some { m with refcount := m.refcount + ms.count q }) := by
  induction ms with
  | nil =>
    intro h self _
    exact ⟨h, by simp [Interpreter.sendAll], rfl, fun q m hq => by simpa using hq⟩
  | cons p ps ih =>
    intro h self hlive
    obtain ⟨m, hm⟩ := hlive p (List.mem_cons_self _ _)
    obtain ⟨h1, e1, l1, f1, _, o1⟩ := acquire_spec hm
    have hlive1 : ∀ q ∈ ps, ∃ mq, h1.lookup q = some mq := by
      intro q hq
      by_cases hqp : q = p
      · subst hqp; exact ⟨_, l1⟩
      · obtain ⟨mq, hmq⟩ := hlive q (List.mem_cons_of_mem _ hq)
        exact ⟨mq, by rw [o1 q hqp]; exact hmq⟩
    obtain ⟨h2, e2, f2, b2⟩ :=
      ih h1 { self with _curMessages := self._curMessages ++ [p] } hlive1
    refine ⟨h2, ?_, by rw [f2, f1], ?_⟩
    · simp [Interpreter.sendAll, Interpreter.sendMessage, e1, e2]
    · intro q mq hmq
      by_cases hqp : q = p
      · subst hqp
        rw [hm] at hmq
        cases hmq
        rw [b2 q _ l1, List.count_cons_self]
        simp
        omega
      · rw [List.count_cons_of_ne hqp]
        exact b2 q mq (by rw [o1 q hqp]; exact hmq)

theorem getMessage_ofNat (self : Interpreter) (i : Nat) :
    Interpreter.getMessage self (i : Int) = self._fetchedMessages[i]? := by
  simp [Interpreter.getMessage]

theorem Heap.refsAtLeast_mono {h : Heap} {p : Ptr} {k j : Nat} (hjk : j ≤ k)
    (hk : h.refsAtLeast p k = true) : h.refsAtLeast p j = true := by
  rw [Heap.refsAtLeast_iff] at hk ⊢
  obtain ⟨m, hm, hrc⟩ := hk
  exact ⟨m, hm, by omega⟩

/-- One `fetchMessages` on a mailbox that owns its entries: it returns the number of
incoming messages, they become the fetched buffer, the incoming buffer is empty, and the
mailbox still owns its entries. -/
theorem fetch_spec (h : Heap) (self : Interpreter) (hown : self.mailboxOwned h) :
    ∃ h1, Interpreter.fetchMessages h self
        = some (h1, { self with _curMessages := [], _fetchedMessages := self._curMessages },
            (self._curMessages.length : Int)) ∧
      Interpreter.mailboxOwned h1
        { self with _curMessages := [], _fetchedMessages := self._curMessages } ∧
      (∀ q, q ∉ self._fetchedMessages → h1.lookup q = h.lookup q) ∧
      (∀ q m, h.lookup q = some m → (self._fetchedMessages.count q : Int) < m.refcount →
        h1.lookup q = some { m with refcount := m.refcount - self._fetchedMessages.count q }) := by
  have hrel : ∀ p ∈ self._fetchedMessages,
      h.refsAtLeast p (self._fetchedMessages.count p) = true := by
    intro p hp
    refine Heap.refsAtLeast_mono ?_ (hown p (List.mem_append_right _ hp))
    rw [List.count_append]; omega
  obtain ⟨h1, e1, a1, b1⟩ := releaseAll_spec self._fetchedMessages h hrel
  refine ⟨h1, by simp [Interpreter.fetchMessages, e1], ?_, a1, b1⟩
  intro p hp
  simp only [List.nil_append] at hp ⊢
  obtain ⟨m, hm, hrc⟩ := (Heap.refsAtLeast_iff _ _ _).1 (hown p (List.mem_append_left _ hp))
  rw [List.count_append] at hrc
  push_cast at hrc
  have hpos : 0 < self._curMessages.count p := List.count_pos_iff.2 hp
  rw [Heap.refsAtLeast_iff]
  exact ⟨_, b1 p m hm (by omega), by simp; omega⟩

/-- Sending `ms` to a mailbox with an empty incoming buffer, then fetching. -/
theorem send_fetch_spec (h : Heap) (self : Interpreter) (ms : List Ptr)
    (hempty : self._curMessages = [])
    (hlive : ∀ p ∈ ms, ∃ m, h.lookup p = some m)
    (hown : self.mailboxOwned h) :
    ∃ h1 h2, Interpreter.sendAll h self ms = some (h1, { self with _curMessages := ms }) ∧
      Interpreter.fetchMessages h1 { self with _curMessages := ms }
        = some (h2, { self with _curMessages := [], _fetchedMessages := ms },
            (ms.length : Int)) ∧
      (∀ p ∈ ms, ∀ m, h.lookup p = some m →
        h2.lookup p
          = some { m with refcount := m.refcount + ms.count p - self._fetchedMessages.count p })
    := by
  obtain ⟨h1, e1, _, b1⟩ := sendAll_spec ms h self hlive
  rw [hempty, List.nil_append] at e1
  have hrel : ∀ p ∈ self._fetchedMessages,
      h1.refsAtLeast p (self._fetchedMessages.count p) = true := by
    intro p hp
    obtain ⟨m, hm, hrc⟩ := (Heap.refsAtLeast_iff _ _ _).1 (hown p (List.mem_append_right _ hp))
    rw [hempty, List.nil_append] at hrc
    rw [Heap.refsAtLeast_iff]
    exact ⟨_, b1 p m hm, by simp; omega⟩
  obtain ⟨h2, e2, a2, b2⟩ := releaseAll_spec self._fetchedMessages h1 hrel
  refine ⟨h1, h2, e1, by simp [Interpreter.fetchMessages, e2], ?_⟩
  intro p _ m hm
  by_cases hpf : p ∈ self._fetchedMessages
  · obtain ⟨m', hm', hrc⟩ :=
      (Heap.refsAtLeast_iff _ _ _).1 (hown p (List.mem_append_right _ hpf))
    rw [hm] at hm'
    cases hm'
    rw [hempty, List.nil_append] at hrc
    have hpos : 0 < ms.count p := List.count_pos_iff.2 ‹p ∈ ms›
    rw [b2 p _ (b1 p m hm) (by simp; omega)]
  · rw [a2 p hpf, b1 p m hm, List.count_eq_zero.2 hpf]
    simp

theorem getInterpreter_some {c : Core} {idx : Int} {b : Interpreter}
    (hb : Core.getInterpreter c idx = some b) :
    0 ≤ idx ∧ idx.toNat < c.interpreters.length ∧ c.interpreters[idx.toNat]? = some b := by
  unfold Core.getInterpreter at hb
  split at hb
  · cases hb
  · split at hb
    · cases hb
    · exact ⟨by omega, by omega, hb⟩

theorem getInterpreter_set {c : Core} {idx : Int} {b : Interpreter}
    (hb : Core.getInterpreter c idx = some b) (h1 : Heap) (b1 : Interpreter) :
    Core.getInterpreter
      { c with heap := h1, interpreters := c.interpreters.set idx.toNat b1 } idx = some b1 := by
  obtain ⟨h0, hlt, _⟩ := getInterpreter_some hb
  unfold Core.getInterpreter
  have e1 : ¬ idx < 0 := by omega
  have e2 : ¬ idx ≥ ((c.interpreters.set idx.toNat b1).length : Int) := by
    rw [List.length_set]; omega
  simp only [e1, e2, if_false]
  simp [hlt]

/-! ## C2, C3: FIFO order and the second fetch -/

/-- C2: on an interpreter whose incoming buffer is empty (and whose mailbox owns the entries
left in its fetched buffer), sending the live messages `ms` in order and then calling
`fetchMessages` returns `ms.length`, and `getMessage(i)` is the `i`-th message sent, for
every `i < ms.length`; each of them is still live after the fetch. -/
theorem C2_send_then_fetch_is_fifo (h : Heap) (self : Interpreter) (ms : List Ptr)
    (hempty : self._curMessages = [])
    (hlive : ∀ p ∈ ms, (h.lookup p).isSome = true)
    (hown : self.mailboxOwned h) :
    ∃ h1 s1 h2 s2, Interpreter.sendAll h self ms = some (h1, s1) ∧
      Interpreter.fetchMessages h1 s1 = some (h2, s2, (ms.length : Int)) ∧
      (∀ (i : Nat) (hi : i < ms.length), Interpreter.getMessage s2 (i : Int) = some ms[i]) ∧
      (∀ p ∈ ms, (h2.lookup p).isSome = true) := by
  have hlive1 : ∀ p ∈ ms, ∃ m, h.lookup p = some m := fun p hp =>
    Option.isSome_iff_exists.1 (hlive p hp)
  obtain ⟨h1, h2, e1, e2, l2⟩ := send_fetch_spec h self ms hempty hlive1 hown
  refine ⟨h1, _, h2, _, e1, e2, ?_, ?_⟩
  · intro i hi
    rw [getMessage_ofNat]
    exact List.getElem?_eq_getElem hi
  · intro p hp
    obtain ⟨m, hm⟩ := hlive1 p hp
    rw [l2 p hp m hm]
    rfl

/-- C2 at a concrete input: three messages, one of them sent twice, to an interpreter whose
fetched buffer still holds an older message. -/
theorem C2_send_then_fetch_is_fifo_witness :
    ∃ h1 s1 h2 s2,
      Interpreter.sendAll
          { cells := [some ⟨1, 1, [7], 1⟩, some ⟨2, 0, [], 1⟩, some ⟨3, 2, [8, 9], 2⟩],
            freed := [] }
          { Interpreter.ctor 0 "b" with _fetchedMessages := [2] } [0, 1, 0] = some (h1, s1) ∧
      Interpreter.fetchMessages h1 s1 = some (h2, s2, 3) ∧
      (∀ (i : Nat) (hi : i < [0, 1, 0].length),
        Interpreter.getMessage s2 (i : Int) = some ([0, 1, 0] : List Ptr)[i]) ∧
      (∀ p ∈ ([0, 1, 0] : List Ptr), (h2.lookup p).isSome = true) :=
  C2_send_then_fetch_is_fifo
    { cells := [some ⟨1, 1, [7], 1⟩, some ⟨2, 0, [], 1⟩, some ⟨3, 2, [8, 9], 2⟩], freed := [] }
    { Interpreter.ctor 0 "b" with _fetchedMessages := [2] } [0, 1, 0] rfl
    (by decide) (by decide)

/-- C3: on a mailbox that owns its entries, `fetchMessages` called twice in a row with no
send in between returns 0 the second time, and leaves both buffers empty. -/
theorem C3_second_fetch_returns_zero (h : Heap) (self : Interpreter)
    (hown : self.mailboxOwned h) :
    ∃ h1 s1 n h2 s2, Interpreter.fetchMessages h self = some (h1, s1, n) ∧
      Interpreter.fetchMessages h1 s1 = some (h2, s2, 0) ∧
      s2._curMessages = [] ∧ s2._fetchedMessages = [] := by
  obtain ⟨h1, e1, own1, _, _⟩ := fetch_spec h self hown
  obtain ⟨h2, e2, _, _, _⟩ := fetch_spec h1 _ own1
  exact ⟨h1, _, _, h2, _, e1, e2, rfl, rfl⟩

/-- C3 at a concrete input: two incoming messages and one fetched earlier. -/
theorem C3_second_fetch_returns_zero_witness :
    ∃ h1 s1 n h2 s2,
      Interpreter.fetchMessages
          { cells := [some ⟨1, 1, [7], 1⟩, some ⟨2, 0, [], 2⟩], freed := [] }
          { Interpreter.ctor 0 "b" with _curMessages := [0, 1], _fetchedMessages := [1] }
        = some (h1, s1, n) ∧
      Interpreter.fetchMessages h1 s1 = some (h2, s2, 0) ∧
      s2._curMessages = [] ∧ s2._fetchedMessages = [] :=
  C3_second_fetch_returns_zero
    { cells := [some ⟨1, 1, [7], 1⟩, some ⟨2, 0, [], 2⟩], freed := [] }
    { Interpreter.ctor 0 "b" with _curMessages := [0, 1], _fetchedMessages := [1] }
    (by decide)

/-! ## C9, C10: dispatch -/

/-- C9: for a target id that is not a registered interpreter id (negative, or not below the
number of interpreters), `dispatchMessage` returns with the whole state unchanged: the heap
(so the message's reference count, and the deallocation log) and every interpreter's
mailbox are what they were. The message need not even be live. -/
theorem C9_dispatch_to_invalid_target_is_noop (c : Core) (targetIdx : Int) (msg : Ptr)
    (hbad : targetIdx < 0 ∨ targetIdx ≥ Core.numInterpreters c) :
    Core.dispatchMessage c targetIdx msg = some c := by
  have hnone : Core.getInterpreter c targetIdx = none := by
    unfold Core.getInterpreter
    unfold Core.numInterpreters at hbad
    rcases hbad with hneg | hbig
    · simp [hneg]
    · by_cases hneg : targetIdx < 0
      · simp [hneg]
      · simp [hneg, hbig]
  simp [Core.dispatchMessage, hnone]

/-- C9 at concrete inputs: one registered interpreter, target ids `-1` and `1`. -/
theorem C9_dispatch_to_invalid_target_is_noop_witness :
    Core.dispatchMessage
        { heap := { cells := [some ⟨1, 1, [7], 1⟩], freed := [] },
          interpreters := [Interpreter.ctor 0 "a"] } (-1) 0
      = some { heap := { cells := [some ⟨1, 1, [7], 1⟩], freed := [] },
               interpreters := [Interpreter.ctor 0 "a"] } ∧
    Core.dispatchMessage
        { heap := { cells := [some ⟨1, 1, [7], 1⟩], freed := [] },
          interpreters := [Interpreter.ctor 0 "a"] } 1 0
      = some { heap := { cells := [some ⟨1, 1, [7], 1⟩], freed := [] },
               interpreters := [Interpreter.ctor 0 "a"] } :=
  ⟨C9_dispatch_to_invalid_target_is_noop _ (-1) 0 (Or.inl (by decide)),
   C9_dispatch_to_invalid_target_is_noop _ 1 0 (Or.inr (by decide))⟩

/-- C10: for a registered interpreter `b` with an empty incoming buffer (whose mailbox owns
the entries of its fetched buffer) and a live message `msg`, after
`dispatchMessage(b.id, msg)` the call `trss_fetch_messages(b.id)` returns 1 and
`trss_get_message(b.id, 0)` is `msg` itself, still live, with the type tag, the length and
the bytes it had before the dispatch. -/
theorem C10_dispatch_then_fetch_delivers (c : Core) (b : Interpreter) (msg : Ptr)
    (m : truss_message)
    (hreg : Core.getInterpreter c b._ID = some b)
    (hempty : b._curMessages = [])
    (hm : c.heap.lookup msg = some m)
    (hown : b.mailboxOwned c.heap) :
    ∃ c1 c2 m2, Core.dispatchMessage c b._ID msg = some c1 ∧
      trss_fetch_messages c1 b._ID = some (c2, 1) ∧
      trss_get_message c2 b._ID 0 = some (some msg) ∧
      c2.heap.lookup msg = some m2 ∧
      m2.message_type = m.message_type ∧ m2.data_length = m.data_length ∧
      m2.data = m.data := by
  have hlive : ∀ p ∈ [msg], ∃ m', c.heap.lookup p = some m' := by
    intro p hp
    rw [List.mem_singleton] at hp
    subst hp
    exact ⟨m, hm⟩
  obtain ⟨h1, h2, e1, e2, l2⟩ := send_fetch_spec c.heap b [msg] hempty hlive hown
  have es : Interpreter.sendMessage c.heap b msg = some (h1, { b with _curMessages := [msg] }) := by
    cases hs : Interpreter.sendMessage c.heap b msg with
    | none => simp [Interpreter.sendAll, hs] at e1
    | some r => simpa [Interpreter.sendAll, hs] using e1
  have g1 := getInterpreter_set hreg h1 { b with _curMessages := [msg] }
  have g2 := getInterpreter_set g1 h2 { b with _curMessages := [], _fetchedMessages := [msg] }
  have hl := l2 msg (List.mem_singleton_self _) m hm
  have hd : Core.dispatchMessage c b._ID msg = some { c with
      heap := h1
      interpreters := c.interpreters.set b._ID.toNat { b with _curMessages := [msg] } } := by
    simp only [Core.dispatchMessage, hreg, es, Option.map_some']
  have hf : trss_fetch_messages { c with
      heap := h1
      interpreters := c.interpreters.set b._ID.toNat { b with _curMessages := [msg] } } b._ID
      = some ({ c with
          heap := h2
          interpreters := (c.interpreters.set b._ID.toNat { b with _curMessages := [msg] }).set
            b._ID.toNat { b with _curMessages := [], _fetchedMessages := [msg] } }, 1) := by
    simp only [trss_fetch_messages, g1, e2, Option.map_some']
    rfl
  have hg : trss_get_message { c with
      heap := h2
      interpreters := (c.interpreters.set b._ID.toNat { b with _curMessages := [msg] }).set
        b._ID.toNat { b with _curMessages := [], _fetchedMessages := [msg] } } b._ID 0
      = some (some msg) := by
    simp only [trss_get_message, g2]
    rfl
  exact ⟨_, _, _, hd, hf, hg, hl, rfl, rfl, rfl⟩

/-- C10 at the input of the scenario: a 4-byte message of type 1 with bytes 01 02 03 04,
dispatched to interpreter 1 of two. -/
theorem C10_dispatch_then_fetch_delivers_witness :
    ∃ c1 c2 m2,
      Core.dispatchMessage
          { heap := { cells := [some ⟨1, 4, [1, 2, 3, 4], 1⟩], freed := [] },
            interpreters := [Interpreter.ctor 0 "a", Interpreter.ctor 1 "b"] }
          (Interpreter.ctor 1 "b")._ID 0 = some c1 ∧
      trss_fetch_messages c1 (Interpreter.ctor 1 "b")._ID = some (c2, 1) ∧
      trss_get_message c2 (Interpreter.ctor 1 "b")._ID 0 = some (some 0) ∧
      c2.heap.lookup 0 = some m2 ∧
      m2.message_type = (⟨1, 4, [1, 2, 3, 4], 1⟩ : truss_message).message_type ∧
      m2.data_length = (⟨1, 4, [1, 2, 3, 4], 1⟩ : truss_message).data_length ∧
      m2.data = (⟨1, 4, [1, 2, 3, 4], 1⟩ : truss_message).data :=
  C10_dispatch_then_fetch_delivers
    { heap := { cells := [some ⟨1, 4, [1, 2, 3, 4], 1⟩], freed := [] },
      interpreters := [Interpreter.ctor 0 "a", Interpreter.ctor 1 "b"] }
    (Interpreter.ctor 1 "b") 0 ⟨1, 4, [1, 2, 3, 4], 1⟩ (by decide) rfl rfl (by decide)

/-! ## C4: copy -/

theorem copy_spec (h : Heap) (src : Ptr) (s : truss_message) (junkType : Nat)
    (junk : Nat → Nat) (hs : h.lookup src = some s) (hwf : s.wellFormed) :
    ∃ h1, trss_copy_message h src junkType junk = some (h1, h.cells.length) ∧
      h1.lookup h.cells.length = some { s with refcount := 1 } ∧
      h1.freed = h.freed ∧
      ∀ q, q ≠ h.cells.length → h1.lookup q = h.lookup q := by
  unfold truss_message.wellFormed at hwf
  have ha := allocate_lookup h s.data_length junkType junk
  have hp : (Core.allocateMessage h s.data_length junkType junk).2 = h.cells.length := rfl
  have hlen : (Core.allocateMessage h s.data_length junkType junk).1.cells.length
      = h.cells.length + 1 := by
    simp [Core.allocateMessage]
  have hcopy : Core.memcpy ((List.range s.data_length).map (fun i => junk i % 256))
      s.data s.data_length = some s.data := by
    unfold Core.memcpy
    rw [if_pos ⟨by omega, by simp⟩]
    rw [← hwf, List.take_length, List.drop_of_length_le (by simp [hwf]), List.append_nil]
  refine ⟨(Core.allocateMessage h s.data_length junkType junk).1.write h.cells.length
      { s with refcount := 1 }, ?_, ?_, rfl, ?_⟩
  · rw [hp] at ha
    unfold trss_copy_message
    simp only [hs, ha, hcopy, hp]
  · exact Heap.lookup_write_same _ (by simp [Core.allocateMessage])
  · intro q hq
    rw [Heap.lookup_write_ne _ hq]
    unfold Heap.lookup
    simp only [Core.allocateMessage]
    by_cases hlt : q < h.cells.length
    · rw [List.getElem?_append_left hlt]
    · have hgt : h.cells.length < q := Nat.lt_of_le_of_ne (Nat.le_of_not_lt hlt) (Ne.symm hq)
      rw [List.getElem?_eq_none (by simp; omega), List.getElem?_eq_none (by omega)]

/-- C4: for a live, well-formed message `src`, `copyMessage(src)` (the method of `Core` and
the C API function alike) returns a new message, distinct from `src`, with the same length,
the same type tag and the same bytes, and reference count 1; `src` itself (its reference
count, tag, length and bytes) is unchanged by the copy, and stays unchanged when the copy is
acquired `n` times and then released `j ≤ n + 1` times, that is up to its own reference
count. -/
theorem C4_copy_is_independent (h : Heap) (src : Ptr) (s : truss_message) (junkType : Nat)
    (junk : Nat → Nat) (hs : h.lookup src = some s) (hwf : s.wellFormed) :
    ∃ h1 cp c, Core.copyMessage h src junkType junk = some (h1, cp) ∧
      trss_copy_message h src junkType junk = some (h1, cp) ∧
      cp ≠ src ∧ h1.lookup cp = some c ∧
      c.data_length = s.data_length ∧ c.message_type = s.message_type ∧ c.data = s.data ∧
      c.refcount = 1 ∧
      h1.lookup src = some s ∧
      (∀ n j, j ≤ n + 1 → ∃ h2 h3, callTimes Core.acquireMessage cp n h1 = some h2 ∧
        callTimes Core.releaseMessage cp j h2 = some h3 ∧ h3.lookup src = some s) := by
  obtain ⟨h1, e1, l1, _, o1⟩ := copy_spec h src s junkType junk hs hwf
  have hne : src ≠ h.cells.length := Nat.ne_of_lt (Heap.lookup_lt hs)
  have hsrc : h1.lookup src = some s := by rw [o1 src hne]; exact hs
  refine ⟨h1, h.cells.length, _, by rw [core_copy_eq]; exact e1, e1, Ne.symm hne, l1,
    rfl, rfl, rfl, rfl, hsrc, ?_⟩
  intro n j hj
  rw [core_acquire_eq, core_release_eq]
  obtain ⟨h2, e2, l2, _, o2⟩ := acquire_times l1 n
  have hsrc2 : h2.lookup src = some s := by rw [o2 src hne]; exact hsrc
  by_cases hjn : j ≤ n
  · obtain ⟨h3, e3, _, _, o3⟩ := release_times l2 j (by simp; omega)
    exact ⟨h2, h3, e2, e3, by rw [o3 src hne]; exact hsrc2⟩
  · have hj1 : j = n + 1 := by omega
    subst hj1
    obtain ⟨h3, e3, _, _, o3⟩ := release_all_refs l2 n (by simp; omega)
    exact ⟨h2, h3, e2, e3, by rw [o3 src hne]; exact hsrc2⟩

/-- C4 at a concrete input: a 4-byte message of type 1 with reference count 2. -/
theorem C4_copy_is_independent_witness :
    ∃ h1 cp c,
      Core.copyMessage { cells := [some ⟨1, 4, [1, 2, 3, 4], 2⟩], freed := [] } 0 9
          (fun _ => 5) = some (h1, cp) ∧
      trss_copy_message { cells := [some ⟨1, 4, [1, 2, 3, 4], 2⟩], freed := [] } 0 9
          (fun _ => 5) = some (h1, cp) ∧
      cp ≠ 0 ∧ h1.lookup cp = some c ∧
      c.data_length = (⟨1, 4, [1, 2, 3, 4], 2⟩ : truss_message).data_length ∧
      c.message_type = (⟨1, 4, [1, 2, 3, 4], 2⟩ : truss_message).message_type ∧
      c.data = (⟨1, 4, [1, 2, 3, 4], 2⟩ : truss_message).data ∧
      c.refcount = 1 ∧
      h1.lookup 0 = some ⟨1, 4, [1, 2, 3, 4], 2⟩ ∧
      (∀ n j, j ≤ n + 1 → ∃ h2 h3, callTimes Core.acquireMessage cp n h1 = some h2 ∧
        callTimes Core.releaseMessage cp j h2 = some h3 ∧
        h3.lookup 0 = some ⟨1, 4, [1, 2, 3, 4], 2⟩) :=
  C4_copy_is_independent { cells := [some ⟨1, 4, [1, 2, 3, 4], 2⟩], freed := [] } 0
    ⟨1, 4, [1, 2, 3, 4], 2⟩ 9 (fun _ => 5) rfl (by decide)

/-! ## C5 to C8: the interpreter's life cycle -/

theorem applyCalls_thread_arg (cs : List ApiCall) : ∀ (self : Interpreter),
    (Interpreter.applyCalls self cs).1._thread = self._thread ∧
    (Interpreter.applyCalls self cs).1._arg = self._arg := by
  induction cs with
  | nil => intro self; exact ⟨rfl, rfl⟩
  | cons c cs ih =>
    intro self
    have h1 : (Interpreter.applyCall self c).1._thread = self._thread ∧
        (Interpreter.applyCall self c).1._arg = self._arg := by
      cases c with
      | stop => exact ⟨rfl, rfl⟩
      | attachAddon a =>
        by_cases hc : (!self._running && self._thread == none) = true <;>
          simp [Interpreter.applyCall, Interpreter.attachAddon, hc]
    have h2 := ih (Interpreter.applyCall self c).1
    exact ⟨h2.1.trans h1.1, h2.2.trans h1.2⟩

theorem applyCalls_events (cs : List ApiCall) : ∀ (s : Interpreter),
    ∀ e ∈ (Interpreter.applyCalls s cs).2, e.isHookOrEntryPoint = false := by
  induction cs with
  | nil => intro s e he; cases he
  | cons c cs ih =>
    intro s e he
    simp only [Interpreter.applyCalls, List.mem_append] at he
    rcases he with he | he
    · cases c with
      | stop => cases he
      | attachAddon a =>
        by_cases hc : (!s._running && s._thread == none) = true
        · simp [Interpreter.applyCall, Interpreter.attachAddon, hc] at he
        · simp [Interpreter.applyCall, Interpreter.attachAddon, hc] at he
          rcases he with h1 | h1 <;> subst h1 <;> rfl
    · exact ih _ e he

/-- C5: on an interpreter that has not been started, after `start(a1)` a second call
`start(a2)` only prints the already-running message: the interpreter (recorded argument `a1`,
running flag, thread handle, everything else) is returned unchanged and no thread is
created, whatever `SDL_CreateThread` returned the first time. When the first call did
create a thread, the same holds at any later moment, after any calls of `stop` and
`attachAddon` (the run loop's own `_running = false` is a `stop`). -/
theorem C5_second_start_is_rejected (self : Interpreter) (a1 a2 : String)
    (t1 t2 : Option Thread) (t : Thread)
    (hthread : self._thread = none) (hrun : self._running = false) :
    Interpreter.start (Interpreter.start self a1 t1).1 a2 t2
      = ((Interpreter.start self a1 t1).1, [Event.log alreadyRunningText]) ∧
    (Interpreter.start self a1 t1).2 = [Event.createThread self._name] ∧
    (Interpreter.start self a1 t1).1._arg = a1 ∧
    (Interpreter.start self a1 t1).1._running = true ∧
    (Interpreter.start self a1 t1).1._thread = t1 ∧
    (∀ cs : List ApiCall,
      Interpreter.start (Interpreter.applyCalls (Interpreter.start self a1 (some t)).1 cs).1 a2 t2
        = ((Interpreter.applyCalls (Interpreter.start self a1 (some t)).1 cs).1,
            [Event.log alreadyRunningText]) ∧
      (Interpreter.applyCalls (Interpreter.start self a1 (some t)).1 cs).1._arg = a1 ∧
      (Interpreter.applyCalls (Interpreter.start self a1 (some t)).1 cs).1._thread = some t) := by
  have hs : ∀ u, Interpreter.start self a1 u
      = ({ self with _arg := a1, _running := true, _thread := u },
          [Event.createThread self._name]) := by
    intro u
    simp [Interpreter.start, hthread, hrun]
  refine ⟨?_, ?_, ?_, ?_, ?_, ?_⟩
  · rw [hs]
    simp [Interpreter.start]
  · rw [hs]
  · rw [hs]
  · rw [hs]
  · rw [hs]
  · intro cs
    obtain ⟨ht, ha⟩ := applyCalls_thread_arg cs (Interpreter.start self a1 (some t)).1
    rw [hs] at ht ha ⊢
    simp only at ht ha
    refine ⟨?_, ha, ht⟩
    simp [Interpreter.start, ht]

/-- C5 at a concrete input: a freshly constructed interpreter, started with "a" then "b". -/
theorem C5_second_start_is_rejected_witness :
    Interpreter.start (Interpreter.start (Interpreter.ctor 0 "main") "a" (some 7)).1 "b" (some 8)
      = ((Interpreter.start (Interpreter.ctor 0 "main") "a" (some 7)).1,
          [Event.log alreadyRunningText]) ∧
    (Interpreter.start (Interpreter.ctor 0 "main") "a" (some 7)).1._arg = "a" :=
  ⟨(C5_second_start_is_rejected (Interpreter.ctor 0 "main") "a" "b" (some 7) (some 8) 7
      rfl rfl).1,
   (C5_second_start_is_rejected (Interpreter.ctor 0 "main") "a" "b" (some 7) (some 8) 7
      rfl rfl).2.2.1⟩

/-- C8: when the bootstrap program cannot be loaded, or its execution returns a non-zero
result, the run loop returns (with any amount of fuel) with the running flag cleared, and
its trace holds no module hook call and no call of a VM entry point: no `init`, no
`_coreInit`, no frame-loop iteration. The recorded argument, the thread handle and, when
nothing outside interferes, the module list are unchanged. -/
theorem C8_bootstrap_failure_stops_before_init (self : Interpreter) (w : World) (fuel : Nat)
    (hfail : w.bootstrap = none ∨ w.pcall 0 ≠ 0) :
    ∃ r, Interpreter._threadEntry self w fuel = some r ∧
      r.self._running = false ∧
      (∀ e ∈ r.trace, e.isHookOrEntryPoint = false) ∧
      r.self._arg = self._arg ∧ r.self._thread = self._thread ∧
      (w.bootstrap = none ∨ w.during 0 = [] → r.self._addons = self._addons) := by
  cases hb : w.bootstrap with
  | none =>
    have e : Interpreter._threadEntry self w fuel = some
        { self := { self with _running := false }
          trace := [Event.newState, Event.loadFile "bootstrap.t",
            Event.log "Error loading bootstrap script.\n"]
          calls := 0 } := by
      simp [Interpreter._threadEntry, hb]
    refine ⟨_, e, rfl, ?_, rfl, rfl, fun _ => rfl⟩
    intro e he
    simp only [List.mem_cons, List.mem_singleton, List.not_mem_nil, or_false] at he
    rcases he with he | he | he <;> subst he <;> rfl
  | some b =>
    have hp : w.pcall 0 ≠ 0 := by
      rcases hfail with h0 | h0
      · rw [hb] at h0; cases h0
      · exact h0
    obtain ⟨ht, ha⟩ := applyCalls_thread_arg (w.during 0) self
    have e : Interpreter._threadEntry self w fuel = some
        { self := { (Interpreter.applyCalls self (w.during 0)).1 with _running := false }
          trace := [Event.newState, Event.loadFile "bootstrap.t"] ++
            [Event.loadBuffer b.data b.data_length "bootstrap.t"] ++
            (Interpreter.applyCalls self (w.during 0)).2 ++
            [Event.log "Error bootstrapping interpreter: ", Event.luaError]
          calls := 1 } := by
      simp [Interpreter._threadEntry, hb, hp, Interpreter.external]
    refine ⟨_, e, rfl, ?_, ha, ht, ?_⟩
    · intro e he
      simp only [List.mem_append, List.mem_cons, List.mem_singleton, List.not_mem_nil,
        or_false] at he
      rcases he with (((he | he) | he) | he) | he
      · subst he; rfl
      · subst he; rfl
      · subst he; rfl
      · exact applyCalls_events _ _ e he
      · rcases he with he | he <;> subst he <;> rfl
    · intro hq
      rcases hq with hq | hq
      · cases hq
      · simp [hq, Interpreter.applyCalls]

/-- C8 at concrete inputs: a missing bootstrap file, and a bootstrap chunk whose execution
fails, on an interpreter with one attached module. -/
theorem C8_bootstrap_failure_stops_before_init_witness :
    (∃ r, Interpreter._threadEntry
        { Interpreter.ctor 0 "main" with _addons := [⟨1⟩], _running := true }
        worldMissingBootstrap 0 = some r ∧
      r.self._running = false ∧
      (∀ e ∈ r.trace, e.isHookOrEntryPoint = false) ∧
      r.self._arg = "" ∧ r.self._thread = none ∧
      (worldMissingBootstrap.bootstrap = none ∨ worldMissingBootstrap.during 0 = [] →
        r.self._addons = [⟨1⟩])) ∧
    (∃ r, Interpreter._threadEntry
        { Interpreter.ctor 0 "main" with _addons := [⟨1⟩], _running := true }
        worldFailingBootstrap 5 = some r ∧
      r.self._running = false ∧
      (∀ e ∈ r.trace, e.isHookOrEntryPoint = false) ∧
      r.self._arg = "" ∧ r.self._thread = none ∧
      (worldFailingBootstrap.bootstrap = none ∨ worldFailingBootstrap.during 0 = [] →
        r.self._addons = [⟨1⟩])) :=
  ⟨C8_bootstrap_failure_stops_before_init _ worldMissingBootstrap 0 (Or.inl rfl),
   C8_bootstrap_failure_stops_before_init _ worldFailingBootstrap 5 (Or.inr (by decide))⟩

/-- C6: an interpreter with module 1 attached is started with `startUnthreaded("a")`. While
the first `update` of module 1 is in progress (external call 3, inside the run loop, which
has not exited), `stop()` and then `attachAddon(module 2)` are called. The attach is
accepted, since `_running` is false and `_thread` is `NULL`: module 2 joins the module list
and the run loop calls its `update` in that same iteration. -/
theorem C6_attach_accepted_while_unthreaded_loop_runs :
    Interpreter.startUnthreaded (Interpreter.attachAddon (Interpreter.ctor 0 "main") ⟨1⟩).1 "a"
        (worldStopAttachDuring 3 ⟨2⟩) 4
      = some
        { self :=
            { _ID := 0, _name := "main", _thread := none, _running := false, _arg := "a",
              _addons := [⟨1⟩, ⟨2⟩], _curMessages := [], _fetchedMessages := [] }
          trace :=
            [Event.newState, Event.loadFile "bootstrap.t",
             Event.loadBuffer [1, 2, 3] 3 "bootstrap.t",
             Event.addonInit ⟨1⟩,
             Event.luaCall "_coreInit" (some "a"),
             Event.addonUpdate ⟨1⟩ 1 60,
             Event.addonUpdate ⟨2⟩ 1 60,
             Event.luaCall "_coreUpdate" none,
             Event.log "Shutting down.\n"]
          calls := 6 } := by
  rfl

/-- C7: an interpreter with module 1 attached is started with `startUnthreaded("a")`; a
stop is requested during `_coreInit`, so its run loop exits. A later `startUnthreaded("b")`
is accepted: the run loop is entered a second time (the VM is created again, module 1 gets
a second `init`, `_coreInit` runs with "b"). A later `start("b")` is accepted as well: the
interpreter is running again and a thread is created. -/
theorem C7_unthreaded_interpreter_restarts :
    Interpreter.startUnthreaded (Interpreter.attachAddon (Interpreter.ctor 0 "main") ⟨1⟩).1 "a"
        (worldStopDuring 2) 4
      = some
        { self :=
            { _ID := 0, _name := "main", _thread := none, _running := false, _arg := "a",
              _addons := [⟨1⟩], _curMessages := [], _fetchedMessages := [] }
          trace :=
            [Event.newState, Event.loadFile "bootstrap.t",
             Event.loadBuffer [1, 2, 3] 3 "bootstrap.t",
             Event.addonInit ⟨1⟩,
             Event.luaCall "_coreInit" (some "a"),
             Event.log "Shutting down.\n"]
          calls := 3 } ∧
    Interpreter.startUnthreaded
        { _ID := 0, _name := "main", _thread := none, _running := false, _arg := "a",
          _addons := [⟨1⟩], _curMessages := [], _fetchedMessages := [] } "b"
        (worldStopDuring 2) 4
      = some
        { self :=
            { _ID := 0, _name := "main", _thread := none, _running := false, _arg := "b",
              _addons := [⟨1⟩], _curMessages := [], _fetchedMessages := [] }
          trace :=
            [Event.newState, Event.loadFile "bootstrap.t",
             Event.loadBuffer [1, 2, 3] 3 "bootstrap.t",
             Event.addonInit ⟨1⟩,
             Event.luaCall "_coreInit" (some "b"),
             Event.log "Shutting down.\n"]
          calls := 3 } ∧
    Interpreter.start
        { _ID := 0, _name := "main", _thread := none, _running := false, _arg := "a",
          _addons := [⟨1⟩], _curMessages := [], _fetchedMessages := [] } "b" (some 7)
      = ({ _ID := 0, _name := "main", _thread := some 7, _running := true, _arg := "b",
           _addons := [⟨1⟩], _curMessages := [], _fetchedMessages := [] },
         [Event.createThread "main"]) := by
  refine ⟨?_, ?_, ?_⟩ <;> rfl

/-! ## C13 to C20: mailbox frame conditions, the registry, files, allocation -/

/-- C20: for every requested length `n`, the message `allocateMessage(n)` returns is live
with `data_length = n` and reference count 1 (and a buffer of `n` bytes); its pointer was not
live before, and nothing is deallocated. -/
theorem C20_allocate_length_and_refcount (h : Heap) (n junkType : Nat) (junk : Nat → Nat) :
    ∃ m, (Core.allocateMessage h n junkType junk).1.lookup
          (Core.allocateMessage h n junkType junk).2 = some m ∧
      m.data_length = n ∧ m.refcount = 1 ∧ m.data.length = n ∧
      h.lookup (Core.allocateMessage h n junkType junk).2 = none ∧
      (Core.allocateMessage h n junkType junk).1.freed = h.freed := by
  refine ⟨_, allocate_lookup h n junkType junk, rfl, rfl, by simp, ?_, rfl⟩
  cases hl : h.lookup (Core.allocateMessage h n junkType junk).2 with
  | none => rfl
  | some m =>
    have := Heap.lookup_lt hl
    simp [Core.allocateMessage] at this

/-- C15: for every interpreter, whatever its running flag and thread handle, and every live
message `msg`, `sendMessage(msg)` succeeds, raises the reference count of `msg` by exactly 1
leaving its type tag, length and bytes as they were, appends `msg` at the end of the
incoming buffer and changes nothing else of the interpreter (fetched buffer, running flag,
attached modules); no other message is touched and nothing is deallocated. -/
theorem C15_send_acquires_and_appends (h : Heap) (self : Interpreter) (msg : Ptr)
    (m : truss_message) (hm : h.lookup msg = some m) :
    ∃ h1 s1, Interpreter.sendMessage h self msg = some (h1, s1) ∧
      h1.lookup msg = some { m with refcount := m.refcount + 1 } ∧
      s1._curMessages = self._curMessages ++ [msg] ∧
      s1._fetchedMessages = self._fetchedMessages ∧
      s1._running = self._running ∧ s1._addons = self._addons ∧
      s1 = { self with _curMessages := self._curMessages ++ [msg] } ∧
      h1.freed = h.freed ∧ (∀ q, q ≠ msg → h1.lookup q = h.lookup q) := by
  obtain ⟨h1, e1, l1, f1, _, o1⟩ := acquire_spec hm
  have es : Interpreter.sendMessage h self msg
      = some (h1, { self with _curMessages := self._curMessages ++ [msg] }) := by
    simp [Interpreter.sendMessage, e1]
  exact ⟨h1, _, es, l1, rfl, rfl, rfl, rfl, rfl, f1, o1⟩

/-- C15 at concrete inputs: a running interpreter with one module and a non-empty mailbox. -/
theorem C15_send_acquires_and_appends_witness :
    ∃ h1 s1,
      Interpreter.sendMessage { cells := [some ⟨1, 1, [7], 1⟩, some ⟨2, 0, [], 3⟩], freed := [] }
        { Interpreter.ctor 0 "b" with
          _running := true, _addons := [⟨4⟩], _curMessages := [1], _fetchedMessages := [1, 1] }
        0 = some (h1, s1) ∧
      h1.lookup 0 = some { (⟨1, 1, [7], 1⟩ : truss_message) with refcount := 1 + 1 } ∧
      s1._curMessages = [1] ++ [0] ∧
      s1._fetchedMessages = [1, 1] ∧
      s1._running = true ∧ s1._addons = [⟨4⟩] ∧
      s1 = { Interpreter.ctor 0 "b" with
             _running := true, _addons := [⟨4⟩], _curMessages := [1] ++ [0],
             _fetchedMessages := [1, 1] } ∧
      h1.freed = [] ∧
      (∀ q, q ≠ 0 →
        h1.lookup q = (Heap.mk [some ⟨1, 1, [7], 1⟩, some ⟨2, 0, [], 3⟩] []).lookup q) :=
  C15_send_acquires_and_appends
    { cells := [some ⟨1, 1, [7], 1⟩, some ⟨2, 0, [], 3⟩], freed := [] }
    { Interpreter.ctor 0 "b" with
      _running := true, _addons := [⟨4⟩], _curMessages := [1], _fetchedMessages := [1, 1] }
    0 ⟨1, 1, [7], 1⟩ rfl

theorem getInterpreter_ofNat (c : Core) (j : Nat) :
    Core.getInterpreter c (j : Int) = c.interpreters[j]? := by
  unfold Core.getInterpreter
  by_cases hj : j < c.interpreters.length
  · have h1 : ¬ ((j : Int) < 0) := by omega
    have h2 : ¬ ((j : Int) ≥ (c.interpreters.length : Int)) := by omega
    simp [h1, h2]
  · have h1 : ¬ ((j : Int) < 0) := by omega
    have h2 : (j : Int) ≥ (c.interpreters.length : Int) := by omega
    simp only [h1, h2, if_true, if_false]
    exact (List.getElem?_eq_none (Nat.le_of_not_lt hj)).symm

theorem getInterpreter_neg (c : Core) {idx : Int} (hneg : idx < 0) :
    Core.getInterpreter c idx = none := by
  simp [Core.getInterpreter, hneg]

/-- Spawning keeps the invariant that ids equal registry positions. -/
theorem spawn_idsMatch (c : Core) (name : String) (hids : c.idsMatch) :
    (Core.spawnInterpreter c name).1.idsMatch := by
  intro i
  have hi := i.isLt
  simp only [Core.spawnInterpreter, List.length_append, List.length_singleton] at hi
  simp only [Core.spawnInterpreter, List.get_eq_getElem]
  by_cases hlt : i.val < c.interpreters.length
  · rw [List.getElem_append_left hlt]
    exact hids ⟨i.val, hlt⟩
  · have he : i.val = c.interpreters.length := by omega
    rw [List.getElem_append_right (by omega)]
    simp [he, Interpreter.ctor]

/-- C16: for a registry holding `k` interpreters, `spawnInterpreter` returns an interpreter
whose id is `k`, not started, with no module and an empty mailbox; the registry then holds
`k + 1` interpreters, `getInterpreter(k)` is the new interpreter, and `getInterpreter(j)` is
what it was before for every `j < k`. -/
theorem C16_spawn_assigns_next_id (c : Core) (name : String) :
    (Core.spawnInterpreter c name).2._ID = Core.numInterpreters c ∧
    (Core.spawnInterpreter c name).2 = Interpreter.ctor (Core.numInterpreters c) name ∧
    Core.numInterpreters (Core.spawnInterpreter c name).1 = Core.numInterpreters c + 1 ∧
    Core.getInterpreter (Core.spawnInterpreter c name).1 (Core.numInterpreters c)
      = some (Core.spawnInterpreter c name).2 ∧
    (∀ j : Int, j < Core.numInterpreters c →
      Core.getInterpreter (Core.spawnInterpreter c name).1 j = Core.getInterpreter c j) ∧
    (Core.spawnInterpreter c name).1.heap = c.heap := by
  refine ⟨rfl, rfl, by simp [Core.numInterpreters, Core.spawnInterpreter], ?_, ?_, rfl⟩
  · unfold Core.numInterpreters
    rw [getInterpreter_ofNat]
    simp [Core.spawnInterpreter]
  · intro j hj
    unfold Core.numInterpreters at hj
    by_cases hneg : j < 0
    · rw [getInterpreter_neg _ hneg, getInterpreter_neg _ hneg]
    · obtain ⟨n, rfl⟩ := Int.eq_ofNat_of_zero_le (by omega : 0 ≤ j)
      rw [getInterpreter_ofNat, getInterpreter_ofNat]
      simp only [Core.spawnInterpreter]
      exact List.getElem?_append_left (by omega)

/-- C17: `getInterpreter(idx)` is `NULL` exactly when `idx < 0` or
`idx >= numInterpreters()`; otherwise, in a registry whose ids equal positions (as
`spawnInterpreter` builds it), it returns the interpreter whose `getID()` is `idx`. -/
theorem C17_getInterpreter_bounds_and_id (c : Core) (idx : Int) (hids : c.idsMatch) :
    (Core.getInterpreter c idx = none ↔ (idx < 0 ∨ idx ≥ Core.numInterpreters c)) ∧
    (¬ (idx < 0 ∨ idx ≥ Core.numInterpreters c) →
      ∃ b, Core.getInterpreter c idx = some b ∧ Interpreter.getID b = idx) := by
  unfold Core.numInterpreters
  by_cases hneg : idx < 0
  · exact ⟨⟨fun _ => Or.inl hneg, fun _ => getInterpreter_neg c hneg⟩,
      fun hn => absurd (Or.inl hneg) hn⟩
  · obtain ⟨n, rfl⟩ := Int.eq_ofNat_of_zero_le (by omega : 0 ≤ idx)
    rw [getInterpreter_ofNat]
    by_cases hlt : n < c.interpreters.length
    · have hget : c.interpreters[n]? = some c.interpreters[n] := List.getElem?_eq_getElem hlt
      refine ⟨⟨fun hnone => ?_, fun hor => ?_⟩, fun _ => ⟨_, hget, ?_⟩⟩
      · rw [hget] at hnone; cases hnone
      · omega
      · exact hids ⟨n, hlt⟩
    · refine ⟨⟨fun _ => Or.inr (by omega), fun _ => ?_⟩, fun hn => absurd (Or.inr (by omega)) hn⟩
      exact List.getElem?_eq_none (Nat.le_of_not_lt hlt)

/-- C17 at a concrete input: the registry after two spawns, asked for id 1. -/
theorem C17_getInterpreter_bounds_and_id_witness :
    (Core.getInterpreter (Core.spawnInterpreter (Core.spawnInterpreter Core.ctor "a").1 "b").1 1
        = none ↔
      ((1 : Int) < 0 ∨ (1 : Int) ≥ Core.numInterpreters
        (Core.spawnInterpreter (Core.spawnInterpreter Core.ctor "a").1 "b").1)) ∧
    (¬ ((1 : Int) < 0 ∨ (1 : Int) ≥ Core.numInterpreters
        (Core.spawnInterpreter (Core.spawnInterpreter Core.ctor "a").1 "b").1) →
      ∃ b, Core.getInterpreter
          (Core.spawnInterpreter (Core.spawnInterpreter Core.ctor "a").1 "b").1 1 = some b ∧
        Interpreter.getID b = 1) :=
  C17_getInterpreter_bounds_and_id
    (Core.spawnInterpreter (Core.spawnInterpreter Core.ctor "a").1 "b").1 1 (by decide)

/-- C18: after `stopAllInterpreters` the registry holds as many interpreters as before, at
the same positions; each is the interpreter it was with its running flag cleared, so ids,
attached modules and mailboxes are unchanged; the message heap is untouched. -/
theorem C18_stopAll_clears_every_running_flag (c : Core) :
    Core.numInterpreters (Core.stopAllInterpreters c) = Core.numInterpreters c ∧
    (∀ idx : Int, Core.getInterpreter (Core.stopAllInterpreters c) idx
      = (Core.getInterpreter c idx).map fun b => { b with _running := false }) ∧
    (∀ b ∈ (Core.stopAllInterpreters c).interpreters, b._running = false) ∧
    (∀ (i : Nat) (hi : i < c.interpreters.length),
      ∃ b, (Core.stopAllInterpreters c).interpreters[i]? = some b ∧
        b._running = false ∧ b._ID = c.interpreters[i]._ID ∧
        b._addons = c.interpreters[i]._addons ∧
        b._curMessages = c.interpreters[i]._curMessages ∧
        b._fetchedMessages = c.interpreters[i]._fetchedMessages ∧
        b._thread = c.interpreters[i]._thread ∧ b._arg = c.interpreters[i]._arg) ∧
    (Core.stopAllInterpreters c).heap = c.heap := by
  refine ⟨by simp [Core.numInterpreters, Core.stopAllInterpreters], ?_, ?_, ?_, rfl⟩
  · intro idx
    by_cases hneg : idx < 0
    · rw [getInterpreter_neg _ hneg, getInterpreter_neg _ hneg]; rfl
    · obtain ⟨n, rfl⟩ := Int.eq_ofNat_of_zero_le (by omega : 0 ≤ idx)
      rw [getInterpreter_ofNat, getInterpreter_ofNat]
      simp only [Core.stopAllInterpreters, List.getElem?_map]
      rfl
  · intro b hb
    simp only [Core.stopAllInterpreters, List.mem_map] at hb
    obtain ⟨a, _, rfl⟩ := hb
    rfl
  · intro i hi
    refine ⟨Interpreter.stop c.interpreters[i], ?_, rfl, rfl, rfl, rfl, rfl, rfl, rfl⟩
    simp only [Core.stopAllInterpreters, List.getElem?_map, List.getElem?_eq_getElem hi]
    rfl

/-- C19: when the filesystem is initialised and the path does not exist in it, `loadFile`
returns `NULL`, leaves the message heap as it was (no message is allocated) and appends
exactly one line to the log file. -/
theorem C19_loadFile_missing_path (c : Core) (filename : String) (junkType : Nat)
    (junk : Nat → Nat) (hinit : c.physFSInitted_ = true)
    (hmissing : PHYSFS_exists c.physfs filename = 0) :
    (Core.loadFile c filename junkType junk).2 = none ∧
    (Core.loadFile c filename junkType junk).1.heap = c.heap ∧
    (∃ entry, (Core.loadFile c filename junkType junk).1.logfile_ = c.logfile_ ++ [entry]) ∧
    (Core.loadFile c filename junkType junk).1.logfile_.length = c.logfile_.length + 1 ∧
    (Core.loadFile c filename junkType junk).1
      = { c with logfile_ := c.logfile_ ++ [(LogLevel.TRUSS_LOG_ERROR,
            ("Error opening file '" ++ filename ++ "': does not exist.").take 4095)] } := by
  have e : Core.loadFile c filename junkType junk
      = ({ c with logfile_ := c.logfile_ ++ [(LogLevel.TRUSS_LOG_ERROR,
            ("Error opening file '" ++ filename ++ "': does not exist.").take 4095)] }, none) := by
    simp [Core.loadFile, hinit, hmissing, Core.logPrint, Core.logMessage]
  rw [e]
  exact ⟨rfl, rfl, ⟨_, rfl⟩, by simp, rfl⟩

/-- C19 at the input of the scenario: `missing.txt` on an initialised, empty filesystem. -/
theorem C19_loadFile_missing_path_witness :
    (Core.loadFile { Core.ctor with physFSInitted_ := true } "missing.txt" 0 (fun _ => 0)).2
      = none ∧
    (Core.loadFile { Core.ctor with physFSInitted_ := true } "missing.txt" 0 (fun _ => 0)).1.heap
      = Core.ctor.heap ∧
    (Core.loadFile { Core.ctor with physFSInitted_ := true } "missing.txt" 0
      (fun _ => 0)).1.logfile_.length = 0 + 1 :=
  ⟨(C19_loadFile_missing_path { Core.ctor with physFSInitted_ := true } "missing.txt" 0
      (fun _ => 0) rfl rfl).1,
   (C19_loadFile_missing_path { Core.ctor with physFSInitted_ := true } "missing.txt" 0
      (fun _ => 0) rfl rfl).2.1,
   (C19_loadFile_missing_path { Core.ctor with physFSInitted_ := true } "missing.txt" 0
      (fun _ => 0) rfl rfl).2.2.2.1⟩

/-- C13: `getMessage` indexes the fetched vector without any bounds check. On an interpreter
whose fetched buffer holds one message, `getMessage(1)` and `getMessage(-1)` are reads
outside the vector (undefined behaviour, `none`), not a reported failure, and
`trss_get_message` passes the index on unchecked, so it is undefined as well rather than
`NULL`; only an unknown interpreter id yields `NULL`. The sibling getter `getInterpreter`
does check its index. -/
theorem C13_getMessage_reads_out_of_range :
    Interpreter.getMessage { Interpreter.ctor 0 "a" with _fetchedMessages := [5] } 0 = some 5 ∧
    Interpreter.getMessage { Interpreter.ctor 0 "a" with _fetchedMessages := [5] } 1 = none ∧
    Interpreter.getMessage { Interpreter.ctor 0 "a" with _fetchedMessages := [5] } (-1) = none ∧
    trss_get_message
      { heap := { cells := [], freed := [] },
        interpreters := [{ Interpreter.ctor 0 "a" with _fetchedMessages := [5] }] } 0 1 = none ∧
    trss_get_message
      { heap := { cells := [], freed := [] },
        interpreters := [{ Interpreter.ctor 0 "a" with _fetchedMessages := [5] }] } 7 1
      = some none ∧
    Core.getInterpreter
      { heap := { cells := [], freed := [] },
        interpreters := [{ Interpreter.ctor 0 "a" with _fetchedMessages := [5] }] } 1 = none := by
  refine ⟨?_, ?_, ?_, ?_, ?_, ?_⟩ <;> rfl

/-! ## C14: what `fetchMessages` releases -/

theorem cover_tail {h h1 : Heap} {p : Ptr} {ps : List Ptr} {m : truss_message}
    (hm : h.lookup p = some m)
    (hown : ∀ q ∈ p :: ps, h.refsAtLeast q ((p :: ps).count q) = true)
    (hkeep : 1 < m.refcount → h1.lookup p = some { m with refcount := m.refcount - 1 })
    (ho : ∀ q, q ≠ p → h1.lookup q = h.lookup q) :
    ∀ q ∈ ps, h1.refsAtLeast q (ps.count q) = true := by
  intro q hq
  rw [Heap.refsAtLeast_iff]
  obtain ⟨mq, hmq, hrq⟩ := (Heap.refsAtLeast_iff _ _ _).1 (hown q (List.mem_cons_of_mem _ hq))
  by_cases hqp : q = p
  · subst hqp
    rw [hm] at hmq
    cases hmq
    rw [List.count_cons_self] at hrq
    push_cast at hrq
    have hpos : 0 < ps.count q := List.count_pos_iff.2 hq
    exact ⟨_, hkeep (by omega), by simp; omega⟩
  · rw [List.count_cons_of_ne hqp] at hrq
    exact ⟨mq, by rw [ho q hqp]; exact hmq, hrq⟩

/-- The deallocations made by the release loop: a message whose reference count equals its
number of occurrences in the list is deallocated and logged; the log only grows, and only
by entries of the list. -/
theorem releaseAll_freed (l : List Ptr) : ∀ (h h1 : Heap),
    (∀ p ∈ l, h.refsAtLeast p (l.count p) = true) →
    Interpreter.releaseAll h l = some h1 →
    (∀ q m, h.lookup q = some m → q ∈ l → (l.count q : Int) = m.refcount →
      h1.lookup q = none ∧ q ∈ h1.freed) ∧
    (∀ q, q ∈ h.freed → q ∈ h1.freed) ∧
    (∀ q, q ∈ h1.freed → q ∈ h.freed ∨ q ∈ l) := by
  induction l with
  | nil =>
    intro h h1 _ he
    simp only [Interpreter.releaseAll, Option.some.injEq] at he
    subst he
    exact ⟨fun q m _ hq _ => absurd hq (List.not_mem_nil q), fun _ hq => hq,
      fun _ hq => Or.inl hq⟩
  | cons p ps ih =>
    intro h h2 hown he
    obtain ⟨m, hm, hrc⟩ := (Heap.refsAtLeast_iff _ _ _).1 (hown p (List.mem_cons_self _ _))
    rw [List.count_cons_self] at hrc
    push_cast at hrc
    by_cases hbig : 1 < m.refcount
    · obtain ⟨h1, e1, l1, f1, _, o1⟩ := release_keep hm hbig
      have hown1 := cover_tail hm hown (fun _ => l1) o1
      have he1 : Interpreter.releaseAll h1 ps = some h2 := by
        simpa [Interpreter.releaseAll, e1] using he
      obtain ⟨c1, d1, g1⟩ := ih h1 h2 hown1 he1
      refine ⟨?_, ?_, ?_⟩
      · intro q mq hmq hq hcnt
        by_cases hqp : q = p
        · subst hqp
          rw [hm] at hmq
          cases hmq
          rw [List.count_cons_self] at hcnt
          push_cast at hcnt
          have hin : q ∈ ps := List.count_pos_iff.1 (by omega)
          exact c1 q _ l1 hin (by simp; omega)
        · rw [List.count_cons_of_ne hqp] at hcnt
          have hin : q ∈ ps := by
            rcases List.mem_cons.1 hq with h0 | h0
            · exact absurd h0 hqp
            · exact h0
          exact c1 q mq (by rw [o1 q hqp]; exact hmq) hin hcnt
      · intro q hq
        exact d1 q (by rw [f1]; exact hq)
      · intro q hq
        rcases g1 q hq with h0 | h0
        · exact Or.inl (by rw [← f1]; exact h0)
        · exact Or.inr (List.mem_cons_of_mem _ h0)
    · have hnot : p ∉ ps := by
        rw [← List.count_eq_zero]
        omega
      obtain ⟨h1, e1, l1, f1, _, o1⟩ := release_free hm (by omega)
      have hown1 := cover_tail hm hown (fun hk => absurd hk hbig) o1
      have he1 : Interpreter.releaseAll h1 ps = some h2 := by
        simpa [Interpreter.releaseAll, e1] using he
      obtain ⟨c1, d1, g1⟩ := ih h1 h2 hown1 he1
      obtain ⟨h3, e3, a3, _⟩ := releaseAll_spec ps h1 hown1
      rw [he1] at e3
      cases e3
      refine ⟨?_, ?_, ?_⟩
      · intro q mq hmq hq hcnt
        by_cases hqp : q = p
        · subst hqp
          exact ⟨by rw [a3 q hnot]; exact l1, d1 q (by rw [f1]; simp)⟩
        · rw [List.count_cons_of_ne hqp] at hcnt
          have hin : q ∈ ps := by
            rcases List.mem_cons.1 hq with h0 | h0
            · exact absurd h0 hqp
            · exact h0
          exact c1 q mq (by rw [o1 q hqp]; exact hmq) hin hcnt
      · intro q hq
        exact d1 q (by rw [f1]; exact List.mem_append_left _ hq)
      · intro q hq
        rcases g1 q hq with h0 | h0
        · rw [f1] at h0
          rcases List.mem_append.1 h0 with h4 | h4
          · exact Or.inl h4
          · rw [List.mem_singleton] at h4
            exact Or.inr (h4 ▸ List.mem_cons_self _ _)
        · exact Or.inr (List.mem_cons_of_mem _ h0)

/-- C14, the claim as stated fails: with message 0 both in the incoming and in the fetched
buffer (reference count 2), `fetchMessages` returns 1 and message 0, which is in the
incoming buffer, has its reference count changed from 2 to 1. -/
theorem C14_incoming_refcount_changes :
    ∃ h1 s1,
      Interpreter.fetchMessages { cells := [some ⟨1, 1, [7], 2⟩], freed := [] }
        { Interpreter.ctor 0 "b" with _curMessages := [0], _fetchedMessages := [0] }
        = some (h1, s1, 1) ∧
      (0 : Ptr) ∈ ({ Interpreter.ctor 0 "b" with
          _curMessages := [0], _fetchedMessages := [0] } : Interpreter)._curMessages ∧
      (Heap.mk [some ⟨1, 1, [7], 2⟩] []).lookup 0 = some ⟨1, 1, [7], 2⟩ ∧
      h1.lookup 0 = some ⟨1, 1, [7], 1⟩ :=
  ⟨_, _, rfl, by decide, rfl, rfl⟩

/-- C14, amended: for a mailbox with incoming buffer `I` and fetched buffer `F` whose
entries are covered by references, `fetchMessages` returns the length of `I`, makes `I` the
fetched buffer (same order) and empties the incoming buffer; it lowers the reference count
of every message by its number of occurrences in `F`, deallocating (and logging) it when
that reaches 0; messages that do not occur in `F`, in particular the messages of `I` that
are not in `F`, are unchanged, and nothing outside `F` is deallocated. -/
theorem C14_fetch_releases_old_fetched (h : Heap) (self : Interpreter)
    (hcov : ∀ p ∈ self._fetchedMessages,
      h.refsAtLeast p (self._fetchedMessages.count p) = true) :
    ∃ h1 s1, Interpreter.fetchMessages h self
        = some (h1, s1, (self._curMessages.length : Int)) ∧
      s1._fetchedMessages = self._curMessages ∧ s1._curMessages = [] ∧
      s1 = { self with _curMessages := [], _fetchedMessages := self._curMessages } ∧
      (∀ q m, h.lookup q = some m → (self._fetchedMessages.count q : Int) < m.refcount →
        h1.lookup q = some { m with refcount := m.refcount - self._fetchedMessages.count q }) ∧
      (∀ q m, h.lookup q = some m → q ∈ self._fetchedMessages →
        (self._fetchedMessages.count q : Int) = m.refcount →
        h1.lookup q = none ∧ q ∈ h1.freed) ∧
      (∀ q, q ∉ self._fetchedMessages → h1.lookup q = h.lookup q) ∧
      (∀ q, q ∈ self._curMessages → q ∉ self._fetchedMessages → h1.lookup q = h.lookup q) ∧
      (∀ q, q ∈ h1.freed → q ∈ h.freed ∨ q ∈ self._fetchedMessages) := by
  obtain ⟨h1, e1, a1, b1⟩ := releaseAll_spec self._fetchedMessages h hcov
  obtain ⟨c1, _, g1⟩ := releaseAll_freed self._fetchedMessages h h1 hcov e1
  have ef : Interpreter.fetchMessages h self
      = some (h1, { self with _curMessages := [], _fetchedMessages := self._curMessages },
          (self._curMessages.length : Int)) := by
    simp [Interpreter.fetchMessages, e1]
  exact ⟨h1, _, ef, rfl, rfl, rfl, b1, c1, a1, fun q _ hq => a1 q hq, g1⟩

/-- C14 amended, at a concrete input: message 0 is in both buffers, message 1 only in the
fetched buffer with its last reference, message 2 only in the incoming buffer. -/
theorem C14_fetch_releases_old_fetched_witness :
    ∃ h1 s1,
      Interpreter.fetchMessages
        { cells := [some ⟨1, 1, [7], 2⟩, some ⟨2, 0, [], 1⟩, some ⟨3, 0, [], 1⟩], freed := [] }
        { Interpreter.ctor 0 "b" with _curMessages := [0, 2], _fetchedMessages := [0, 1] }
        = some (h1, s1, 2) ∧
      s1._fetchedMessages = [0, 2] ∧ s1._curMessages = [] ∧
      h1.lookup 0 = some ⟨1, 1, [7], 1⟩ ∧ h1.lookup 1 = none ∧ 1 ∈ h1.freed ∧
      h1.lookup 2 = some ⟨3, 0, [], 1⟩ := by
  obtain ⟨h1, s1, e, f1, f2, _, b, c, _, d, _⟩ := C14_fetch_releases_old_fetched
    { cells := [some ⟨1, 1, [7], 2⟩, some ⟨2, 0, [], 1⟩, some ⟨3, 0, [], 1⟩], freed := [] }
    { Interpreter.ctor 0 "b" with _curMessages := [0, 2], _fetchedMessages := [0, 1] }
    (by decide)
  exact ⟨h1, s1, e, f1, f2, b 0 _ rfl (by decide), (c 1 _ rfl (by decide) (by decide)).1,
    (c 1 _ rfl (by decide) (by decide)).2, (d 2 (by decide) (by decide)).trans rfl⟩

/-! ## C11, C12: the key/value store -/

theorem Store.find_assign_same (s : List (String × Ptr)) (key : String) (val : Ptr) :
    Store.find (Store.assign s key val) key = some val := by
  induction s with
  | nil => simp [Store.assign, Store.find]
  | cons e rest ih =>
    obtain ⟨k, v⟩ := e
    by_cases hk : k = key
    · simp [Store.assign, Store.find, hk]
    · simp [Store.assign, Store.find, hk, ih]

theorem Store.find_assign_ne (s : List (String × Ptr)) {key other : String} (val : Ptr)
    (hne : other ≠ key) :
    Store.find (Store.assign s key val) other = Store.find s other := by
  induction s with
  | nil => simp [Store.assign, Store.find, Ne.symm hne]
  | cons e rest ih =>
    obtain ⟨k, v⟩ := e
    by_cases hk : k = key
    · subst hk
      simp [Store.assign, Store.find, Ne.symm hne]
    · by_cases hko : k = other
      · subst hko
        simp [Store.assign, Store.find, hk]
      · simp [Store.assign, Store.find, hk, hko, ih]

theorem getStoreValue_eq (c : Core) (key : String) :
    Core.getStoreValue c key = Store.find c.store_ key := by
  unfold Core.getStoreValue
  cases Store.find c.store_ key <;> rfl

/-- C11: for a key present in the store with value `old` (live, reference count at least 1)
and a live message `val` (reference count at least 1, possibly `old` itself),
`setStoreValue(key, val)` runs its three statements and returns 1. After the acquire the
store is untouched and `val` has one more reference; after the assignment the store maps
`key` to `val` and the heap is still the one after the acquire, so `old` has not been
released yet; the release of `old` comes last and does not touch the store. In each of the
three states the message the store maps `key` to is live with reference count at least 1.
At the end, when `val` is `old` the message is as it was before the call; otherwise `val`
has gained one reference and `old` has lost one, being deallocated when that was its last. -/
theorem C11_overwrite_installs_before_release (c : Core) (key : String) (val old : Ptr)
    (mv mo : truss_message)
    (hkey : Core.getStoreValue c key = some old)
    (hold : c.heap.lookup old = some mo) (hro : 1 ≤ mo.refcount)
    (hval : c.heap.lookup val = some mv) (hrv : 1 ≤ mv.refcount) :
    ∃ c1 c2 c3, Core.setStoreValueSteps c key val = ([c1, c2, c3], some (c3, 1)) ∧
      Core.setStoreValue c key val = some (c3, 1) ∧
      c1.store_ = c.store_ ∧
      c1.heap.lookup val = some { mv with refcount := mv.refcount + 1 } ∧
      (val ≠ old → c1.heap.lookup old = some mo) ∧
      c2.heap = c1.heap ∧ Core.getStoreValue c2 key = some val ∧
      c3.store_ = c2.store_ ∧ Core.getStoreValue c3 key = some val ∧
      (∀ s ∈ [c1, c2, c3], ∃ p m, Core.getStoreValue s key = some p ∧
        s.heap.lookup p = some m ∧ 1 ≤ m.refcount) ∧
      (val = old → c3.heap.lookup val = some mv ∧ c3.heap.freed = c.heap.freed) ∧
      (val ≠ old →
        c3.heap.lookup val = some { mv with refcount := mv.refcount + 1 } ∧
        (1 < mo.refcount →
          c3.heap.lookup old = some { mo with refcount := mo.refcount - 1 } ∧
          c3.heap.freed = c.heap.freed) ∧
        (mo.refcount = 1 →
          c3.heap.lookup old = none ∧ c3.heap.freed = c.heap.freed ++ [old])) := by
  rw [getStoreValue_eq] at hkey
  obtain ⟨h1, e1, l1, f1, _, o1⟩ := acquire_spec hval
  rw [← core_acquire_eq] at e1
  have hfind2 : Store.find (Store.assign c.store_ key val) key = some val :=
    Store.find_assign_same _ _ _
  by_cases hvo : val = old
  · subst hvo
    rw [hval] at hold
    cases hold
    obtain ⟨h3, e3, l3, f3, _, _⟩ := release_keep l1 (by simp; omega)
    rw [← core_release_eq] at e3
    have hl3 : h3.lookup val = some mv := by
      rw [l3]; simp
    have hsteps : Core.setStoreValueSteps c key val
        = ([{ c with heap := h1 },
            { c with heap := h1, store_ := Store.assign c.store_ key val },
            { c with heap := h3, store_ := Store.assign c.store_ key val }],
           some ({ c with heap := h3, store_ := Store.assign c.store_ key val }, 1)) := by
      simp [Core.setStoreValueSteps, e1, hkey, e3]
    refine ⟨_, _, _, hsteps, by simp [Core.setStoreValue, hsteps], rfl, l1,
      fun hne => absurd rfl hne, rfl, by rw [getStoreValue_eq]; exact hfind2, rfl,
      by rw [getStoreValue_eq]; exact hfind2, ?_, fun _ => ⟨hl3, by rw [f3, f1]⟩,
      fun hne => absurd rfl hne⟩
    intro s hs
    simp only [List.mem_cons, List.mem_singleton, List.not_mem_nil, or_false] at hs
    rcases hs with rfl | rfl | rfl
    · exact ⟨val, _, by rw [getStoreValue_eq]; exact hkey, l1, by simp; omega⟩
    · exact ⟨val, _, by rw [getStoreValue_eq]; exact hfind2, l1, by simp; omega⟩
    · exact ⟨val, _, by rw [getStoreValue_eq]; exact hfind2, hl3, hrv⟩
  · have hov : old ≠ val := fun e => hvo e.symm
    have lo1 : h1.lookup old = some mo := by rw [o1 old hov]; exact hold
    by_cases hbig : 1 < mo.refcount
    · obtain ⟨h3, e3, l3, f3, _, o3⟩ := release_keep lo1 hbig
      rw [← core_release_eq] at e3
      have hv3 : h3.lookup val = some { mv with refcount := mv.refcount + 1 } := by
        rw [o3 val hvo]; exact l1
      have hsteps : Core.setStoreValueSteps c key val
          = ([{ c with heap := h1 },
              { c with heap := h1, store_ := Store.assign c.store_ key val },
              { c with heap := h3, store_ := Store.assign c.store_ key val }],
             some ({ c with heap := h3, store_ := Store.assign c.store_ key val }, 1)) := by
        simp [Core.setStoreValueSteps, e1, hkey, e3]
      refine ⟨_, _, _, hsteps, by simp [Core.setStoreValue, hsteps], rfl, l1,
        fun _ => lo1, rfl, by rw [getStoreValue_eq]; exact hfind2, rfl,
        by rw [getStoreValue_eq]; exact hfind2, ?_, fun he => absurd he hvo,
        fun _ => ⟨hv3, fun _ => ⟨l3, by rw [f3, f1]⟩, fun h1' => by omega⟩⟩
      intro s hs
      simp only [List.mem_cons, List.mem_singleton, List.not_mem_nil, or_false] at hs
      rcases hs with rfl | rfl | rfl
      · exact ⟨old, _, by rw [getStoreValue_eq]; exact hkey, lo1, hro⟩
      · exact ⟨val, _, by rw [getStoreValue_eq]; exact hfind2, l1, by simp; omega⟩
      · exact ⟨val, _, by rw [getStoreValue_eq]; exact hfind2, hv3, by simp; omega⟩
    · obtain ⟨h3, e3, l3, f3, _, o3⟩ := release_free lo1 (by omega)
      rw [← core_release_eq] at e3
      have hv3 : h3.lookup val = some { mv with refcount := mv.refcount + 1 } := by
        rw [o3 val hvo]; exact l1
      have hsteps : Core.setStoreValueSteps c key val
          = ([{ c with heap := h1 },
              { c with heap := h1, store_ := Store.assign c.store_ key val },
              { c with heap := h3, store_ := Store.assign c.store_ key val }],
             some ({ c with heap := h3, store_ := Store.assign c.store_ key val }, 1)) := by
        simp [Core.setStoreValueSteps, e1, hkey, e3]
      refine ⟨_, _, _, hsteps, by simp [Core.setStoreValue, hsteps], rfl, l1,
        fun _ => lo1, rfl, by rw [getStoreValue_eq]; exact hfind2, rfl,
        by rw [getStoreValue_eq]; exact hfind2, ?_, fun he => absurd he hvo,
        fun _ => ⟨hv3, fun hb => absurd hb hbig, fun _ => ⟨l3, by rw [f3, f1]⟩⟩⟩
      intro s hs
      simp only [List.mem_cons, List.mem_singleton, List.not_mem_nil, or_false] at hs
      rcases hs with rfl | rfl | rfl
      · exact ⟨old, _, by rw [getStoreValue_eq]; exact hkey, lo1, hro⟩
      · exact ⟨val, _, by rw [getStoreValue_eq]; exact hfind2, l1, by simp; omega⟩
      · exact ⟨val, _, by rw [getStoreValue_eq]; exact hfind2, hv3, by simp; omega⟩

/-- C11 at a concrete input: key "k" maps to message 0, which holds its last reference, and
is overwritten with message 1. -/
theorem C11_overwrite_installs_before_release_witness :
    ∃ c1 c2 c3,
      Core.setStoreValueSteps
        { heap := { cells := [some ⟨1, 1, [7], 1⟩, some ⟨2, 0, [], 1⟩], freed := [] },
          interpreters := [], store_ := [("k", 0)] } "k" 1 = ([c1, c2, c3], some (c3, 1)) ∧
      Core.getStoreValue c2 "k" = some 1 ∧ c2.heap.lookup 0 = some ⟨1, 1, [7], 1⟩ ∧
      Core.getStoreValue c3 "k" = some 1 ∧ c3.heap.lookup 1 = some ⟨2, 0, [], 2⟩ ∧
      c3.heap.lookup 0 = none ∧ c3.heap.freed = [0] := by
  obtain ⟨c1, c2, c3, hs, _, _, _, h1o, h21, g2, _, g3, _, _, hne⟩ :=
    C11_overwrite_installs_before_release
      { heap := { cells := [some ⟨1, 1, [7], 1⟩, some ⟨2, 0, [], 1⟩], freed := [] },
        interpreters := [], store_ := [("k", 0)] } "k" 1 0 ⟨2, 0, [], 1⟩ ⟨1, 1, [7], 1⟩
      rfl rfl (by decide) rfl (by decide)
  exact ⟨c1, c2, c3, hs, g2, by rw [h21]; exact h1o (by decide), g3,
    (hne (by decide)).1, ((hne (by decide)).2.2 rfl).1, ((hne (by decide)).2.2 rfl).2⟩

theorem keysKept_refl (s : Core) : Core.keysKept s s := fun _ h => h

theorem keysKept_trans {s t u : Core} (h1 : Core.keysKept s t) (h2 : Core.keysKept t u) :
    Core.keysKept s u := fun key h => h2 key (h1 key h)

theorem keysKept_same {s t : Core} (h : t.store_ = s.store_) : Core.keysKept s t := by
  intro key hk
  rw [getStoreValue_eq] at hk ⊢
  rw [h]; exact hk

theorem keysKept_assign {s t : Core} {key : String} {val : Ptr}
    (h : t.store_ = Store.assign s.store_ key val) : Core.keysKept s t := by
  intro k hk
  rw [getStoreValue_eq] at hk ⊢
  rw [h]
  by_cases hkk : k = key
  · subst hkk; rw [Store.find_assign_same]; rfl
  · rw [Store.find_assign_ne _ _ hkk]; exact hk

theorem getStoreValue_same {s t : Core} (h : t.store_ = s.store_) (k : String) :
    Core.getStoreValue t k = Core.getStoreValue s k := by
  rw [getStoreValue_eq, getStoreValue_eq, h]

theorem getStoreValue_assign_ne {s t : Core} {key k : String} {val : Ptr}
    (h : t.store_ = Store.assign s.store_ key val) (hk : k ≠ key) :
    Core.getStoreValue t k = Core.getStoreValue s k := by
  rw [getStoreValue_eq, getStoreValue_eq, h, Store.find_assign_ne _ _ hk]

theorem getStoreValue_assign_same {s t : Core} {key : String} {val : Ptr}
    (h : t.store_ = Store.assign s.store_ key val) :
    Core.getStoreValue t key = some val := by
  rw [getStoreValue_eq, h, Store.find_assign_same]

/-- The statements of the message form of `setStoreValue`: along its states no key is
lost, other keys keep their value, and a call that completes ends in the last state, in
which the key is present. -/
theorem setStoreValueSteps_kept (c : Core) (key : String) (val : Ptr) :
    List.Pairwise Core.keysKept (c :: (Core.setStoreValueSteps c key val).1) ∧
    (∀ r, (Core.setStoreValueSteps c key val).2 = some r →
      (∀ a ∈ c :: (Core.setStoreValueSteps c key val).1, Core.keysKept a r.1) ∧
      Core.getStoreValue r.1 key = some val ∧
      r.1 ∈ (Core.setStoreValueSteps c key val).1) ∧
    (∀ s ∈ (Core.setStoreValueSteps c key val).1, ∀ k, k ≠ key →
      Core.getStoreValue s k = Core.getStoreValue c k) := by
  unfold Core.setStoreValueSteps
  cases Core.acquireMessage c.heap val with
  | none => simp
  | some h1 =>
    cases hf : Store.find c.store_ key with
    | none =>
      simp only [hf]
      refine ⟨?_, ?_, ?_⟩
      · simp only [List.pairwise_cons, List.mem_cons, List.mem_singleton, List.not_mem_nil,
          forall_eq_or_imp, forall_eq, List.Pairwise.nil, and_true, false_implies,
          implies_true]
        exact ⟨⟨keysKept_same rfl, keysKept_assign rfl⟩, keysKept_assign rfl⟩
      · intro r hr
        simp only [Option.some.injEq] at hr
        subst hr
        simp only [List.mem_cons, List.mem_singleton, List.not_mem_nil, forall_eq_or_imp,
          forall_eq, or_false, or_true, and_true, false_implies, implies_true]
        exact ⟨⟨keysKept_assign rfl, keysKept_assign rfl, keysKept_refl _⟩,
          getStoreValue_assign_same rfl⟩
      · intro s hs k hk
        simp only [List.mem_cons, List.mem_singleton, List.not_mem_nil, or_false] at hs
        rcases hs with rfl | rfl
        · exact getStoreValue_same rfl k
        · exact getStoreValue_assign_ne rfl hk
    | some old =>
      simp only [hf]
      cases Core.releaseMessage h1 old with
      | none =>
        refine ⟨?_, ?_, ?_⟩
        · simp only [List.pairwise_cons, List.mem_cons, List.mem_singleton, List.not_mem_nil,
            forall_eq_or_imp, forall_eq, List.Pairwise.nil, and_true, false_implies,
            implies_true]
          exact ⟨⟨keysKept_same rfl, keysKept_assign rfl⟩, keysKept_assign rfl⟩
        · intro r hr
          cases hr
        · intro s hs k hk
          simp only [List.mem_cons, List.mem_singleton, List.not_mem_nil, or_false] at hs
          rcases hs with rfl | rfl
          · exact getStoreValue_same rfl k
          · exact getStoreValue_assign_ne rfl hk
      | some h3 =>
        refine ⟨?_, ?_, ?_⟩
        · simp only [List.pairwise_cons, List.mem_cons, List.mem_singleton, List.not_mem_nil,
            forall_eq_or_imp, forall_eq, List.Pairwise.nil, and_true, false_implies,
            implies_true]
          exact ⟨⟨keysKept_same rfl, keysKept_assign rfl, keysKept_assign rfl⟩,
            ⟨keysKept_assign rfl, keysKept_assign rfl⟩, keysKept_same rfl⟩
        · intro r hr
          simp only [Option.some.injEq] at hr
          subst hr
          simp only [List.mem_cons, List.mem_singleton, List.not_mem_nil, forall_eq_or_imp,
            forall_eq, or_false, or_true, and_true, false_implies, implies_true]
          exact ⟨⟨keysKept_assign rfl, keysKept_assign rfl, keysKept_same rfl,
            keysKept_refl _⟩, getStoreValue_assign_same rfl⟩
        · intro s hs k hk
          simp only [List.mem_cons, List.mem_singleton, List.not_mem_nil, or_false] at hs
          rcases hs with rfl | rfl | rfl
          · exact getStoreValue_same rfl k
          · exact getStoreValue_assign_ne rfl hk
          · exact getStoreValue_assign_ne rfl hk

theorem pairwise_kept_cons {c d : Core} {l : List Core} (hcd : Core.keysKept c d)
    (hp : List.Pairwise Core.keysKept (d :: l)) : List.Pairwise Core.keysKept (c :: d :: l) := by
  refine List.Pairwise.cons ?_ hp
  intro a ha
  rcases List.mem_cons.1 ha with rfl | ha
  · exact hcd
  · exact keysKept_trans hcd ((List.pairwise_cons.1 hp).1 a ha)

theorem pairwise_kept_snoc {l : List Core} {x : Core} (hp : List.Pairwise Core.keysKept l)
    (hd : ∀ a ∈ l, Core.keysKept a x) : List.Pairwise Core.keysKept (l ++ [x]) := by
  rw [List.pairwise_append]
  refine ⟨hp, List.pairwise_singleton _ _, ?_⟩
  intro a ha b hb
  rw [List.mem_singleton] at hb
  subst hb
  exact hd a ha

theorem setStoreValueStringEnd_kept (c c0 c1 : Core) (key : String) (newmsg val : Ptr)
    (pr : List Core × Option (Core × Int))
    (h0 : c0.store_ = c.store_) (h1 : c1.store_ = c0.store_)
    (p1 : List.Pairwise Core.keysKept (c1 :: pr.1))
    (p2 : ∀ r, pr.2 = some r → (∀ a ∈ c1 :: pr.1, Core.keysKept a r.1) ∧
      Core.getStoreValue r.1 key = some val ∧ r.1 ∈ pr.1)
    (p3 : ∀ s ∈ pr.1, ∀ k, k ≠ key → Core.getStoreValue s k = Core.getStoreValue c1 k) :
    List.Pairwise Core.keysKept (c :: (Core.setStoreValueStringEnd c0 c1 newmsg pr).1) ∧
    (∀ r, (Core.setStoreValueStringEnd c0 c1 newmsg pr).2 = some r →
      (∀ a ∈ c :: (Core.setStoreValueStringEnd c0 c1 newmsg pr).1, Core.keysKept a r.1) ∧
      (Core.getStoreValue r.1 key).isSome = true ∧
      r.1 ∈ (Core.setStoreValueStringEnd c0 c1 newmsg pr).1) ∧
    (∀ s ∈ (Core.setStoreValueStringEnd c0 c1 newmsg pr).1, ∀ k, k ≠ key →
      Core.getStoreValue s k = Core.getStoreValue c k) := by
  obtain ⟨states, res⟩ := pr
  simp only at p1 p2 p3
  have hc1 : c1.store_ = c.store_ := h1.trans h0
  have hpre : List.Pairwise Core.keysKept (c :: c0 :: c1 :: states) :=
    pairwise_kept_cons (keysKept_same h0) (pairwise_kept_cons (keysKept_same h1) p1)
  have hother : ∀ s ∈ c0 :: c1 :: states, ∀ k, k ≠ key →
      Core.getStoreValue s k = Core.getStoreValue c k := by
    intro s hs k hk
    rcases List.mem_cons.1 hs with rfl | hs
    · exact getStoreValue_same h0 k
    · rcases List.mem_cons.1 hs with rfl | hs
      · exact getStoreValue_same hc1 k
      · exact (p3 s hs k hk).trans (getStoreValue_same hc1 k)
  cases res with
  | none => exact ⟨hpre, fun r hr => (by cases hr), hother⟩
  | some r2 =>
    obtain ⟨c2, result⟩ := r2
    obtain ⟨d2, g2, m2⟩ := p2 (c2, result) rfl
    simp only at d2 g2 m2
    unfold Core.setStoreValueStringEnd
    simp only
    cases Core.releaseMessage c2.heap newmsg with
    | none => exact ⟨hpre, fun r hr => (by cases hr), hother⟩
    | some h3 =>
      simp only
      have hc2 : Core.keysKept c2 { c2 with heap := h3 } := keysKept_same rfl
      have hdom : ∀ a ∈ c :: c0 :: c1 :: states, Core.keysKept a { c2 with heap := h3 } := by
        intro a ha
        rcases List.mem_cons.1 ha with rfl | ha
        · exact keysKept_trans (keysKept_trans (keysKept_same hc1)
            (d2 _ (List.mem_cons_self _ _))) hc2
        · rcases List.mem_cons.1 ha with rfl | ha
          · exact keysKept_trans (keysKept_trans (keysKept_same h1)
              (d2 _ (List.mem_cons_self _ _))) hc2
          · exact keysKept_trans (d2 a ha) hc2
      refine ⟨?_, ?_, ?_⟩
      · exact pairwise_kept_snoc hpre hdom
      · intro r hr
        simp only [Option.some.injEq] at hr
        subst hr
        refine ⟨?_, ?_, ?_⟩
        · intro a ha
          rcases List.mem_cons.1 ha with rfl | ha
          · exact hdom _ (List.mem_cons_self _ _)
          · rcases List.mem_append.1 ha with ha | ha
            · exact hdom a (List.mem_cons_of_mem _ ha)
            · rw [List.mem_singleton] at ha
              subst ha
              exact keysKept_refl _
        · have e := getStoreValue_same (s := c2) (t := { c2 with heap := h3 }) rfl key
          show (Core.getStoreValue { c2 with heap := h3 } key).isSome = true
          rw [e, g2]
          rfl
        · exact List.mem_append_right _ (List.mem_singleton_self _)
      · intro s hs k hk
        rcases List.mem_append.1 hs with hs | hs
        · exact hother s hs k hk
        · rw [List.mem_singleton] at hs
          subst hs
          have e := getStoreValue_same (s := c2) (t := { c2 with heap := h3 }) rfl k
          exact e.trans ((p3 c2 m2 k hk).trans (getStoreValue_same hc1 k))

/-- The statements of the string form of `setStoreValue`: the same as for the message
form. -/
theorem setStoreValueStringSteps_kept (c : Core) (key : String) (val : List Nat)
    (junkType : Nat) (junk : Nat → Nat) :
    List.Pairwise Core.keysKept
      (c :: (Core.setStoreValueStringSteps c key val junkType junk).1) ∧
    (∀ r, (Core.setStoreValueStringSteps c key val junkType junk).2 = some r →
      (∀ a ∈ c :: (Core.setStoreValueStringSteps c key val junkType junk).1,
        Core.keysKept a r.1) ∧
      (Core.getStoreValue r.1 key).isSome = true ∧
      r.1 ∈ (Core.setStoreValueStringSteps c key val junkType junk).1) ∧
    (∀ s ∈ (Core.setStoreValueStringSteps c key val junkType junk).1, ∀ k, k ≠ key →
      Core.getStoreValue s k = Core.getStoreValue c k) := by
  unfold Core.setStoreValueStringSteps
  simp only
  have base : ∀ h0 : Heap, List.Pairwise Core.keysKept [c, { c with heap := h0 }] := by
    intro h0
    simp only [List.pairwise_cons, List.mem_singleton, forall_eq, List.not_mem_nil,
      false_implies, implies_true, List.Pairwise.nil, and_true]
    exact keysKept_same rfl
  split
  · refine ⟨base _, fun r hr => (by cases hr), ?_⟩
    intro s hs k _
    rw [List.mem_singleton] at hs
    subst hs
    exact getStoreValue_same rfl k
  · split
    · refine ⟨base _, fun r hr => (by cases hr), ?_⟩
      intro s hs k _
      rw [List.mem_singleton] at hs
      subst hs
      exact getStoreValue_same rfl k
    · obtain ⟨p1, p2, p3⟩ := setStoreValueSteps_kept _ key _
      exact setStoreValueStringEnd_kept c _ _ key _ _ _ rfl rfl p1 p2 p3

theorem storeCall_steps_kept (c : Core) (call : StoreCall) :
    List.Pairwise Core.keysKept (c :: (StoreCall.steps c call).1) ∧
    (∀ r, (StoreCall.steps c call).2 = some r →
      (∀ a ∈ c :: (StoreCall.steps c call).1, Core.keysKept a r.1) ∧
      (Core.getStoreValue r.1 call.key).isSome = true ∧
      r.1 ∈ (StoreCall.steps c call).1) ∧
    (∀ s ∈ (StoreCall.steps c call).1, ∀ k, k ≠ call.key →
      Core.getStoreValue s k = Core.getStoreValue c k) := by
  cases call with
  | message key val =>
    obtain ⟨p1, p2, p3⟩ := setStoreValueSteps_kept c key val
    refine ⟨p1, fun r hr => ?_, p3⟩
    obtain ⟨d, g, m⟩ := p2 r hr
    refine ⟨d, ?_, m⟩
    show (Core.getStoreValue r.1 key).isSome = true
    rw [g]
    rfl
  | string key val junkType junk =>
    exact setStoreValueStringSteps_kept c key val junkType junk

theorem storeStates_pairwise (calls : List StoreCall) : ∀ c : Core,
    List.Pairwise Core.keysKept (c :: storeStates c calls) := by
  induction calls with
  | nil => intro c; simp [storeStates]
  | cons call calls ih =>
    intro c
    obtain ⟨p1, p2, _⟩ := storeCall_steps_kept c call
    unfold storeStates
    generalize StoreCall.steps c call = pr at p1 p2
    obtain ⟨states, res⟩ := pr
    simp only at p1 p2
    cases res with
    | none => exact p1
    | some r =>
      simp only
      obtain ⟨d, _, _⟩ := p2 r rfl
      have hrest := ih r.1
      rw [← List.cons_append, List.pairwise_append]
      refine ⟨p1, (List.pairwise_cons.1 hrest).2, ?_⟩
      intro a ha b hb
      exact keysKept_trans (d a ha) ((List.pairwise_cons.1 hrest).1 b hb)

theorem storeStates_other_keys (calls : List StoreCall) : ∀ (c : Core) (key : String),
    (∀ call ∈ calls, StoreCall.key call ≠ key) →
    ∀ s ∈ storeStates c calls, Core.getStoreValue s key = Core.getStoreValue c key := by
  induction calls with
  | nil => intro c key _ s hs; simp [storeStates] at hs
  | cons call calls ih =>
    intro c key hkeys s hs
    obtain ⟨_, p2, p3⟩ := storeCall_steps_kept c call
    have hk : key ≠ StoreCall.key call := fun e => hkeys call (List.mem_cons_self _ _) e.symm
    unfold storeStates at hs
    generalize StoreCall.steps c call = pr at p2 p3 hs
    obtain ⟨states, res⟩ := pr
    simp only at p2 p3 hs
    cases res with
    | none => exact p3 s hs key hk
    | some r =>
      simp only at hs
      obtain ⟨_, _, m⟩ := p2 r rfl
      rcases List.mem_append.1 hs with hs | hs
      · exact p3 s hs key hk
      · exact (ih r.1 key (fun call' hc => hkeys call' (List.mem_cons_of_mem _ hc)) s hs).trans
          (p3 r.1 m key hk)

/-- C12: along every sequence of `setStoreValue` calls (message or string form, any keys),
taken statement by statement, no key is ever lost: whenever `getStoreValue(key)` returns a
message in one state, it returns a message in every later state (and every key present
before the sequence is present in all its states). A call that returns ends in a state of
the trace in which its key is present, so a key that has been set is present from then on.
A key that is absent and is set by no call of the sequence stays absent, and in a freshly
constructed `Core` every key is absent. -/
theorem C12_store_keys_never_disappear (c : Core) (calls : List StoreCall) :
    List.Pairwise Core.keysKept (c :: storeStates c calls) ∧
    (∀ s ∈ storeStates c calls, ∀ key,
      (Core.getStoreValue c key).isSome = true → (Core.getStoreValue s key).isSome = true) ∧
    (∀ (call : StoreCall) (r : Core × Int), (StoreCall.steps c call).2 = some r →
      r.1 ∈ (StoreCall.steps c call).1 ∧
      (Core.getStoreValue r.1 (StoreCall.key call)).isSome = true ∧
      storeStates c (call :: calls) = (StoreCall.steps c call).1 ++ storeStates r.1 calls) ∧
    (∀ key, Core.getStoreValue c key = none →
      (∀ call ∈ calls, StoreCall.key call ≠ key) →
      ∀ s ∈ storeStates c calls, Core.getStoreValue s key = none) ∧
    (∀ key, Core.getStoreValue Core.ctor key = none) := by
  have hp := storeStates_pairwise calls c
  refine ⟨hp, fun s hs key hk => (List.pairwise_cons.1 hp).1 s hs key hk, ?_, ?_, fun _ => rfl⟩
  · intro call r hr
    obtain ⟨_, p2, _⟩ := storeCall_steps_kept c call
    obtain ⟨_, g, m⟩ := p2 r hr
    refine ⟨m, g, ?_⟩
    simp only [storeStates]
    generalize StoreCall.steps c call = pr at hr
    obtain ⟨states, res⟩ := pr
    simp only at hr
    subst hr
    rfl
  · intro key hnone hkeys s hs
    rw [storeStates_other_keys calls c key hkeys s hs]
    exact hnone

/-! ## C21: the allocated buffer -/

/-- C21, the claim as stated fails: `allocateMessage(2)` where the memory handed out by
`new unsigned char[2]` holds the bytes 5, 5 returns a message whose data bytes are 5, 5,
not 0, 0. -/
theorem C21_buffer_not_zeroed :
    ∃ m, (Core.allocateMessage { cells := [], freed := [] } 2 0 (fun _ => 5)).1.lookup
          (Core.allocateMessage { cells := [], freed := [] } 2 0 (fun _ => 5)).2 = some m ∧
      m.data = [5, 5] ∧ m.data[0]? ≠ some 0 :=
  ⟨_, rfl, rfl, by decide⟩

/-- C21, amended: for every requested length `n`, the buffer of the message returned by
`allocateMessage(n)` holds `n` bytes that are not initialised: byte `i` is the value the
allocator's memory held there (a byte, not necessarily 0); the buffer is all zero exactly
when that memory was. -/
theorem C21_buffer_is_uninitialised (h : Heap) (n junkType : Nat) (junk : Nat → Nat) :
    ∃ m, (Core.allocateMessage h n junkType junk).1.lookup
          (Core.allocateMessage h n junkType junk).2 = some m ∧
      m.data.length = n ∧
      (∀ i, i < n → m.data[i]? = some (junk i % 256)) ∧
      (∀ b ∈ m.data, b < 256) ∧
      ((∀ b ∈ m.data, b = 0) ↔ ∀ i, i < n → junk i % 256 = 0) := by
  refine ⟨_, allocate_lookup h n junkType junk, by simp, ?_, ?_, ?_⟩
  · intro i hi
    simp [List.getElem?_map, List.getElem?_range hi]
  · intro b hb
    simp only [List.mem_map, List.mem_range] at hb
    obtain ⟨i, _, rfl⟩ := hb
    exact Nat.mod_lt _ (by decide)
  · constructor
    · intro hz i hi
      exact hz _ (List.mem_map.2 ⟨i, List.mem_range.2 hi, rfl⟩)
    · intro hz b hb
      simp only [List.mem_map, List.mem_range] at hb
      obtain ⟨i, hi, rfl⟩ := hb
      exact hz i hi

/-! ## C25: attaching after an unthreaded run -/

/-- C25: on a Created interpreter `attachAddon` appends at the end, and after `start` it is
refused; but after `startUnthreaded("a")` whose run loop has exited (a stop was requested
during `_coreInit`), `attachAddon(module 2)` is accepted: the module list of the stopped
interpreter becomes `[1, 2]` and nothing is printed or deleted. -/
theorem C25_attach_accepted_after_unthreaded_run :
    Interpreter.attachAddon (Interpreter.attachAddon (Interpreter.ctor 0 "main") ⟨1⟩).1 ⟨2⟩
      = ({ Interpreter.ctor 0 "main" with _addons := [⟨1⟩, ⟨2⟩] }, []) ∧
    Interpreter.attachAddon
        (Interpreter.start (Interpreter.attachAddon (Interpreter.ctor 0 "main") ⟨1⟩).1 "a"
          (some 7)).1 ⟨2⟩
      = ({ _ID := 0, _name := "main", _thread := some 7, _running := true, _arg := "a",
           _addons := [⟨1⟩], _curMessages := [], _fetchedMessages := [] },
         [Event.log "Cannot attach addon to running interpreter.\n", Event.deleteAddon ⟨2⟩]) ∧
    (Interpreter.startUnthreaded (Interpreter.attachAddon (Interpreter.ctor 0 "main") ⟨1⟩).1 "a"
        (worldStopDuring 2) 4).map (fun r => (r.self, Interpreter.attachAddon r.self ⟨2⟩))
      = some
        ({ _ID := 0, _name := "main", _thread := none, _running := false, _arg := "a",
           _addons := [⟨1⟩], _curMessages := [], _fetchedMessages := [] },
         { _ID := 0, _name := "main", _thread := none, _running := false, _arg := "a",
           _addons := [⟨1⟩, ⟨2⟩], _curMessages := [], _fetchedMessages := [] }, []) := by
  refine ⟨?_, ?_, ?_⟩ <;> rfl

/-! ## C30: the string copy of the SDL module -/

theorem sizeSub_one {d : Nat} (h1 : 1 ≤ d) (h2 : d < 2 ^ 64) : sizeSub d 1 = d - 1 := by
  unfold sizeSub
  have e : d + 2 ^ 64 - 1 = (d - 1) + 2 ^ 64 := by omega
  rw [e, Nat.add_mod_right, Nat.mod_eq_of_lt (by omega)]

theorem hackCStrCpyLoop_spec (dest0 src : List Nat) (L : Nat)
    (hL : src[L]? = some 0) (hnz : ∀ i, i < L → ∃ ch, src[i]? = some ch ∧ ch ≠ 0) :
    ∀ (remaining i : Nat) (st : CopyState), copyInvariant dest0 src L i st →
      i + remaining ≤ dest0.length →
      ∃ st1, hackCStrCpyLoop src remaining i st = some st1 ∧
        copyInvariant dest0 src L (i + remaining) st1 := by
  intro remaining
  induction remaining with
  | zero => intro i st hinv _; exact ⟨st, rfl, hinv⟩
  | succ k ih =>
    intro i st hinv hlen
    obtain ⟨h1, h2, h3, h4, h5, h6, h7⟩ := hinv
    have hi : i < st.dest.length := by omega
    by_cases hend : L < i
    · have hflag : st.reachedSrcEnd = true := by rw [h5]; exact decide_eq_true hend
      have hinv1 : copyInvariant dest0 src L (i + 1)
          { st with dest := st.dest.set i 0, writes := st.writes ++ [i] } := by
        refine ⟨by simp [h1], ?_, ?_, ?_, ?_, ?_, ?_⟩
        · intro j hj hjL
          have hne : i ≠ j := by omega
          simp only [List.getElem?_set_ne hne]
          exact h2 j (by omega) hjL
        · intro j hj hLj
          by_cases hji : j = i
          · subst hji
            simp [hi]
          · simp only [List.getElem?_set_ne (Ne.symm hji)]
            exact h3 j (by omega) hLj
        · intro j hj
          have hne : i ≠ j := by omega
          simp only [List.getElem?_set_ne hne]
          exact h4 j (by omega)
        · simp only [hflag]
          exact (decide_eq_true (by omega : L < i + 1)).symm
        · intro j hj
          obtain ⟨a, b⟩ := h6 j hj
          exact ⟨a, by omega⟩
        · intro j hj
          rcases List.mem_append.1 hj with hj | hj
          · have := h7 j hj; omega
          · rw [List.mem_singleton] at hj; omega
      obtain ⟨st1, e1, inv1⟩ := ih (i + 1) _ hinv1 (by omega)
      refine ⟨st1, ?_, by rw [show i + (k + 1) = i + 1 + k by omega]; exact inv1⟩
      rw [hackCStrCpyLoop]
      simp only [hflag] at e1
      simp only [hflag, if_true, hi]
      exact e1
    · have hflag : st.reachedSrcEnd = false := by rw [h5]; exact decide_eq_false hend
      have hiL : i ≤ L := by omega
      obtain ⟨ch, hch, hzero⟩ : ∃ ch, src[i]? = some ch ∧ (ch = 0 ↔ i = L) := by
        by_cases hlt : i < L
        · obtain ⟨ch, hch, hne⟩ := hnz i hlt
          exact ⟨ch, hch, ⟨fun h0 => absurd h0 hne, fun h0 => by omega⟩⟩
        · have hil : i = L := by omega
          exact ⟨0, by rw [hil]; exact hL, ⟨fun _ => hil, fun _ => rfl⟩⟩
      have hinv1 : copyInvariant dest0 src L (i + 1)
          { dest := st.dest.set i ch, reachedSrcEnd := (ch == 0), reads := st.reads ++ [i],
            writes := st.writes ++ [i] } := by
        refine ⟨by simp [h1], ?_, ?_, ?_, ?_, ?_, ?_⟩
        · intro j hj hjL
          by_cases hji : j = i
          · subst hji
            simp [hi, hch]
          · simp only [List.getElem?_set_ne (Ne.symm hji)]
            exact h2 j (by omega) hjL
        · intro j hj hLj
          by_cases hji : j = i
          · subst hji
            have hjl : j = L := by omega
            have hc0 : ch = 0 := hzero.2 hjl
            simp [hi, hc0]
          · simp only [List.getElem?_set_ne (Ne.symm hji)]
            exact h3 j (by omega) hLj
        · intro j hj
          have hne : i ≠ j := by omega
          simp only [List.getElem?_set_ne hne]
          exact h4 j (by omega)
        · by_cases hc0 : ch = 0
          · have hil : i = L := hzero.1 hc0
            simp only [hc0, beq_self_eq_true]
            exact (decide_eq_true (by omega : L < i + 1)).symm
          · have hil : i ≠ L := fun e => hc0 (hzero.2 e)
            have hb : (ch == 0) = false := by simpa using hc0
            simp only [hb]
            exact (decide_eq_false (by omega : ¬ L < i + 1)).symm
        · intro j hj
          rcases List.mem_append.1 hj with hj | hj
          · obtain ⟨a, b⟩ := h6 j hj
            exact ⟨a, by omega⟩
          · rw [List.mem_singleton] at hj
            subst hj
            exact ⟨hiL, by omega⟩
        · intro j hj
          rcases List.mem_append.1 hj with hj | hj
          · have := h7 j hj; omega
          · rw [List.mem_singleton] at hj; omega
      obtain ⟨st1, e1, inv1⟩ := ih (i + 1) _ hinv1 (by omega)
      refine ⟨st1, ?_, by rw [show i + (k + 1) = i + 1 + k by omega]; exact inv1⟩
      rw [hackCStrCpyLoop]
      simp only [hflag, hch, hi, if_true]
      exact e1

/-- C30: for `1 ≤ destsize` (a `size_t`), a destination buffer of at least `destsize` bytes
and a source whose first NUL is at index `L`, `hackCStrCpy(dest, src, destsize)` returns; it
reads `src` only at indices `≤ L` that are `≤ destsize - 2`, writes `dest` only at indices
`< destsize`, leaves `dest[i] = src[i]` for every `i < min(L, destsize - 1)` and
`dest[i] = 0` for every `i` with `min(L, destsize - 1) ≤ i < destsize`; the buffer keeps its
size and is untouched from `destsize` on. In particular `dest[destsize - 1] = 0`. -/
theorem C30_hackCStrCpy_truncates_and_terminates (dest src : List Nat) (destsize L : Nat)
    (hsize : 1 ≤ destsize) (hword : destsize < 2 ^ 64) (hdest : destsize ≤ dest.length)
    (hL : src[L]? = some 0) (hnz : ∀ i, i < L → ∃ ch, src[i]? = some ch ∧ ch ≠ 0) :
    ∃ st, hackCStrCpy dest src destsize = some st ∧
      (∀ j ∈ st.reads, j ≤ L ∧ j + 2 ≤ destsize) ∧
      (∀ j ∈ st.writes, j < destsize) ∧
      (∀ i, i < min L (destsize - 1) → st.dest[i]? = src[i]?) ∧
      (∀ i, min L (destsize - 1) ≤ i → i < destsize → st.dest[i]? = some 0) ∧
      st.dest[destsize - 1]? = some 0 ∧
      st.dest.length = dest.length ∧
      (∀ i, destsize ≤ i → st.dest[i]? = dest[i]?) := by
  have hinv0 : copyInvariant dest src L 0
      { dest := dest, reachedSrcEnd := false, reads := [], writes := [] } := by
    refine ⟨rfl, ?_, ?_, fun _ _ => rfl, ?_, ?_, ?_⟩
    · intro j hj; omega
    · intro j hj; omega
    · exact (decide_eq_false (by omega : ¬ L < 0)).symm
    · intro j hj; cases hj
    · intro j hj; cases hj
  obtain ⟨st1, e1, h1, h2, h3, h4, _, h6, h7⟩ :=
    hackCStrCpyLoop_spec dest src L hL hnz (destsize - 1) 0 _ hinv0 (by omega)
  simp only [Nat.zero_add] at h2 h3 h4 h6 h7
  have hlt : destsize - 1 < st1.dest.length := by omega
  have hfin : hackCStrCpy dest src destsize
      = some { st1 with dest := st1.dest.set (destsize - 1) 0,
                        writes := st1.writes ++ [destsize - 1] } := by
    unfold hackCStrCpy
    rw [sizeSub_one hsize hword, e1]
    simp only [hackCStrCpyEnd, hlt, if_true]
  refine ⟨_, hfin, ?_, ?_, ?_, ?_, ?_, ?_, ?_⟩
  · intro j hj
    obtain ⟨a, b⟩ := h6 j hj
    exact ⟨a, by omega⟩
  · intro j hj
    rcases List.mem_append.1 hj with hj | hj
    · have := h7 j hj; omega
    · rw [List.mem_singleton] at hj; omega
  · intro i hi
    have hne : destsize - 1 ≠ i := by omega
    simp only [List.getElem?_set_ne hne]
    exact h2 i (by omega) (by omega)
  · intro i hi hid
    by_cases hlast : i = destsize - 1
    · subst hlast
      simp [hlt]
    · simp only [List.getElem?_set_ne (Ne.symm hlast)]
      exact h3 i (by omega) (by omega)
  · simp [hlt]
  · simp [h1]
  · intro i hi
    have hne : destsize - 1 ≠ i := by omega
    simp only [List.getElem?_set_ne hne]
    exact h4 i (by omega)

/-- C30 at concrete inputs: a 10-byte keycode buffer, the text "abc" (fits), and a 4-byte
destination for a 5-character text (truncated to 3 characters). -/
theorem C30_hackCStrCpy_truncates_and_terminates_witness :
    (∃ st, hackCStrCpy [9, 9, 9, 9, 9, 9, 9, 9, 9, 9] [97, 98, 99, 0, 55] 10 = some st ∧
      st.dest = [97, 98, 99, 0, 0, 0, 0, 0, 0, 0] ∧ st.reads = [0, 1, 2, 3] ∧
      (∀ j ∈ st.reads, j ≤ 3 ∧ j + 2 ≤ 10)) ∧
    (∃ st, hackCStrCpy [9, 9, 9, 9, 9] [97, 98, 99, 100, 101, 0] 4 = some st ∧
      st.dest = [97, 98, 99, 0, 9] ∧ st.reads = [0, 1, 2] ∧
      (∀ j ∈ st.reads, j ≤ 5 ∧ j + 2 ≤ 4)) := by
  obtain ⟨st, e, r, _⟩ := C30_hackCStrCpy_truncates_and_terminates
    [9, 9, 9, 9, 9, 9, 9, 9, 9, 9] [97, 98, 99, 0, 55] 10 3 (by decide) (by norm_num)
    (by decide) rfl (by
      intro i hi
      interval_cases i
      · exact ⟨97, rfl, by decide⟩
      · exact ⟨98, rfl, by decide⟩
      · exact ⟨99, rfl, by decide⟩)
  obtain ⟨st2, e2, r2, _⟩ := C30_hackCStrCpy_truncates_and_terminates
    [9, 9, 9, 9, 9] [97, 98, 99, 100, 101, 0] 4 5 (by decide) (by norm_num)
    (by decide) rfl (by
      intro i hi
      interval_cases i
      · exact ⟨97, rfl, by decide⟩
      · exact ⟨98, rfl, by decide⟩
      · exact ⟨99, rfl, by decide⟩
      · exact ⟨100, rfl, by decide⟩
      · exact ⟨101, rfl, by decide⟩)
  have v : hackCStrCpy [9, 9, 9, 9, 9, 9, 9, 9, 9, 9] [97, 98, 99, 0, 55] 10
      = some ⟨[97, 98, 99, 0, 0, 0, 0, 0, 0, 0], true, [0, 1, 2, 3],
          [0, 1, 2, 3, 4, 5, 6, 7, 8, 9]⟩ := by
    rfl
  have v2 : hackCStrCpy [9, 9, 9, 9, 9] [97, 98, 99, 100, 101, 0] 4
      = some ⟨[97, 98, 99, 0, 9], false, [0, 1, 2], [0, 1, 2, 3]⟩ := by
    rfl
  rw [v] at e
  rw [v2] at e2
  cases e
  cases e2
  exact ⟨⟨_, v, rfl, rfl, r⟩, ⟨_, v2, rfl, rfl, r2⟩⟩

/-! ## C28: the string form of `setStoreValue` -/

theorem allocate_lookup_ne (h : Heap) (len junkType : Nat) (junk : Nat → Nat) {q : Ptr}
    (hq : q ≠ h.cells.length) :
    (Core.allocateMessage h len junkType junk).1.lookup q = h.lookup q := by
  unfold Heap.lookup
  simp only [Core.allocateMessage]
  by_cases hlt : q < h.cells.length
  · rw [List.getElem?_append_left hlt]
  · have hgt : h.cells.length < q := Nat.lt_of_le_of_ne (Nat.le_of_not_lt hlt) (Ne.symm hq)
    rw [List.getElem?_eq_none (by simp; omega), List.getElem?_eq_none (by omega)]

/-- The message form on an absent key: acquire, then the assignment; it returns 0. -/
theorem setStoreValue_absent (c : Core) (key : String) (val : Ptr) (mv : truss_message)
    (hfind : Store.find c.store_ key = none) (hval : c.heap.lookup val = some mv) :
    ∃ h1, (Core.setStoreValueSteps c key val).2
        = some ({ c with heap := h1, store_ := Store.assign c.store_ key val }, 0) ∧
      h1.lookup val = some { mv with refcount := mv.refcount + 1 } ∧
      h1.freed = c.heap.freed ∧ (∀ q, q ≠ val → h1.lookup q = c.heap.lookup q) := by
  obtain ⟨h1, e1, l1, f1, _, o1⟩ := acquire_spec hval
  rw [← core_acquire_eq] at e1
  exact ⟨h1, by simp [Core.setStoreValueSteps, e1, hfind], l1, f1, o1⟩

/-- The message form on a present key whose value is another message: acquire, the
assignment, then the release of the old value; it returns 1. -/
theorem setStoreValue_present (c : Core) (key : String) (val old : Ptr)
    (mv mo : truss_message)
    (hfind : Store.find c.store_ key = some old) (hval : c.heap.lookup val = some mv)
    (hold : c.heap.lookup old = some mo) (hro : 1 ≤ mo.refcount) (hne : old ≠ val) :
    ∃ h3, (Core.setStoreValueSteps c key val).2
        = some ({ c with heap := h3, store_ := Store.assign c.store_ key val }, 1) ∧
      h3.lookup val = some { mv with refcount := mv.refcount + 1 } ∧
      (1 < mo.refcount →
        h3.lookup old = some { mo with refcount := mo.refcount - 1 } ∧
        h3.freed = c.heap.freed) ∧
      (mo.refcount = 1 → h3.lookup old = none ∧ h3.freed = c.heap.freed ++ [old]) ∧
      (∀ q, q ≠ val → q ≠ old → h3.lookup q = c.heap.lookup q) := by
  obtain ⟨h1, e1, l1, f1, _, o1⟩ := acquire_spec hval
  rw [← core_acquire_eq] at e1
  have lo1 : h1.lookup old = some mo := by rw [o1 old hne]; exact hold
  have hvo : val ≠ old := fun e => hne e.symm
  by_cases hbig : 1 < mo.refcount
  · obtain ⟨h3, e3, l3, f3, _, o3⟩ := release_keep lo1 hbig
    rw [← core_release_eq] at e3
    refine ⟨h3, by simp [Core.setStoreValueSteps, e1, hfind, e3], ?_,
      fun _ => ⟨l3, by rw [f3, f1]⟩, fun h1' => by omega, ?_⟩
    · rw [o3 val hvo]; exact l1
    · intro q hq1 hq2
      rw [o3 q hq2, o1 q hq1]
  · obtain ⟨h3, e3, l3, f3, _, o3⟩ := release_free lo1 (by omega)
    rw [← core_release_eq] at e3
    refine ⟨h3, by simp [Core.setStoreValueSteps, e1, hfind, e3], ?_,
      fun hb => absurd hb hbig, fun _ => ⟨l3, by rw [f3, f1]⟩, ?_⟩
    · rw [o3 val hvo]; exact l1
    · intro q hq1 hq2
      rw [o3 q hq2, o1 q hq1]

theorem setStoreValueStringEnd_result (c0 c1 : Core) (newmsg : Ptr)
    (states : List Core) (c2 : Core) (result : Int) (h3 : Heap)
    (hrel : Core.releaseMessage c2.heap newmsg = some h3) :
    (Core.setStoreValueStringEnd c0 c1 newmsg (states, some (c2, result))).2
      = some ({ c2 with heap := h3 }, result) := by
  simp [Core.setStoreValueStringEnd, hrel]

/-- The first two statements of the string form: a new message at the next free address,
filled with the bytes of the string. -/
theorem setStoreValueString_prefix (c : Core) (key : String) (val : List Nat)
    (junkType : Nat) (junk : Nat → Nat) :
    ∃ hA hW : Heap,
      Core.setStoreValueStringSteps c key val junkType junk
        = Core.setStoreValueStringEnd { c with heap := hA } { c with heap := hW }
            c.heap.cells.length
            (Core.setStoreValueSteps { c with heap := hW } key c.heap.cells.length) ∧
      hW.lookup c.heap.cells.length
        = some { message_type := junkType, data_length := val.length, data := val,
                 refcount := 1 } ∧
      hW.freed = c.heap.freed ∧
      (∀ q, q ≠ c.heap.cells.length → hW.lookup q = c.heap.lookup q) := by
  have ha := allocate_lookup c.heap val.length junkType junk
  have hp : (Core.allocateMessage c.heap val.length junkType junk).2 = c.heap.cells.length :=
    rfl
  rw [hp] at ha
  have hcopy : Core.memcpy ((List.range val.length).map (fun i => junk i % 256)) val val.length
      = some val := by
    unfold Core.memcpy
    rw [if_pos ⟨Nat.le_refl _, by simp⟩]
    rw [List.take_length, List.drop_of_length_le (by simp), List.append_nil]
  refine ⟨(Core.allocateMessage c.heap val.length junkType junk).1,
    (Core.allocateMessage c.heap val.length junkType junk).1.write c.heap.cells.length
      ⟨junkType, val.length, val, 1⟩, ?_, ?_, rfl, ?_⟩
  · unfold Core.setStoreValueStringSteps
    simp only [hp, ha, hcopy]
  · exact Heap.lookup_write_same _ (by simp [Core.allocateMessage])
  · intro q hq
    rw [Heap.lookup_write_ne _ hq]
    exact allocate_lookup_ne _ _ _ _ hq

/-- The string form on an absent key. -/
theorem setStoreValueString_absent (c : Core) (key : String) (val : List Nat)
    (junkType : Nat) (junk : Nat → Nat) (hfind : Store.find c.store_ key = none) :
    ∃ h3, Core.setStoreValueString c key val junkType junk
        = some ({ c with heap := h3,
                         store_ := Store.assign c.store_ key c.heap.cells.length }, 0) ∧
      h3.lookup c.heap.cells.length
        = some { message_type := junkType, data_length := val.length, data := val,
                 refcount := 1 } ∧
      h3.freed = c.heap.freed ∧
      (∀ q, q ≠ c.heap.cells.length → h3.lookup q = c.heap.lookup q) := by
  obtain ⟨hA, hW, epre, lW, fW, oW⟩ := setStoreValueString_prefix c key val junkType junk
  obtain ⟨h1, e1, l1, f1, o1⟩ :=
    setStoreValue_absent { c with heap := hW } key c.heap.cells.length _ hfind lW
  obtain ⟨h3, e3, l3, f3, _, o3⟩ := release_keep l1 (by simp)
  rw [← core_release_eq] at e3
  refine ⟨h3, ?_, ?_, ?_, ?_⟩
  · unfold Core.setStoreValueString
    rw [epre]
    rcases hs : Core.setStoreValueSteps { c with heap := hW } key c.heap.cells.length with
      ⟨states, r⟩
    rw [hs] at e1
    simp only at e1
    subst e1
    exact setStoreValueStringEnd_result _ _ _ _ _ _ h3 e3
  · rw [l3]; simp
  · rw [f3, f1, fW]
  · intro q hq
    rw [o3 q hq, o1 q hq, oW q hq]

/-- The string form on a present key whose value is live with a reference. -/
theorem setStoreValueString_present (c : Core) (key : String) (val : List Nat)
    (junkType : Nat) (junk : Nat → Nat) (old : Ptr) (mo : truss_message)
    (hfind : Store.find c.store_ key = some old) (hold : c.heap.lookup old = some mo)
    (hro : 1 ≤ mo.refcount) :
    ∃ h4, Core.setStoreValueString c key val junkType junk
        = some ({ c with heap := h4,
                         store_ := Store.assign c.store_ key c.heap.cells.length }, 1) ∧
      h4.lookup c.heap.cells.length
        = some { message_type := junkType, data_length := val.length, data := val,
                 refcount := 1 } ∧
      (1 < mo.refcount →
        h4.lookup old = some { mo with refcount := mo.refcount - 1 } ∧
        h4.freed = c.heap.freed) ∧
      (mo.refcount = 1 → h4.lookup old = none ∧ h4.freed = c.heap.freed ++ [old]) ∧
      (∀ q, q ≠ c.heap.cells.length → q ≠ old → h4.lookup q = c.heap.lookup q) := by
  obtain ⟨hA, hW, epre, lW, fW, oW⟩ := setStoreValueString_prefix c key val junkType junk
  have hne : old ≠ c.heap.cells.length := Nat.ne_of_lt (Heap.lookup_lt hold)
  have lWo : hW.lookup old = some mo := by rw [oW old hne]; exact hold
  obtain ⟨h3, e1, l1, k1, d1, o1⟩ :=
    setStoreValue_present { c with heap := hW } key c.heap.cells.length old _ mo hfind lW lWo
      hro hne
  obtain ⟨h4, e4, l4, f4, _, o4⟩ := release_keep l1 (by simp)
  rw [← core_release_eq] at e4
  refine ⟨h4, ?_, ?_, ?_, ?_, ?_⟩
  · unfold Core.setStoreValueString
    rw [epre]
    rcases hs : Core.setStoreValueSteps { c with heap := hW } key c.heap.cells.length with
      ⟨states, r⟩
    rw [hs] at e1
    simp only at e1
    subst e1
    exact setStoreValueStringEnd_result _ _ _ _ _ _ h4 e4
  · rw [l4]; simp
  · intro hb
    obtain ⟨a, b⟩ := k1 hb
    exact ⟨by rw [o4 old hne]; exact a, by rw [f4, b, fW]⟩
  · intro hb
    obtain ⟨a, b⟩ := d1 hb
    exact ⟨by rw [o4 old hne]; exact a, by rw [f4, b, fW]⟩
  · intro q hq1 hq2
    rw [o4 q hq1, o1 q hq1 hq2, oW q hq1]

/-- C28: for every key and every string `val` (its bytes), on a store whose value for `key`,
if any, is a live message with a reference, `setStoreValue(key, val)` returns, and afterwards
`key` maps to a new message (the next free address) whose `data_length` is the length of
`val`, whose bytes are those of `val`, and whose reference count is exactly 1; every other key
keeps its value. It returns 0 when the key was absent, and then no other message changed and
nothing was deallocated; it returns 1 when the key had a value `old`, and then the reference
count of `old` went down by exactly 1 (`old` being deallocated when that was its last
reference) and no other message changed. -/
theorem C28_string_value_holds_one_reference (c : Core) (key : String) (val : List Nat)
    (junkType : Nat) (junk : Nat → Nat)
    (hold : ∀ old, Store.find c.store_ key = some old →
      ∃ mo, c.heap.lookup old = some mo ∧ 1 ≤ mo.refcount) :
    ∃ c1 result, Core.setStoreValueString c key val junkType junk = some (c1, result) ∧
      Core.getStoreValue c1 key = some c.heap.cells.length ∧
      c.heap.lookup c.heap.cells.length = none ∧
      c1.heap.lookup c.heap.cells.length
        = some { message_type := junkType, data_length := val.length, data := val,
                 refcount := 1 } ∧
      (∀ k, k ≠ key → Core.getStoreValue c1 k = Core.getStoreValue c k) ∧
      (Core.getStoreValue c key = none →
        result = 0 ∧ c1.heap.freed = c.heap.freed ∧
        ∀ q, q ≠ c.heap.cells.length → c1.heap.lookup q = c.heap.lookup q) ∧
      (∀ old mo, Core.getStoreValue c key = some old → c.heap.lookup old = some mo →
        result = 1 ∧
        (1 < mo.refcount →
          c1.heap.lookup old = some { mo with refcount := mo.refcount - 1 } ∧
          c1.heap.freed = c.heap.freed) ∧
        (mo.refcount = 1 → c1.heap.lookup old = none ∧ c1.heap.freed = c.heap.freed ++ [old]) ∧
        ∀ q, q ≠ c.heap.cells.length → q ≠ old → c1.heap.lookup q = c.heap.lookup q) := by
  have hfresh : c.heap.lookup c.heap.cells.length = none := by
    unfold Heap.lookup
    rw [List.getElem?_eq_none (Nat.le_refl _)]
    rfl
  cases hfind : Store.find c.store_ key with
  | none =>
    obtain ⟨h3, e, l, f, o⟩ := setStoreValueString_absent c key val junkType junk hfind
    refine ⟨_, _, e, getStoreValue_assign_same rfl, hfresh, l,
      fun k hk => getStoreValue_assign_ne rfl hk, fun _ => ⟨rfl, f, o⟩, ?_⟩
    intro old mo hget
    rw [getStoreValue_eq, hfind] at hget
    cases hget
  | some old =>
    obtain ⟨mo, hmo, hro⟩ := hold old hfind
    obtain ⟨h4, e, l, k1, d1, o⟩ :=
      setStoreValueString_present c key val junkType junk old mo hfind hmo hro
    refine ⟨_, _, e, getStoreValue_assign_same rfl, hfresh, l,
      fun k hk => getStoreValue_assign_ne rfl hk, ?_, ?_⟩
    · intro hget
      rw [getStoreValue_eq, hfind] at hget
      cases hget
    · intro old2 mo2 hget hmo2
      rw [getStoreValue_eq, hfind] at hget
      cases hget
      rw [hmo] at hmo2
      cases hmo2
      exact ⟨rfl, k1, d1, o⟩

/-- C28 at concrete inputs: the key "arg0" is absent and receives the two-byte string "hi";
the key "k" maps to message 0, which holds its last reference, and is overwritten. -/
theorem C28_string_value_holds_one_reference_witness :
    (∃ c1, Core.setStoreValueString Core.ctor "arg0" [104, 105] 9 (fun _ => 5)
        = some (c1, 0) ∧
      Core.getStoreValue c1 "arg0" = some 0 ∧
      c1.heap.lookup 0 = some ⟨9, 2, [104, 105], 1⟩ ∧ c1.heap.freed = []) ∧
    (∃ c1, Core.setStoreValueString
        { heap := { cells := [some ⟨1, 1, [7], 1⟩], freed := [] }, interpreters := [],
          store_ := [("k", 0)] } "k" [104, 105] 9 (fun _ => 5) = some (c1, 1) ∧
      Core.getStoreValue c1 "k" = some 1 ∧
      c1.heap.lookup 1 = some ⟨9, 2, [104, 105], 1⟩ ∧
      c1.heap.lookup 0 = none ∧ c1.heap.freed = [0]) := by
  obtain ⟨c1, r1, e1, g1, _, l1, _, a1, _⟩ :=
    C28_string_value_holds_one_reference Core.ctor "arg0" [104, 105] 9 (fun _ => 5)
      (by intro old h; cases h)
  obtain ⟨c2, r2, e2, g2, _, l2, _, _, p2⟩ :=
    C28_string_value_holds_one_reference
      { heap := { cells := [some ⟨1, 1, [7], 1⟩], freed := [] }, interpreters := [],
        store_ := [("k", 0)] } "k" [104, 105] 9 (fun _ => 5)
      (by
        intro old h
        cases h
        exact ⟨⟨1, 1, [7], 1⟩, rfl, by decide⟩)
  obtain ⟨z1, f1, _⟩ := a1 rfl
  obtain ⟨z2, _, d2, _⟩ := p2 0 ⟨1, 1, [7], 1⟩ rfl rfl
  subst z1
  subst z2
  exact ⟨⟨c1, e1, g1, l1, f1⟩, ⟨c2, e2, g2, l2, (d2 rfl).1, (d2 rfl).2⟩⟩

/-! ## C27: the mailbox's references -/

theorem count_snoc_buffers (cur fet : List Ptr) (msg p : Ptr) :
    ((cur ++ [msg]) ++ fet).count p = (cur ++ fet).count p + (if msg = p then 1 else 0) := by
  simp only [List.count_append, List.count_cons, List.count_nil, beq_iff_eq]
  omega

theorem heldAfter_append (pre : List MailboxOp) : ∀ (g : Ptr → Nat) (mid : List MailboxOp),
    heldAfter (heldAfter g pre) mid = heldAfter g (pre ++ mid) := by
  induction pre with
  | nil => intro _ _; rfl
  | cons op rest ih => intro g mid; exact ih _ mid

/-- A mailbox whose references are backed owns its entries. -/
theorem backed_owned (g : Ptr → Nat) (h : Heap) (self : Interpreter)
    (hb : self.mailboxBacked g h) : self.mailboxOwned h := by
  intro p hp
  have hpos : 0 < (self._curMessages ++ self._fetchedMessages).count p :=
    List.count_pos_iff.2 hp
  exact Heap.refsAtLeast_mono (by omega) (hb p (by omega))

/-- A send of a live message keeps every reference backed. -/
theorem send_backed (g : Ptr → Nat) (h : Heap) (self : Interpreter) (msg : Ptr)
    (hb : self.mailboxBacked g h) (hlive : h.refsAtLeast msg 1 = true) :
    ∃ r, Interpreter.sendMessage h self msg = some r ∧ Interpreter.mailboxBacked g r.1 r.2 ∧
      r.2._fetchedMessages = self._fetchedMessages := by
  obtain ⟨m, hm, hrc⟩ := (Heap.refsAtLeast_iff _ _ _).1 hlive
  obtain ⟨h1, e1, l1, _, _, o1⟩ := acquire_spec hm
  refine ⟨(h1, { self with _curMessages := self._curMessages ++ [msg] }), ?_, ?_, rfl⟩
  · simp [Interpreter.sendMessage, e1]
  · intro p
    show 0 < g p + ((self._curMessages ++ [msg]) ++ self._fetchedMessages).count p →
      h1.refsAtLeast p
        (g p + ((self._curMessages ++ [msg]) ++ self._fetchedMessages).count p) = true
    rw [count_snoc_buffers, Heap.refsAtLeast_iff]
    intro hpos
    by_cases hpm : msg = p
    · subst hpm
      rw [if_pos rfl]
      refine ⟨_, l1, ?_⟩
      by_cases hold : 0 < g msg + (self._curMessages ++ self._fetchedMessages).count msg
      · obtain ⟨m', hm', hrc'⟩ := (Heap.refsAtLeast_iff _ _ _).1 (hb msg hold)
        rw [hm] at hm'
        cases hm'
        push_cast at hrc' ⊢
        omega
      · push_cast at hrc ⊢
        omega
    · rw [if_neg hpm, Nat.add_zero] at hpos ⊢
      obtain ⟨m', hm', hrc'⟩ := (Heap.refsAtLeast_iff _ _ _).1 (hb p hpos)
      exact ⟨m', by rw [o1 p (Ne.symm hpm)]; exact hm', hrc'⟩

/-- An acquire by another holder keeps every reference backed. -/
theorem otherAcquire_backed (g : Ptr → Nat) (h : Heap) (self : Interpreter) (msg : Ptr)
    (hb : self.mailboxBacked g h) (hlive : h.refsAtLeast msg 1 = true) :
    ∃ h1, trss_acquire_message h msg = some h1 ∧
      Interpreter.mailboxBacked (MailboxOp.held g (MailboxOp.otherAcquire msg)) h1 self := by
  obtain ⟨m, hm, hrc⟩ := (Heap.refsAtLeast_iff _ _ _).1 hlive
  obtain ⟨h1, e1, l1, _, _, o1⟩ := acquire_spec hm
  refine ⟨h1, e1, ?_⟩
  intro p
  simp only [MailboxOp.held]
  rw [Heap.refsAtLeast_iff]
  intro hpos
  by_cases hpm : p = msg
  · subst hpm
    rw [if_pos rfl] at hpos ⊢
    refine ⟨_, l1, ?_⟩
    by_cases hold : 0 < g p + (self._curMessages ++ self._fetchedMessages).count p
    · obtain ⟨m', hm', hrc'⟩ := (Heap.refsAtLeast_iff _ _ _).1 (hb p hold)
      rw [hm] at hm'
      cases hm'
      push_cast at hrc' ⊢
      omega
    · push_cast at hrc ⊢
      omega
  · rw [if_neg hpm] at hpos ⊢
    obtain ⟨m', hm', hrc'⟩ := (Heap.refsAtLeast_iff _ _ _).1 (hb p hpos)
    exact ⟨m', by rw [o1 p hpm]; exact hm', hrc'⟩

/-- A release by another holder of a reference it has keeps every reference backed. -/
theorem otherRelease_backed (g : Ptr → Nat) (h : Heap) (self : Interpreter) (msg : Ptr)
    (hb : self.mailboxBacked g h) (hheld : 1 ≤ g msg) :
    ∃ h1, trss_release_message h msg = some h1 ∧
      Interpreter.mailboxBacked (MailboxOp.held g (MailboxOp.otherRelease msg)) h1 self := by
  obtain ⟨m, hm, hrc⟩ := (Heap.refsAtLeast_iff _ _ _).1 (hb msg (by omega))
  push_cast at hrc
  by_cases hbig : 1 < m.refcount
  · obtain ⟨h1, e1, l1, _, _, o1⟩ := release_keep hm hbig
    refine ⟨h1, e1, ?_⟩
    intro p
    simp only [MailboxOp.held]
    rw [Heap.refsAtLeast_iff]
    intro hpos
    by_cases hpm : p = msg
    · subst hpm
      rw [if_pos rfl] at hpos ⊢
      refine ⟨_, l1, ?_⟩
      have hcast : ((g p - 1 : Nat) : Int) = (g p : Int) - 1 := by omega
      push_cast
      omega
    · rw [if_neg hpm] at hpos ⊢
      obtain ⟨m', hm', hrc'⟩ := (Heap.refsAtLeast_iff _ _ _).1 (hb p hpos)
      exact ⟨m', by rw [o1 p hpm]; exact hm', hrc'⟩
  · obtain ⟨h1, e1, _, _, _, o1⟩ := release_free hm (by omega)
    refine ⟨h1, e1, ?_⟩
    intro p
    simp only [MailboxOp.held]
    rw [Heap.refsAtLeast_iff]
    intro hpos
    by_cases hpm : p = msg
    · subst hpm
      rw [if_pos rfl] at hpos
      omega
    · rw [if_neg hpm] at hpos ⊢
      obtain ⟨m', hm', hrc'⟩ := (Heap.refsAtLeast_iff _ _ _).1 (hb p hpos)
      exact ⟨m', by rw [o1 p hpm]; exact hm', hrc'⟩

/-- A `fetchMessages` keeps every reference backed. -/
theorem fetch_backed (g : Ptr → Nat) (h : Heap) (self : Interpreter)
    (hb : self.mailboxBacked g h) :
    ∃ h1, Interpreter.fetchMessages h self
        = some (h1, { self with _curMessages := [], _fetchedMessages := self._curMessages },
            (self._curMessages.length : Int)) ∧
      Interpreter.mailboxBacked g h1
        { self with _curMessages := [], _fetchedMessages := self._curMessages } := by
  obtain ⟨h1, e1, _, _, b1⟩ := fetch_spec h self (backed_owned g h self hb)
  refine ⟨h1, e1, ?_⟩
  intro p
  show 0 < g p + ([] ++ self._curMessages).count p →
    h1.refsAtLeast p (g p + ([] ++ self._curMessages).count p) = true
  rw [List.nil_append, Heap.refsAtLeast_iff]
  intro hpos
  obtain ⟨m, hm, hrc⟩ := (Heap.refsAtLeast_iff _ _ _).1
    (hb p (by rw [List.count_append]; omega))
  rw [List.count_append] at hrc
  push_cast at hrc
  refine ⟨_, b1 p m hm (by omega), ?_⟩
  push_cast
  omega

/-- Any allowed call returns and keeps every reference backed; a call other than
`fetchMessages` leaves the fetched buffer as it is. -/
theorem op_backed (g : Ptr → Nat) (h : Heap) (self : Interpreter) (op : MailboxOp)
    (hb : self.mailboxBacked g h) (hallowed : MailboxOp.allowed g h op = true) :
    ∃ r, MailboxOp.apply h self op = some r ∧
      Interpreter.mailboxBacked (MailboxOp.held g op) r.1 r.2 ∧
      (op ≠ MailboxOp.fetch → r.2._fetchedMessages = self._fetchedMessages) := by
  cases op with
  | send msg =>
    obtain ⟨r, e, o, f⟩ := send_backed g h self msg hb hallowed
    exact ⟨r, e, o, fun _ => f⟩
  | fetch =>
    obtain ⟨h1, e1, o1⟩ := fetch_backed g h self hb
    exact ⟨(h1, { self with _curMessages := [], _fetchedMessages := self._curMessages }),
      by simp [MailboxOp.apply, e1], o1, fun hne => absurd rfl hne⟩
  | otherAcquire msg =>
    obtain ⟨h1, e1, o1⟩ := otherAcquire_backed g h self msg hb hallowed
    exact ⟨(h1, self), by simp [MailboxOp.apply, e1], o1, fun _ => rfl⟩
  | otherRelease msg =>
    have hheld : 1 ≤ g msg := by simpa [MailboxOp.allowed] using hallowed
    obtain ⟨h1, e1, o1⟩ := otherRelease_backed g h self msg hb hheld
    exact ⟨(h1, self), by simp [MailboxOp.apply, e1], o1, fun _ => rfl⟩

/-- A sequence of allowed calls runs to its end and keeps every reference backed; without a
`fetchMessages` in it, the fetched buffer is as before. -/
theorem runMailbox_backed (ops : List MailboxOp) : ∀ (g : Ptr → Nat) (h : Heap)
    (self : Interpreter), self.mailboxBacked g h → callersBehave g h self ops = true →
    ∃ h1 s1, runMailbox h self ops = some (h1, s1) ∧
      Interpreter.mailboxBacked (heldAfter g ops) h1 s1 ∧
      (MailboxOp.fetch ∉ ops → s1._fetchedMessages = self._fetchedMessages) := by
  induction ops with
  | nil =>
    intro g h self hb _
    exact ⟨h, self, rfl, hb, fun _ => rfl⟩
  | cons op rest ih =>
    intro g h self hb hbe
    simp only [callersBehave, Bool.and_eq_true] at hbe
    obtain ⟨r, er, hr, fr⟩ := op_backed g h self op hb hbe.1
    have hb2 := hbe.2
    rw [er] at hb2
    obtain ⟨h1, s1, e1, o1, f1⟩ := ih _ r.1 r.2 hr hb2
    refine ⟨h1, s1, by simp only [runMailbox, er]; exact e1, o1, ?_⟩
    intro hno
    rw [List.mem_cons, not_or] at hno
    rw [f1 hno.2, fr (Ne.symm hno.1)]

/-- The callers behave along a sequence: they behave along its first part, and along the rest
from the state the first part leads to. -/
theorem callersBehave_append (pre : List MailboxOp) : ∀ (g : Ptr → Nat) (h : Heap)
    (self : Interpreter) (post : List MailboxOp) (h1 : Heap) (s1 : Interpreter),
    callersBehave g h self (pre ++ post) = true → runMailbox h self pre = some (h1, s1) →
    callersBehave g h self pre = true ∧ callersBehave (heldAfter g pre) h1 s1 post = true := by
  induction pre with
  | nil =>
    intro g h self post h1 s1 hb hr
    simp only [runMailbox, Option.some.injEq, Prod.mk.injEq] at hr
    obtain ⟨rfl, rfl⟩ := hr
    exact ⟨rfl, hb⟩
  | cons op rest ih =>
    intro g h self post h1 s1 hb hr
    simp only [List.cons_append, callersBehave, Bool.and_eq_true] at hb ⊢
    simp only [runMailbox] at hr
    cases ha : MailboxOp.apply h self op with
    | none => rw [ha] at hr; cases hr
    | some r =>
      rw [ha] at hr
      have hb2 := hb.2
      rw [ha] at hb2
      obtain ⟨a, b⟩ := ih _ r.1 r.2 post h1 s1 hb2 hr
      exact ⟨⟨hb.1, a⟩, b⟩

theorem callersBehave_prefix (pre : List MailboxOp) : ∀ (g : Ptr → Nat) (h : Heap)
    (self : Interpreter) (post : List MailboxOp),
    callersBehave g h self (pre ++ post) = true → callersBehave g h self pre = true := by
  induction pre with
  | nil => intro _ _ _ _ _; rfl
  | cons op rest ih =>
    intro g h self post hb
    simp only [List.cons_append, callersBehave, Bool.and_eq_true] at hb ⊢
    refine ⟨hb.1, ?_⟩
    cases ha : MailboxOp.apply h self op with
    | none => rfl
    | some r =>
      have hb2 := hb.2
      rw [ha] at hb2
      exact ih _ r.1 r.2 post hb2

/-- In a mailbox that owns its entries, every index below the fetched count gives a live
message with a reference. -/
theorem owned_getMessage (h : Heap) (self : Interpreter) (hown : self.mailboxOwned h)
    (i : Nat) (hi : i < self._fetchedMessages.length) :
    ∃ p m, Interpreter.getMessage self (i : Int) = some p ∧ h.lookup p = some m ∧
      1 ≤ m.refcount := by
  have hmem : self._fetchedMessages[i] ∈ self._curMessages ++ self._fetchedMessages :=
    List.mem_append_right _ (List.getElem_mem hi)
  obtain ⟨m, hm, hrc⟩ := (Heap.refsAtLeast_iff _ _ _).1 (hown _ hmem)
  have hpos : 0 < (self._curMessages ++ self._fetchedMessages).count self._fetchedMessages[i] :=
    List.count_pos_iff.2 hmem
  refine ⟨self._fetchedMessages[i], m, ?_, hm, by omega⟩
  rw [getMessage_ofNat, List.getElem?_eq_getElem hi]

/-- C27: on an interpreter whose two buffers are empty, with `g` counting for each message
the references that exist when the sequence starts (all held by others than the mailbox, and
covered by the reference counts), take any sequence of `sendMessage` and `fetchMessages`
calls, interleaved with acquires and releases by other holders, in which each message is live
with a reference count of at least 1 when it is sent or acquired and another holder releases
only a reference it has (one counted by `g` or acquired by it since); split it anywhere as
`pre`, then `mid` without a `fetchMessages`, then `post`. The calls of `pre` and `mid` all
return; in the state reached, every message in the incoming or fetched buffer is live with a
reference count at least its number of occurrences in the two buffers plus the references
the other holders still have; the fetched buffer after `mid` is the one after `pre`; and for
every index below its length `getMessage` gives a message that is still live, with a
reference, after `mid`: it is not deallocated before the next `fetchMessages`. -/
theorem C27_mailbox_reference_invariant (g : Ptr → Nat) (h : Heap) (self : Interpreter)
    (pre mid post : List MailboxOp)
    (hcur : self._curMessages = []) (hfet : self._fetchedMessages = [])
    (hg : ∀ p, 0 < g p → ∃ m, h.lookup p = some m ∧ (g p : Int) ≤ m.refcount)
    (hbehave : callersBehave g h self (pre ++ mid ++ post) = true)
    (hmid : MailboxOp.fetch ∉ mid) :
    ∃ h1 s1 h2 s2, runMailbox h self pre = some (h1, s1) ∧
      runMailbox h1 s1 mid = some (h2, s2) ∧
      (∀ p ∈ s2._curMessages ++ s2._fetchedMessages, ∃ m, h2.lookup p = some m ∧
        (((s2._curMessages ++ s2._fetchedMessages).count p : Nat) : Int) ≤ m.refcount ∧
        ((heldAfter g (pre ++ mid) p + (s2._curMessages ++ s2._fetchedMessages).count p : Nat)
          : Int) ≤ m.refcount) ∧
      s2._fetchedMessages = s1._fetchedMessages ∧
      ∀ i : Nat, i < s1._fetchedMessages.length →
        ∃ p m, Interpreter.getMessage s1 (i : Int) = some p ∧ h2.lookup p = some m ∧
          1 ≤ m.refcount := by
  have hback : self.mailboxBacked g h := by
    intro p hp
    rw [hcur, hfet] at hp ⊢
    simp only [List.append_nil, List.count_nil, Nat.add_zero] at hp ⊢
    exact (Heap.refsAtLeast_iff _ _ _).2 (hg p hp)
  have hb1 := callersBehave_prefix (pre ++ mid) g h self post hbehave
  have hb0 := callersBehave_prefix pre g h self mid hb1
  obtain ⟨h1, s1, e1, o1, _⟩ := runMailbox_backed pre g h self hback hb0
  have hb2 := (callersBehave_append pre g h self mid h1 s1 hb1 e1).2
  obtain ⟨h2, s2, e2, o2, f2⟩ := runMailbox_backed mid _ h1 s1 o1 hb2
  rw [heldAfter_append] at o2
  have hown2 := backed_owned _ h2 s2 o2
  refine ⟨h1, s1, h2, s2, e1, e2, ?_, f2 hmid, ?_⟩
  · intro p hp
    have hpos : 0 < (s2._curMessages ++ s2._fetchedMessages).count p :=
      List.count_pos_iff.2 hp
    obtain ⟨m, hm, hrc⟩ := (Heap.refsAtLeast_iff _ _ _).1 (o2 p (by omega))
    exact ⟨m, hm, by push_cast at hrc ⊢; omega, hrc⟩
  · intro i hi
    obtain ⟨p, m, gm, l, r⟩ := owned_getMessage h2 s2 hown2 i (by rw [f2 hmid]; exact hi)
    refine ⟨p, m, ?_, l, r⟩
    rw [getMessage_ofNat] at gm ⊢
    rw [← f2 hmid]
    exact gm

/-- C27 at a concrete input: message 0, created with one reference, is sent and fetched, then
its creator releases its reference; the message stays live, held by the fetched buffer,
until the next fetch. -/
theorem C27_mailbox_reference_invariant_witness :
    ∃ h2 s2,
      runMailbox { cells := [some ⟨1, 1, [7], 1⟩], freed := [] } (Interpreter.ctor 0 "a")
        [MailboxOp.send 0, MailboxOp.fetch, MailboxOp.otherRelease 0] = some (h2, s2) ∧
      s2._fetchedMessages = [0] ∧ h2.lookup 0 = some ⟨1, 1, [7], 1⟩ ∧ h2.freed = [] ∧
      ∃ p m, Interpreter.getMessage s2 0 = some p ∧ h2.lookup p = some m ∧
        1 ≤ m.refcount := by
  obtain ⟨h1, s1, h2, s2, e1, e2, _, fs, live⟩ :=
    C27_mailbox_reference_invariant (fun p => if p = 0 then 1 else 0)
      { cells := [some ⟨1, 1, [7], 1⟩], freed := [] }
      (Interpreter.ctor 0 "a") [MailboxOp.send 0, MailboxOp.fetch] [MailboxOp.otherRelease 0]
      [MailboxOp.fetch] rfl rfl
      (by
        intro p hp
        by_cases h0 : p = 0
        · subst h0
          exact ⟨⟨1, 1, [7], 1⟩, rfl, by decide⟩
        · simp [h0] at hp)
      (by decide) (by decide)
  have v1 : runMailbox { cells := [some ⟨1, 1, [7], 1⟩], freed := [] } (Interpreter.ctor 0 "a")
      [MailboxOp.send 0, MailboxOp.fetch]
      = some ({ cells := [some ⟨1, 1, [7], 2⟩], freed := [] },
          { Interpreter.ctor 0 "a" with _fetchedMessages := [0] }) := by
    rfl
  rw [v1] at e1
  cases e1
  have v2 : runMailbox { cells := [some ⟨1, 1, [7], 2⟩], freed := [] }
      { Interpreter.ctor 0 "a" with _fetchedMessages := [0] } [MailboxOp.otherRelease 0]
      = some ({ cells := [some ⟨1, 1, [7], 1⟩], freed := [] },
          { Interpreter.ctor 0 "a" with _fetchedMessages := [0] }) := by
    rfl
  rw [v2] at e2
  cases e2
  exact ⟨_, _, rfl, rfl, rfl, rfl, live 0 (by decide)⟩

/-! ## C26, C29: directory listings and the core lock -/

/-- A `logPrint` made by a thread that holds `coreLock_` does not return: `logMessage` locks
the mutex again. -/
theorem lockedLogPrint_while_locked (c : Core) (log_level : LogLevel) (text : String)
    (hlocked : c.coreLock_ = true) : Core.lockedLogPrint c log_level text = none := by
  simp [Core.lockedLogPrint, Core.lockedLogMessage, Core.lockCore, hlocked]

/-- For an index outside the stored results, `getStringResult` does not return, whatever the
state: it reaches its `logPrint` with the lock held. -/
theorem getStringResult_out_of_range (c : Core) (interpreter idx : Int)
    (hrange : interpreter < 0 ∨ interpreter ≥ (c.stringResults_.length : Int) ∨ idx < 0 ∨
      idx ≥ (((c.stringResults_.getD interpreter.toNat []).length : Nat) : Int)) :
    Core.getStringResult c interpreter idx = none := by
  unfold Core.getStringResult
  cases hl : c.coreLock_ with
  | true => simp [Core.lockCore, hl]
  | false =>
    simp only [Core.lockCore, hl, Bool.false_eq_true, if_false]
    by_cases h1 : interpreter < 0 ∨ interpreter ≥ (c.stringResults_.length : Int)
    · rw [if_pos h1, lockedLogPrint_while_locked _ _ _ rfl]
    · have h2 : idx < 0 ∨
          idx ≥ (((c.stringResults_.getD interpreter.toNat []).length : Nat) : Int) := by
        rcases hrange with h | h | h | h
        · exact absurd (Or.inl h) h1
        · exact absurd (Or.inr h) h1
        · exact Or.inl h
        · exact Or.inr h
      rw [if_neg h1, if_pos h2, lockedLogPrint_while_locked _ _ _ rfl]

/-- Before the filesystem is initialised `listDirectory` does not return, whatever the
state: it reaches its `logPrint` with the lock held. -/
theorem listDirectory_uninitialised (c : Core) (interpreter : Int) (dirpath : String)
    (stringlist : List String) (hfs : c.physFSInitted_ = false) :
    Core.listDirectory c interpreter dirpath stringlist = none := by
  unfold Core.listDirectory
  cases hl : c.coreLock_ with
  | true => simp [Core.lockCore, hl]
  | false =>
    simp only [Core.lockCore, hl, Bool.false_eq_true, if_false, hfs, Bool.not_false, if_true]
    rw [lockedLogPrint_while_locked _ _ _ rfl]

/-- C26: with the filesystem initialised, `listDirectory(0, "scripts")` over the names "a",
"b" returns 2 and `getStringResult(0, 0)`, `getStringResult(0, 1)` return "a" and "b"; but
`getStringResult(0, 2)` and `getStringResult(0, -1)` do not return `NULL`: they do not return
at all, and so does `getStringResult(i, k)` for every index outside the stored results. -/
theorem C26_out_of_range_result_never_returns :
    ∃ c1, Core.listDirectory { Core.ctor with physFSInitted_ := true } 0 "scripts" ["a", "b"]
        = some (c1, 2) ∧
      c1.stringResults_ = [["a", "b"]] ∧ c1.coreLock_ = false ∧
      Core.getStringResult c1 0 0 = some (c1, some "a") ∧
      Core.getStringResult c1 0 1 = some (c1, some "b") ∧
      Core.getStringResult c1 0 2 = none ∧
      Core.getStringResult c1 0 (-1) = none ∧
      (∀ k : Int, k < 0 ∨ 2 ≤ k → Core.getStringResult c1 0 k = none) ∧
      (∀ i k : Int, i < 0 ∨ 1 ≤ i → Core.getStringResult c1 i k = none) := by
  refine ⟨{ Core.ctor with physFSInitted_ := true, stringResults_ := [["a", "b"]] },
    rfl, rfl, rfl, rfl, rfl, rfl, rfl, ?_, ?_⟩
  · intro k hk
    apply getStringResult_out_of_range
    rcases hk with hk | hk
    · exact Or.inr (Or.inr (Or.inl hk))
    · exact Or.inr (Or.inr (Or.inr hk))
  · intro i k hi
    apply getStringResult_out_of_range
    rcases hi with hi | hi
    · exact Or.inl hi
    · exact Or.inr (Or.inl hi)

/-- C29: two error paths take the core lock twice. On a new `Core` (filesystem not
initialised, no stored results) `listDirectory` and `getStringResult` do not return for any
arguments, since they call `logPrint`, hence `logMessage`, with `coreLock_` held; the same
holds in every state for `listDirectory` before the filesystem is initialised. The paths
that do not log take the lock once and return: `clearStringResults` for any index, and
`listDirectory` once the filesystem is initialised. -/
theorem C29_error_paths_lock_twice (interpreter idx : Int) (dirpath : String)
    (stringlist : List String) :
    Core.listDirectory Core.ctor interpreter dirpath stringlist = none ∧
    Core.getStringResult Core.ctor interpreter idx = none ∧
    Core.lockedLogPrint { Core.ctor with coreLock_ := true } LogLevel.TRUSS_LOG_ERROR
      "String result idx '0' out of range." = none ∧
    Core.clearStringResults Core.ctor interpreter = some Core.ctor ∧
    Core.listDirectory { Core.ctor with physFSInitted_ := true } 0 dirpath []
      = some ({ Core.ctor with physFSInitted_ := true, stringResults_ := [[]] }, 0) := by
  refine ⟨listDirectory_uninitialised _ _ _ _ rfl, ?_, rfl, ?_, rfl⟩
  · apply getStringResult_out_of_range
    by_cases h : interpreter < 0
    · exact Or.inl h
    · exact Or.inr (Or.inl (by simpa [Core.ctor] using Int.not_lt.1 h))
  · unfold Core.clearStringResults
    have h : interpreter < 0 ∨ interpreter ≥ ((Core.ctor.stringResults_.length : Nat) : Int) := by
      by_cases h : interpreter < 0
      · exact Or.inl h
      · exact Or.inr (by simpa [Core.ctor] using Int.not_lt.1 h)
    simp only [Core.lockCore]
    rw [if_neg (by decide)]
    simp only
    rw [if_pos h]
    rfl

/-! ## C22 to C24: the frame loop -/

/-- Calls made from outside, when attaches are refused: only the running flag can change, and
it is cleared exactly when one of the calls is a `stop()`. -/
theorem applyCalls_flag (cs : List ApiCall) : ∀ (self : Interpreter),
    (self._thread ≠ none ∨ ∀ c ∈ cs, c = ApiCall.stop) →
    (Interpreter.applyCalls self cs).1
      = { self with _running := self._running && !decide (ApiCall.stop ∈ cs) } := by
  induction cs with
  | nil =>
    intro self _
    cases self
    simp [Interpreter.applyCalls]
  | cons c cs ih =>
    intro self h
    show (Interpreter.applyCalls (Interpreter.applyCall self c).1 cs).1 = _
    cases c with
    | stop =>
      have h1 : (Interpreter.stop self)._thread ≠ none ∨ ∀ c ∈ cs, c = ApiCall.stop := by
        rcases h with h | h
        · exact Or.inl h
        · exact Or.inr fun c hc => h c (List.mem_cons_of_mem _ hc)
      show (Interpreter.applyCalls (Interpreter.stop self) cs).1 = _
      rw [ih _ h1]
      simp [Interpreter.stop]
    | attachAddon a =>
      have ht : self._thread ≠ none := by
        rcases h with h | h
        · exact h
        · have := h (ApiCall.attachAddon a) (List.mem_cons_self _ _)
          cases this
      have h1 : Interpreter.applyCall self (ApiCall.attachAddon a)
          = (self, [Event.log "Cannot attach addon to running interpreter.\n",
              Event.deleteAddon a]) := by
        simp [Interpreter.applyCall, Interpreter.attachAddon, ht]
      rw [h1, ih _ (Or.inl ht)]
      simp

theorem filter_hooks_applyCalls (self : Interpreter) (cs : List ApiCall) :
    (Interpreter.applyCalls self cs).2.filter Event.isHookOrEntryPoint = [] := by
  rw [List.filter_eq_nil_iff]
  intro e he
  rw [applyCalls_events cs self e he]
  decide

/-- One external call, in a run that tracks the first stop. -/
theorem external_tracks (w : World) (self0 : Interpreter) (s : Nat) (r : Run) (e : Event)
    (hrej : w.attachRefused self0) (hstop : w.firstStopDuring s) (hinv : r.tracks self0 s) :
    (Interpreter.external w r e).tracks self0 s ∧
    (Interpreter.external w r e).calls = r.calls + 1 ∧
    (Interpreter.external w r e).hooks = r.hooks ++ [e].filter Event.isHookOrEntryPoint := by
  refine ⟨?_, rfl, ?_⟩
  · unfold Run.tracks at hinv ⊢
    have hr : r.self._thread ≠ none ∨ ∀ c ∈ w.during r.calls, c = ApiCall.stop := by
      rcases hrej with h | h
      · left; rw [hinv]; exact h
      · exact Or.inr fun c hc => h _ c hc
    show (Interpreter.applyCalls r.self (w.during r.calls)).1 = _
    rw [applyCalls_flag _ _ hr, hinv]
    show ({ self0 with _running := decide (r.calls ≤ s) && !decide (ApiCall.stop ∈ w.during r.calls) } : Interpreter) = { self0 with _running := decide (r.calls + 1 ≤ s) }
    have hflag : (decide (r.calls ≤ s) && !decide (ApiCall.stop ∈ w.during r.calls))
        = decide (r.calls + 1 ≤ s) := by
      by_cases h1 : r.calls < s
      · have h2 := hstop.1 _ h1
        simp [h2, Nat.le_of_lt h1, Nat.succ_le_of_lt h1]
      · by_cases h3 : r.calls = s
        · have h4 := hstop.2
          rw [h3]
          simp [h4]
        · have h5 : ¬ r.calls ≤ s := by omega
          have h6 : ¬ r.calls + 1 ≤ s := by omega
          simp [h5, h6]
    rw [hflag]
  · show (r.trace ++ [e] ++ (Interpreter.applyCalls r.self (w.during r.calls)).2).filter
        Event.isHookOrEntryPoint
      = r.trace.filter Event.isHookOrEntryPoint ++ [e].filter Event.isHookOrEntryPoint
    rw [List.filter_append, List.filter_append, filter_hooks_applyCalls, List.append_nil]

/-- A protected call of a VM entry point, in a run that tracks the first stop: the result of
the call does not matter. -/
theorem safeLuaCall_tracks (w : World) (self0 : Interpreter) (s : Nat) (r : Run)
    (funcname : String) (argstr : Option String)
    (hrej : w.attachRefused self0) (hstop : w.firstStopDuring s) (hinv : r.tracks self0 s) :
    (Interpreter._safeLuaCall w r funcname argstr).tracks self0 s ∧
    (Interpreter._safeLuaCall w r funcname argstr).calls = r.calls + 1 ∧
    (Interpreter._safeLuaCall w r funcname argstr).hooks
      = r.hooks ++ [Event.luaCall funcname argstr] := by
  obtain ⟨a, b, c⟩ := external_tracks w self0 s r (Event.luaCall funcname argstr) hrej hstop
    hinv
  have hone : [Event.luaCall funcname argstr].filter Event.isHookOrEntryPoint
      = [Event.luaCall funcname argstr] := rfl
  rw [hone] at c
  unfold Interpreter._safeLuaCall
  by_cases hres : w.pcall r.calls ≠ 0
  · simp only [hres, ne_eq, not_false_eq_true, if_true]
    refine ⟨a, b, ?_⟩
    unfold Run.hooks at c ⊢
    simp only
    rw [List.filter_append, c]
    simp [List.filter, Event.isHookOrEntryPoint]
  · simp only [hres, if_false]
    exact ⟨a, b, c⟩

/-- The `init` loop from index `i`, in a run that tracks the first stop: it returns, having
called `init` on each remaining module in order. -/
theorem initAddons_tracks (w : World) (self0 : Interpreter) (s : Nat)
    (hrej : w.attachRefused self0) (hstop : w.firstStopDuring s) :
    ∀ (fuel i : Nat) (r : Run), r.tracks self0 s → i ≤ self0._addons.length →
      self0._addons.length - i + 1 ≤ fuel →
      ∃ r1, Interpreter.initAddons w fuel i r = some r1 ∧ r1.tracks self0 s ∧
        r1.calls = r.calls + (self0._addons.length - i) ∧
        r1.hooks = r.hooks ++ (self0._addons.drop i).map Event.addonInit := by
  intro fuel
  induction fuel with
  | zero => intro i r _ _ hf; omega
  | succ k ih =>
    intro i r hinv hi hf
    have hadd : r.self._addons = self0._addons := by rw [hinv]
    by_cases hlt : i < self0._addons.length
    · have hget : r.self._addons[i]? = some self0._addons[i] := by
        rw [hadd]; exact List.getElem?_eq_getElem hlt
      obtain ⟨a1, b1, c1⟩ :=
        external_tracks w self0 s r (Event.addonInit self0._addons[i]) hrej hstop hinv
      obtain ⟨r1, e1, t1, n1, k1⟩ := ih (i + 1) _ a1 (by omega) (by omega)
      refine ⟨r1, ?_, t1, by rw [n1, b1]; omega, ?_⟩
      · simp only [Interpreter.initAddons, hget]
        exact e1
      · rw [k1, c1, List.append_assoc, List.drop_eq_getElem_cons hlt]
        rfl
    · have hget : r.self._addons[i]? = none := by
        rw [hadd]; exact List.getElem?_eq_none (by omega)
      refine ⟨r, by simp only [Interpreter.initAddons, hget], hinv, by omega, ?_⟩
      rw [List.drop_eq_nil_of_le (by omega)]
      simp

/-- The `update` loop from index `i`, in a run that tracks the first stop: it returns, having
called `update` with the frame delta on each remaining module in order, whether or not the
stop has been made. -/
theorem updateAddons_tracks (w : World) (self0 : Interpreter) (s : Nat)
    (hrej : w.attachRefused self0) (hstop : w.firstStopDuring s) :
    ∀ (fuel i : Nat) (r : Run), r.tracks self0 s → i ≤ self0._addons.length →
      self0._addons.length - i + 1 ≤ fuel →
      ∃ r1, Interpreter.updateAddons w fuel i r = some r1 ∧ r1.tracks self0 s ∧
        r1.calls = r.calls + (self0._addons.length - i) ∧
        r1.hooks = r.hooks ++
          (self0._addons.drop i).map (fun a => Event.addonUpdate a dtNum dtDen) := by
  intro fuel
  induction fuel with
  | zero => intro i r _ _ hf; omega
  | succ k ih =>
    intro i r hinv hi hf
    have hadd : r.self._addons = self0._addons := by rw [hinv]
    by_cases hlt : i < self0._addons.length
    · have hget : r.self._addons[i]? = some self0._addons[i] := by
        rw [hadd]; exact List.getElem?_eq_getElem hlt
      obtain ⟨a1, b1, c1⟩ :=
        external_tracks w self0 s r (Event.addonUpdate self0._addons[i] dtNum dtDen) hrej hstop
          hinv
      obtain ⟨r1, e1, t1, n1, k1⟩ := ih (i + 1) _ a1 (by omega) (by omega)
      refine ⟨r1, ?_, t1, by rw [n1, b1]; omega, ?_⟩
      · simp only [Interpreter.updateAddons, hget]
        exact e1
      · rw [k1, c1, List.append_assoc, List.drop_eq_getElem_cons hlt]
        rfl
    · have hget : r.self._addons[i]? = none := by
        rw [hadd]; exact List.getElem?_eq_none (by omega)
      refine ⟨r, by simp only [Interpreter.updateAddons, hget], hinv, by omega, ?_⟩
      rw [List.drop_eq_nil_of_le (by omega)]
      simp

/-- The frame loop entered when `k` more iterations start before the stop is seen: it runs
exactly `k` whole iterations, prints the shutdown message and returns. -/
theorem mainLoop_tracks (w : World) (self0 : Interpreter) (s : Nat)
    (hrej : w.attachRefused self0) (hstop : w.firstStopDuring s) :
    ∀ (k fuel : Nat) (r : Run), r.tracks self0 s →
      (∀ j, j < k → r.calls + (self0._addons.length + 1) * j ≤ s) →
      s < r.calls + (self0._addons.length + 1) * k →
      k + self0._addons.length + 1 ≤ fuel →
      ∃ r1, Interpreter.mainLoop w fuel r = some r1 ∧
        r1.self = { self0 with _running := false } ∧
        r1.hooks = r.hooks ++ framesCalls self0._addons k ∧
        r1.trace.getLast? = some (Event.log "Shutting down.\n") ∧
        r1.calls = r.calls + (self0._addons.length + 1) * k := by
  intro k
  induction k with
  | zero =>
    intro fuel r hinv _ hhi hf
    obtain ⟨fuel1, rfl⟩ : ∃ fuel1, fuel = fuel1 + 1 := ⟨fuel - 1, by omega⟩
    have hnot : ¬ r.calls ≤ s := by omega
    have hself : r.self = { self0 with _running := false } := by
      rw [hinv]
      simp [hnot]
    have hrun : r.self._running = false := by rw [hself]
    refine ⟨{ r with trace := r.trace ++ [Event.log "Shutting down.\n"] }, ?_, hself, ?_, ?_,
      by simp⟩
    · simp [Interpreter.mainLoop, hrun]
    · show (r.trace ++ [Event.log "Shutting down.\n"]).filter Event.isHookOrEntryPoint = _
      rw [List.filter_append]
      simp [Run.hooks, framesCalls, List.filter, Event.isHookOrEntryPoint]
    · simp
  | succ k ih =>
    intro fuel r hinv hlo hhi hf
    obtain ⟨fuel1, rfl⟩ : ∃ fuel1, fuel = fuel1 + 1 := ⟨fuel - 1, by omega⟩
    have h0 := hlo 0 (by omega)
    have hle : r.calls ≤ s := by omega
    have hrun : r.self._running = true := by
      rw [hinv]
      simp [hle]
    obtain ⟨r1, e1, t1, n1, k1⟩ :=
      updateAddons_tracks w self0 s hrej hstop fuel1 0 r hinv (by omega) (by omega)
    obtain ⟨t2, n2, k2⟩ := safeLuaCall_tracks w self0 s r1 "_coreUpdate" none hrej hstop t1
    have hmul : ∀ j, (self0._addons.length + 1) * (j + 1)
        = (self0._addons.length + 1) * j + (self0._addons.length + 1) := fun j =>
      Nat.mul_succ _ _
    obtain ⟨r3, e3, s3, k3, l3, n3⟩ :=
      ih fuel1 (Interpreter._safeLuaCall w r1 "_coreUpdate" none) t2
        (by
          intro j hj
          have := hlo (j + 1) (by omega)
          have := hmul j
          omega)
        (by
          have := hmul k
          omega)
        (by omega)
    refine ⟨r3, ?_, s3, ?_, l3, ?_⟩
    · simp only [Interpreter.mainLoop, hrun, if_true, e1, Option.some_bind]
      exact e3
    · rw [k3, k2, k1]
      simp [framesCalls, frameCalls, List.append_assoc]
    · rw [n3, n2, n1]
      have := hmul k
      omega

/-- The whole run loop when the bootstrap succeeds and the first stop is made during external
call `s`, with `f` the number of iterations that start before the stop is seen: it returns,
and its hook and entry-point calls are those of `runCalls` with `f` whole iterations. -/
theorem threadEntry_frames (self : Interpreter) (w : World) (b : truss_message)
    (fuel s f : Nat) (hrun : self._running = true) (hb : w.bootstrap = some b)
    (hp : w.pcall 0 = 0) (hrej : w.attachRefused self) (hstop : w.firstStopDuring s)
    (hhi : s ≤ (self._addons.length + 1) * (f + 1))
    (hlo : 0 < f → (self._addons.length + 1) * f < s)
    (hfuel : f + self._addons.length + 1 ≤ fuel) :
    ∃ r, Interpreter._threadEntry self w fuel = some r ∧
      r.self = { self with _running := false } ∧
      r.hooks = runCalls self._addons self._arg f ∧
      r.trace.getLast? = some (Event.log "Shutting down.\n") ∧
      r.calls = (self._addons.length + 1) * (f + 1) + 1 := by
  have hmul : ∀ j, (self._addons.length + 1) * (j + 1)
      = (self._addons.length + 1) * j + (self._addons.length + 1) := fun j => Nat.mul_succ _ _
  have t0 : Run.tracks self s
      { self := self, trace := [Event.newState, Event.loadFile "bootstrap.t"], calls := 0 } := by
    unfold Run.tracks
    cases self
    simp only at hrun
    simp [hrun]
  obtain ⟨t1, n1, k1⟩ := external_tracks w self s _
    (Event.loadBuffer b.data b.data_length "bootstrap.t") hrej hstop t0
  obtain ⟨r2, e2, t2, n2, k2⟩ :=
    initAddons_tracks w self s hrej hstop fuel 0 _ t1 (by omega) (by omega)
  have harg : r2.self._arg = self._arg := by rw [t2]
  obtain ⟨t3, n3, k3⟩ :=
    safeLuaCall_tracks w self s r2 "_coreInit" (some r2.self._arg) hrej hstop t2
  obtain ⟨r4, e4, s4, k4, l4, n4⟩ :=
    mainLoop_tracks w self s hrej hstop f fuel _ t3
      (by
        intro j hj
        rw [n3, n2, n1]
        have h1 := hlo (by omega)
        have h2 : (self._addons.length + 1) * (j + 1) ≤ (self._addons.length + 1) * f :=
          Nat.mul_le_mul_left _ (by omega)
        have h3 := hmul j
        simp only at h1 h2 h3 ⊢
        omega)
      (by
        rw [n3, n2, n1]
        have h3 := hmul f
        simp only at h3 ⊢
        omega)
      (by omega)
  refine ⟨r4, ?_, s4, ?_, l4, ?_⟩
  · simp only [Interpreter._threadEntry, hb, hp, ne_eq, not_true_eq_false, if_false]
    rw [e2, Option.some_bind]
    exact e4
  · rw [k4, k3, k2, k1, harg]
    simp [Run.hooks, runCalls, List.filter, Event.isHookOrEntryPoint]
  · rw [n4, n3, n2, n1]
    have h3 := hmul f
    simp only at h3 ⊢
    omega

theorem frameCalls_length (addons : List Addon) :
    (frameCalls addons).length = addons.length + 1 := by
  simp [frameCalls]

theorem framesCalls_succ_right (addons : List Addon) (k : Nat) :
    framesCalls addons (k + 1) = framesCalls addons k ++ frameCalls addons := by
  induction k with
  | zero => simp [framesCalls]
  | succ j ih =>
    show frameCalls addons ++ framesCalls addons (j + 1)
      = (frameCalls addons ++ framesCalls addons j) ++ frameCalls addons
    rw [ih, List.append_assoc]

theorem runCalls_succ (addons : List Addon) (arg : String) (k : Nat) :
    runCalls addons arg (k + 1) = runCalls addons arg k ++ frameCalls addons := by
  simp only [runCalls, framesCalls_succ_right, List.append_assoc]

theorem runCalls_length (addons : List Addon) (arg : String) (k : Nat) :
    (runCalls addons arg k).length = (addons.length + 1) * (k + 1) := by
  induction k with
  | zero => simp [runCalls, framesCalls]
  | succ j ih =>
    rw [runCalls_succ, List.length_append, ih, frameCalls_length]
    exact (Nat.mul_succ _ _).symm

/-- The number of iterations that start before a stop made during call `s` is seen. -/
theorem frames_of_stop (n s : Nat) :
    s ≤ (n + 1) * ((s - 1) / (n + 1) + 1) ∧
    (0 < (s - 1) / (n + 1) → (n + 1) * ((s - 1) / (n + 1)) < s) := by
  have h1 := Nat.div_add_mod (s - 1) (n + 1)
  have h2 := Nat.mod_lt (s - 1) (show 0 < n + 1 by omega)
  generalize (s - 1) / (n + 1) = q at h1 ⊢
  generalize (s - 1) % (n + 1) = m at h1 h2
  have h3 : (n + 1) * (q + 1) = (n + 1) * q + (n + 1) := Nat.mul_succ _ _
  refine ⟨by omega, ?_⟩
  intro hpos
  have h4 : (n + 1) * 1 ≤ (n + 1) * q := Nat.mul_le_mul_left _ hpos
  omega

/-- C22: take an interpreter whose running flag is set (by `start` or `startUnthreaded`), a
bootstrap that loads and succeeds, calls of `attachAddon` from outside that are refused, and a
first `stop()` made during external call `s` (call 0 is the bootstrap chunk). With enough fuel
the run loop returns, and its hook and entry-point calls are, in this order: `init` on each
attached module in attachment order, `_coreInit` once with the recorded argument, then for
each of the `(s - 1) / (n + 1)` iterations `update` with the delta 1/60 on each module in
attachment order followed by one `_coreUpdate`. The module list is unchanged. -/
theorem C22_hooks_in_attachment_order (self : Interpreter) (w : World) (b : truss_message)
    (fuel s : Nat) (hrun : self._running = true) (hb : w.bootstrap = some b)
    (hp : w.pcall 0 = 0) (hrej : w.attachRefused self) (hstop : w.firstStopDuring s)
    (hfuel : (s - 1) / (self._addons.length + 1) + self._addons.length + 1 ≤ fuel) :
    ∃ r, Interpreter._threadEntry self w fuel = some r ∧
      r.hooks = self._addons.map Event.addonInit ++
        [Event.luaCall "_coreInit" (some self._arg)] ++
        framesCalls self._addons ((s - 1) / (self._addons.length + 1)) ∧
      (∀ k, framesCalls self._addons (k + 1)
        = self._addons.map (fun a => Event.addonUpdate a 1 60) ++
          [Event.luaCall "_coreUpdate" none] ++ framesCalls self._addons k) ∧
      framesCalls self._addons 0 = [] ∧
      r.self._addons = self._addons := by
  obtain ⟨hhi, hlo⟩ := frames_of_stop self._addons.length s
  obtain ⟨r, e, hs, hk, _, _⟩ :=
    threadEntry_frames self w b fuel s _ hrun hb hp hrej hstop hhi hlo hfuel
  exact ⟨r, e, hk, fun _ => rfl, rfl, by rw [hs]⟩

/-- C22 at a concrete input: two modules, a stop made during the first `update` of the
second one (external call 5). -/
theorem C22_hooks_in_attachment_order_witness :
    ∃ r, Interpreter._threadEntry
        { Interpreter.ctor 0 "main" with _addons := [⟨1⟩, ⟨2⟩], _running := true, _arg := "a" }
        (worldStopDuring 5) 10 = some r ∧
      r.hooks = [Event.addonInit ⟨1⟩, Event.addonInit ⟨2⟩, Event.luaCall "_coreInit" (some "a"),
        Event.addonUpdate ⟨1⟩ 1 60, Event.addonUpdate ⟨2⟩ 1 60,
        Event.luaCall "_coreUpdate" none] := by
  obtain ⟨r, e, hk, _⟩ := C22_hooks_in_attachment_order
    { Interpreter.ctor 0 "main" with _addons := [⟨1⟩, ⟨2⟩], _running := true, _arg := "a" }
    (worldStopDuring 5) ⟨0, 3, [1, 2, 3], 1⟩ 10 5 rfl rfl rfl
    (Or.inr (by
      intro j c hc
      by_cases hj : j = 5
      · simpa [worldStopDuring, hj] using hc
      · simp [worldStopDuring, hj] at hc))
    ⟨by
      intro j hj
      have hne : j ≠ 5 := by omega
      simp [worldStopDuring, hne], by simp [worldStopDuring]⟩
    (by decide)
  exact ⟨r, e, by rw [hk]; rfl⟩

/-- C23: `stop()` only clears the running flag. Take an interpreter whose running flag is
set, a bootstrap that succeeds, and a first `stop()` made during the `t`-th call
(`1 ≤ t ≤ n + 1`: the `update` of module `t`, or `_coreUpdate` when `t = n + 1`) of
iteration `f ≥ 1` of the frame loop, that is during external call `(n + 1) * f + t`. The run
loop returns with the flag cleared after exactly `f` whole iterations: the calls made after
the one during which the stop arrived are exactly the remaining calls of that iteration, and
the calls up to it are the `f - 1` earlier iterations and the first `t` calls of this one.
The last thing the loop does is print the shutdown message. -/
theorem C23_stop_ends_loop_after_current_iteration (self : Interpreter) (w : World)
    (b : truss_message) (fuel f t : Nat) (hrun : self._running = true)
    (hb : w.bootstrap = some b) (hp : w.pcall 0 = 0) (hrej : w.attachRefused self)
    (hf : 1 ≤ f) (ht1 : 1 ≤ t) (ht2 : t ≤ self._addons.length + 1)
    (hstop : w.firstStopDuring ((self._addons.length + 1) * f + t))
    (hfuel : f + self._addons.length + 1 ≤ fuel) :
    (∀ x : Interpreter, Interpreter.stop x = { x with _running := false }) ∧
    ∃ r, Interpreter._threadEntry self w fuel = some r ∧
      r.self = { self with _running := false } ∧
      r.hooks = runCalls self._addons self._arg f ∧
      r.hooks.drop ((self._addons.length + 1) * f + t) = (frameCalls self._addons).drop t ∧
      r.hooks.take ((self._addons.length + 1) * f + t)
        = runCalls self._addons self._arg (f - 1) ++ (frameCalls self._addons).take t ∧
      r.trace.getLast? = some (Event.log "Shutting down.\n") := by
  refine ⟨fun _ => rfl, ?_⟩
  have hmul : (self._addons.length + 1) * (f + 1)
      = (self._addons.length + 1) * f + (self._addons.length + 1) := Nat.mul_succ _ _
  obtain ⟨r, e, hs, hk, hl, _⟩ :=
    threadEntry_frames self w b fuel _ f hrun hb hp hrej hstop (by omega) (fun _ => by omega)
      hfuel
  obtain ⟨g, rfl⟩ : ∃ g, f = g + 1 := ⟨f - 1, by omega⟩
  have hlen := runCalls_length self._addons self._arg g
  refine ⟨r, e, hs, hk, ?_, ?_, hl⟩
  · rw [hk, runCalls_succ, ← hlen, List.drop_append]
  · rw [hk, runCalls_succ, ← hlen, List.take_append]
    rfl

/-- C23 at a concrete input: two modules, a stop made during the `update` of the first module
in the second iteration (external call 7): the second module's `update` and `_coreUpdate`
still follow, and nothing after them. -/
theorem C23_stop_ends_loop_after_current_iteration_witness :
    ∃ r, Interpreter._threadEntry
        { Interpreter.ctor 0 "main" with _addons := [⟨1⟩, ⟨2⟩], _running := true, _arg := "a" }
        (worldStopDuring 7) 10 = some r ∧
      r.self._running = false ∧
      r.hooks = [Event.addonInit ⟨1⟩, Event.addonInit ⟨2⟩, Event.luaCall "_coreInit" (some "a"),
        Event.addonUpdate ⟨1⟩ 1 60, Event.addonUpdate ⟨2⟩ 1 60,
        Event.luaCall "_coreUpdate" none,
        Event.addonUpdate ⟨1⟩ 1 60, Event.addonUpdate ⟨2⟩ 1 60,
        Event.luaCall "_coreUpdate" none] ∧
      r.hooks.drop 7 = [Event.addonUpdate ⟨2⟩ 1 60, Event.luaCall "_coreUpdate" none] := by
  obtain ⟨_, r, e, hs, hk, hd, _, _⟩ := C23_stop_ends_loop_after_current_iteration
    { Interpreter.ctor 0 "main" with _addons := [⟨1⟩, ⟨2⟩], _running := true, _arg := "a" }
    (worldStopDuring 7) ⟨0, 3, [1, 2, 3], 1⟩ 10 2 1 rfl rfl rfl
    (Or.inr (by
      intro j c hc
      by_cases hj : j = 7
      · simpa [worldStopDuring, hj] using hc
      · simp [worldStopDuring, hj] at hc))
    (by decide) (by decide) (by decide)
    ⟨by
      intro j hj
      have hne : j ≠ 7 := by
        simp only [List.length_cons, List.length_nil] at hj
        omega
      simp [worldStopDuring, hne], by simp [worldStopDuring]⟩
    (by decide)
  exact ⟨r, e, by rw [hs], by rw [hk]; rfl, hd⟩

/-- C24: `_safeLuaCall` changes the interpreter only through what the outside does during
the call: its running flag, module list and mailbox are those left by the calls made from
outside meanwhile, and are untouched when there are none, whatever the protected call
returns; a non-zero result only adds the error text to the output. So whatever the protected
calls after the bootstrap return, in particular when each of them fails, the run loop makes
`_coreInit` and all the iterations up to the first stop (made during external call `s`): the
same hook and entry-point calls, and the same final interpreter, as in any world that differs
only in the results of the protected calls. -/
theorem C24_entry_point_errors_are_not_fatal (self : Interpreter) (w : World)
    (b : truss_message) (fuel s : Nat) (hrun : self._running = true)
    (hb : w.bootstrap = some b) (hp : w.pcall 0 = 0) (hrej : w.attachRefused self)
    (hstop : w.firstStopDuring s)
    (hfuel : (s - 1) / (self._addons.length + 1) + self._addons.length + 1 ≤ fuel) :
    (∀ (w1 : World) (r : Run) (funcname : String) (argstr : Option String),
      (Interpreter._safeLuaCall w1 r funcname argstr).self
        = (Interpreter.applyCalls r.self (w1.during r.calls)).1 ∧
      (w1.during r.calls = [] → (Interpreter._safeLuaCall w1 r funcname argstr).self = r.self) ∧
      (w1.pcall r.calls ≠ 0 →
        (Interpreter._safeLuaCall w1 r funcname argstr).trace
          = (Interpreter.external w1 r (Event.luaCall funcname argstr)).trace ++
            [Event.luaError])) ∧
    ∃ r, Interpreter._threadEntry self w fuel = some r ∧
      r.self = { self with _running := false } ∧
      r.hooks = runCalls self._addons self._arg ((s - 1) / (self._addons.length + 1)) ∧
      ∀ w2 : World, w2.bootstrap = w.bootstrap → w2.during = w.during → w2.pcall 0 = 0 →
        ∃ r2, Interpreter._threadEntry self w2 fuel = some r2 ∧ r2.self = r.self ∧
          r2.hooks = r.hooks := by
  have hsafe : ∀ (w1 : World) (r : Run) (funcname : String) (argstr : Option String),
      (Interpreter._safeLuaCall w1 r funcname argstr).self
        = (Interpreter.applyCalls r.self (w1.during r.calls)).1 := by
    intro w1 r funcname argstr
    unfold Interpreter._safeLuaCall
    by_cases hres : w1.pcall r.calls ≠ 0
    · simp only [hres, ne_eq, not_false_eq_true, if_true]
      rfl
    · simp only [hres, if_false]
      rfl
  obtain ⟨hhi, hlo⟩ := frames_of_stop self._addons.length s
  obtain ⟨r, e, hs, hk, _, _⟩ :=
    threadEntry_frames self w b fuel s _ hrun hb hp hrej hstop hhi hlo hfuel
  refine ⟨fun w1 r funcname argstr => ⟨hsafe w1 r funcname argstr, ?_, ?_⟩,
    r, e, hs, hk, ?_⟩
  · intro hnone
    rw [hsafe, hnone]
    rfl
  · intro hres
    unfold Interpreter._safeLuaCall
    simp only [hres, ne_eq, not_false_eq_true, if_true]
  · intro w2 hb2 hd2 hp2
    have hrej2 : w2.attachRefused self := by
      unfold World.attachRefused at hrej ⊢
      rw [hd2]
      exact hrej
    have hstop2 : w2.firstStopDuring s := by
      unfold World.firstStopDuring at hstop ⊢
      rw [hd2]
      exact hstop
    obtain ⟨r2, e2, hs2, hk2, _, _⟩ :=
      threadEntry_frames self w2 b fuel s _ hrun (by rw [hb2]; exact hb) hp2 hrej2 hstop2
        hhi hlo hfuel
    exact ⟨r2, e2, by rw [hs2, hs], by rw [hk2, hk]⟩

/-- C24 at a concrete input: one module, every protected call after the bootstrap fails, and
a stop is made during the second `_coreUpdate` (external call 6): `_coreInit` fails, the
first `_coreUpdate` fails, and each time the loop goes on. -/
theorem C24_entry_point_errors_are_not_fatal_witness :
    Interpreter._threadEntry
        { Interpreter.ctor 0 "main" with _addons := [⟨1⟩], _running := true, _arg := "a" }
        (worldFailingCallsStopDuring 6) 10
      = some
        { self :=
            { _ID := 0, _name := "main", _thread := none, _running := false, _arg := "a",
              _addons := [⟨1⟩], _curMessages := [], _fetchedMessages := [] }
          trace :=
            [Event.newState, Event.loadFile "bootstrap.t",
             Event.loadBuffer [1, 2, 3] 3 "bootstrap.t",
             Event.addonInit ⟨1⟩,
             Event.luaCall "_coreInit" (some "a"), Event.luaError,
             Event.addonUpdate ⟨1⟩ 1 60,
             Event.luaCall "_coreUpdate" none, Event.luaError,
             Event.addonUpdate ⟨1⟩ 1 60,
             Event.luaCall "_coreUpdate" none, Event.luaError,
             Event.log "Shutting down.\n"]
          calls := 7 } ∧
    ∃ r, Interpreter._threadEntry
        { Interpreter.ctor 0 "main" with _addons := [⟨1⟩], _running := true, _arg := "a" }
        (worldFailingCallsStopDuring 6) 10 = some r ∧
      r.hooks = [Event.addonInit ⟨1⟩, Event.luaCall "_coreInit" (some "a"),
        Event.addonUpdate ⟨1⟩ 1 60, Event.luaCall "_coreUpdate" none,
        Event.addonUpdate ⟨1⟩ 1 60, Event.luaCall "_coreUpdate" none] := by
  obtain ⟨_, r, e, _, hk, _⟩ := C24_entry_point_errors_are_not_fatal
    { Interpreter.ctor 0 "main" with _addons := [⟨1⟩], _running := true, _arg := "a" }
    (worldFailingCallsStopDuring 6) ⟨0, 3, [1, 2, 3], 1⟩ 10 6 rfl rfl rfl
    (Or.inr (by
      intro j c hc
      by_cases hj : j = 6
      · simpa [worldFailingCallsStopDuring, hj] using hc
      · simp [worldFailingCallsStopDuring, hj] at hc))
    ⟨by
      intro j hj
      have hne : j ≠ 6 := by omega
      simp [worldFailingCallsStopDuring, hne], by simp [worldFailingCallsStopDuring]⟩
    (by decide)
  exact ⟨rfl, r, e, by rw [hk]; rfl⟩

end Truss
